import Mathlib

/-!
# PeleMP spray particles: ghost-region sizing, wall reflection and source transfer

A shallow embedding of

* `SprayParticleContainer::getGhostPartCells`, `getStateGhostCells`,
  `getSourceGhostCells`, `transferSource`, `addSpraySrc`
  (`Source/PP_Spray/SprayParticles.H`),
* `tile_at_bndry`, `check_bounds_norm`, `check_wall`, `impose_wall`
  (`Source/PP_Spray/WallFunctions.H`),
* the droplet-diameter loop of `amrex_probinit`
  (`Exec/SprayTests/gammaTG/prob.cpp`).

Conventions of the embedding:

* C++ `int` is `Int`; signed overflow and an out-of-range conversion from a
  floating value to `int` are undefined behaviour in C++ and lie outside the
  model.
* `amrex::Real` is `ℚ`: arithmetic is exact, no rounding error, no NaN.  A division
  of `ℚ` by zero is 0, so what is proved of a quotient is proved for a divisor that
  is not zero.  In the diameter loop, where an infinity or a NaN decides how the
  loop ends, `amrex::Real` is `amrex_Real`: exact finite values, the two zeros, the
  infinities and NaN.
* `AMREX_SPACEDIM` is a build-time constant that the sources do not fix; it is
  the parameter `D`.  `amrex::IntVect` and `amrex::RealVect` are functions on
  `Fin D`.
* An argument passed by non-const reference is an input of the function and a
  component of its result.
-/

namespace PeleMP

/-! ## Ghost-region sizing (`SprayParticles.H`) -/

/-- The C library function `std::round`: the nearest integer, a half is rounded
away from zero.  The result is already integral, so it also stands for the
following `static_cast<int>`. -/
def std_round (x : ℚ) : Int :=
  if 0 ≤ x then ⌊x + 1 / 2⌋ else ⌈x - 1 / 2⌉

/-- `SprayParticleContainer::getGhostPartCells` (SprayParticles.H:109-122). -/
def getGhostPartCells (level finest_level amr_ncycle : Int) (cfl : ℚ)
    (depos_width : Int) : Int :=
  if level - 1 < finest_level then
    max 1 (depos_width + std_round (cfl * (amr_ncycle : ℚ)))
  else
    0

/-- `SprayParticleContainer::getStateGhostCells` (SprayParticles.H:135-152). -/
def getStateGhostCells (level finest_level amr_ncycle : Int) (cfl : ℚ)
    (interp_width depos_width : Int) : Int :=
  let ghost_state := interp_width + std_round cfl
  if level > 0 then
    let ghost_part_cells :=
      getGhostPartCells level finest_level amr_ncycle cfl depos_width
    let ghost_part_state := interp_width + ghost_part_cells
    max ghost_part_state ghost_state
  else
    ghost_state

/-- `SprayParticleContainer::getSourceGhostCells` (SprayParticles.H:162-178). -/
def getSourceGhostCells (level finest_level amr_ncycle : Int) (cfl : ℚ)
    (depos_width : Int) : Int :=
  let ghost_source := max 1 (depos_width + std_round cfl)
  if level > 0 then
    let ghost_part_cells :=
      getGhostPartCells level finest_level amr_ncycle cfl depos_width
    max ghost_part_cells ghost_source
  else
    ghost_source

/-! ## Vectors and boxes -/

/-- `amrex::IntVect`: one `int` per space direction. -/
abbrev IntVect (D : Nat) := Fin D → Int

/-- `amrex::RealVect`: one `amrex::Real` per space direction. -/
abbrev RealVect (D : Nat) := Fin D → ℚ

/-- Modelled from the spec: `amrex::Box` is a type of the AMReX library and is not
declared in the sources; it is the rectangular index region between the cell
indices `smallend` and `bigend`, both included. -/
structure Box (D : Nat) where
  smallend : IntVect D
  bigend : IntVect D

/-- Modelled from the spec: `Box::grow(n)`, "grow the box by one cell in every
direction" for `n = 1`. -/
def Box.grow {D : Nat} (b : Box D) (n : Int) : Box D :=
  { smallend := fun d => b.smallend d - n, bigend := fun d => b.bigend d + n }

/-- Modelled from the spec: `Box::growLo(dir, n)` moves the low end of direction
`dir` down by `n` cells. -/
def Box.growLo {D : Nat} (b : Box D) (dir : Fin D) (n : Int) : Box D :=
  { b with smallend := Function.update b.smallend dir (b.smallend dir - n) }

/-- Modelled from the spec: `Box::growHi(dir, n)` moves the high end of direction
`dir` up by `n` cells. -/
def Box.growHi {D : Nat} (b : Box D) (dir : Fin D) (n : Int) : Box D :=
  { b with bigend := Function.update b.bigend dir (b.bigend dir + n) }

/-- Modelled from the spec: `Box::contains(const Box&)`, "the grown box still lies
inside the domain": the low end of the argument is at or above the low end of
this box and its high end at or below, on every direction. -/
def Box.contains {D : Nat} (dom b : Box D) : Bool :=
  decide (∀ d, dom.smallend d ≤ b.smallend d) && decide (∀ d, b.bigend d ≤ dom.bigend d)

/-! ## Boundary classification (`WallFunctions.H`) -/

/-- `tile_at_bndry` (WallFunctions.H:12-37). -/
def tile_at_bndry {D : Nat} (in_box : Box D) (bndry_lo bndry_hi : IntVect D)
    (domain : Box D) : Bool :=
  let testBox := in_box.grow 1
  if domain.contains testBox then
    false
  else
    (List.finRange D).foldl
      (fun at_bndry dir =>
        let boxlo := in_box.growLo dir 1
        let boxhi := in_box.growHi dir 1
        if (!domain.contains boxlo && bndry_lo dir != 0) ||
            (!domain.contains boxhi && bndry_hi dir != 0) then
          true
        else
          at_bndry)
      false

/-- Body of the inner loop of `check_bounds_norm` (WallFunctions.H:52-68) for the
side `hilo` and the direction `dir`.  The state is the pair of "the function has
returned `true`" and the current `bflags`; once the function has returned, the
remaining iterations do nothing. -/
def check_bounds_body {D : Nat} (pos phi : RealVect D) (bndry_lo bndry_hi : IntVect D)
    (hilo : Nat) (dir : Fin D) (st : Bool × IntVect D) : Bool × IntVect D :=
  if st.1 then st
  else
    let fact : Int := if hilo = 0 then 1 else -1
    let dom_loc : ℚ := if hilo = 0 then 0 else phi dir
    let bflag : Int := if hilo = 0 then bndry_lo dir else bndry_hi dir
    if bflag ≠ 0 then
      let diff : ℚ := (fact : ℚ) * (pos dir - dom_loc)
      if diff < 0 then
        if bflag = 1 then (false, Function.update st.2 dir (-fact))
        else (true, st.2)
      else if diff < 1 / 2 then (false, Function.update st.2 dir (-2 * fact))
      else st
    else st

/-- `check_bounds_norm` (WallFunctions.H:41-72): the returned flag and the final
value of the reference argument `bflags`. -/
def check_bounds_norm {D : Nat} (pos phi : RealVect D) (bndry_lo bndry_hi : IntVect D)
    (bflags : IntVect D) : Bool × IntVect D :=
  (List.range 2).foldl
    (fun st hilo =>
      (List.finRange D).foldl
        (fun st dir => check_bounds_body pos phi bndry_lo bndry_hi hilo dir st) st)
    (false, bflags)

/-! ## Wall test (`WallFunctions.H`) -/

/-- Modelled from the spec: `amrex::EBCellFlag` is a type of the AMReX library;
per cell a classification regular, cut (single-valued) or covered, and the
multi-valued kind the library also has. -/
inductive EBCellFlag where
  | regular
  | singleValued
  | multiValued
  | covered
  deriving DecidableEq

/-- `EBCellFlag::isSingleValued`: the cell is a cut cell. -/
def EBCellFlag.isSingleValued : EBCellFlag → Bool
  | .singleValued => true
  | _ => false

/-- `EBCellFlag::isCovered`: the cell is inside the solid. -/
def EBCellFlag.isCovered : EBCellFlag → Bool
  | .covered => true
  | _ => false

/-- Modelled from the spec: `RealVect::maxDir(a_doAbs)` of the AMReX library, "the
axis of largest-magnitude normal component" for `a_doAbs = true`: the scan starts
with direction 0 and moves to a later direction only on a strictly larger value. -/
def RealVect.maxDir {D : Nat} [NeZero D] (v : RealVect D) (a_doAbs : Bool) : Fin D :=
  let val : Fin D → ℚ := fun d => if a_doAbs then |v d| else v d
  ((List.finRange D).tail.foldl
    (fun (st : Fin D × ℚ) idir => if val idir > st.2 then (idir, val idir) else st)
    ((0 : Fin D), val 0)).1

/-- `std::numeric_limits<amrex::Real>::epsilon()` for double precision. -/
def tolerance : ℚ := 1 / 2 ^ 52

/-- The local variables `wall_check`, `normal` and `bcentv` of `check_wall`. -/
structure WallState (D : Nat) where
  wall_check : Bool
  normal : RealVect D
  bcentv : RealVect D

/-- The first loop of `check_wall` (WallFunctions.H:114-129): a reflective domain
boundary; only the first flagged direction is used. -/
def check_wall_bc {D : Nat} (bflags ijkc : IntVect D) (normal : RealVect D) :
    WallState D :=
  (List.finRange D).foldl
    (fun (st : WallState D) dir =>
      if (bflags dir = -1 ∨ bflags dir = 1) ∧ st.wall_check = false then
        { wall_check := true
          normal := Function.update st.normal dir (-((bflags dir : Int) : ℚ))
          bcentv := Function.update st.bcentv dir
            ((ijkc dir : ℚ) + 1 / 2 * (((1 - bflags dir : Int)) : ℚ)) }
      else
        { st with
          normal := Function.update st.normal dir 0
          bcentv := Function.update st.bcentv dir 0 })
    { wall_check := false, normal := normal, bcentv := fun _ => 0 }

/-- The local variables of the neighbour search of `check_wall`
(WallFunctions.H:170-212). -/
structure SearchState (D : Nat) where
  max_diff : ℚ
  cur_bcent : RealVect D
  cur_norm : RealVect D
  normal : RealVect D
  bcentv : RealVect D

/-- Body of the neighbour search loop (WallFunctions.H:175-211) for the
direction `dir`.  The division for a covered neighbour (WallFunctions.H:204) is the
division of `ℚ`: it is the code's division when `vel_part[dir]` is not zero; for
`vel_part[dir] = 0` it gives 0 where the C++ code gives an infinity or a NaN, and
`check_wall_search_body_safe` tells the two cases apart.  What is proved of the
crossing fraction of a covered neighbour is proved for `vel_part[dir]` not zero. -/
def check_wall_search_body {D : Nat} (pos : RealVect D) (ijkc ijkc_prev : IntVect D)
    (vel_part : RealVect D) (flags : IntVect D → EBCellFlag)
    (bcent bnorm : IntVect D → Fin D → ℚ) (dir : Fin D) (st : SearchState D) :
    SearchState D :=
  if ijkc_prev dir ≠ ijkc dir then
    let tsti : IntVect D := Function.update ijkc_prev dir (ijkc dir)
    let probe : ℚ × RealVect D × RealVect D :=
      if (flags tsti).isSingleValued then
        let cur_norm : RealVect D := fun okdir => -bnorm tsti okdir
        let cur_bcent : RealVect D := fun okdir => (tsti okdir : ℚ) + 1 / 2 + bcent tsti okdir
        let diff1 : ℚ := ∑ okdir, (pos okdir - cur_bcent okdir) * cur_norm okdir
        let diff2 : ℚ := ∑ okdir, vel_part okdir * cur_norm okdir
        (if diff2 ≠ 0 then diff1 / diff2 else 0, cur_bcent, cur_norm)
      else if (flags tsti).isCovered then
        let cur_bcent0 : RealVect D := fun okdir => (tsti okdir : ℚ) + 1 / 2
        let cur_norm0 : RealVect D := fun _ => 0
        let sgn : ℚ := if ijkc_prev dir > ijkc dir then 1 else -1
        let cur_bcent := Function.update cur_bcent0 dir (cur_bcent0 dir + sgn * (1 / 2))
        let cur_norm := Function.update cur_norm0 dir sgn
        ((pos dir - cur_bcent dir) / vel_part dir, cur_bcent, cur_norm)
      else
        (0, st.cur_bcent, st.cur_norm)
    let cur_diff := probe.1
    let cur_bcent := probe.2.1
    let cur_norm := probe.2.2
    if cur_diff > st.max_diff then
      { max_diff := cur_diff, cur_bcent := cur_bcent, cur_norm := cur_norm
        normal := cur_norm, bcentv := cur_bcent }
    else
      { st with cur_bcent := cur_bcent, cur_norm := cur_norm }
  else st

/-- The embedded-boundary block of `check_wall` (WallFunctions.H:131-215).  A loop
that only writes entry `dir` of a vector in its iteration `dir` is written as the
vector it produces, a loop that accumulates a sum as that sum. -/
def check_wall_eb {D : Nat} [NeZero D] (pos : RealVect D) (ijkc ijkc_prev : IntVect D)
    (vel_part : RealVect D) (use_EB : Bool) (flags : IntVect D → EBCellFlag)
    (bcent bnorm : IntVect D → Fin D → ℚ) (vfrac : IntVect D → ℚ) (min_eb_vfrac : ℚ)
    (st : WallState D) : WallState D :=
  if use_EB ∧ st.wall_check = false then
    if (flags ijkc).isSingleValued then
      let normal : RealVect D := fun dir => -bnorm ijkc dir
      let bcentv : RealVect D := fun dir => (ijkc dir : ℚ) + 1 / 2 + bcent ijkc dir
      if vfrac ijkc < min_eb_vfrac then
        let fdir := RealVect.maxDir normal true
        let face_sgn : ℚ := if bcent ijkc fdir < 0 then 1 else -1
        let normal0 : RealVect D := fun _ => 0
        { wall_check := true
          normal := Function.update normal0 fdir (-face_sgn)
          bcentv := Function.update bcentv fdir ((ijkc fdir : ℚ) + 1 / 2 * (1 - face_sgn)) }
      else
        { wall_check := true, normal := normal, bcentv := bcentv }
    else if (flags ijkc).isCovered then
      let prev : ℚ × RealVect D × RealVect D :=
        if (flags ijkc_prev).isSingleValued then
          let normal : RealVect D := fun dir => -bnorm ijkc_prev dir
          let bcentv : RealVect D :=
            fun dir => (ijkc_prev dir : ℚ) + 1 / 2 + bcent ijkc_prev dir
          (∑ dir, (pos dir - bcentv dir) * normal dir, normal, bcentv)
        else
          (2, st.normal, st.bcentv)
      let test_par := prev.1
      let normal := prev.2.1
      let bcentv := prev.2.2
      if test_par > 0 then
        let fin := (List.finRange D).foldl
          (fun s dir =>
            check_wall_search_body pos ijkc ijkc_prev vel_part flags bcent bnorm dir s)
          { max_diff := 0, cur_bcent := fun _ => 0, cur_norm := fun _ => 0
            normal := normal, bcentv := bcentv }
        { wall_check := true, normal := fin.normal, bcentv := fin.bcentv }
      else
        { wall_check := true, normal := normal, bcentv := bcentv }
    else st
  else st

/-- `check_wall` (WallFunctions.H:96-230), built with `AMREX_USE_EB`; with
`use_EB = false` it is the function of a build without embedded boundaries.  The
result is the returned flag and the final values of the reference arguments
`par_dot` and `normal`. -/
def check_wall {D : Nat} [NeZero D] (pos : RealVect D) (bflags : IntVect D)
    (dx : RealVect D) (ijkc ijkc_prev : IntVect D) (vel_part : RealVect D)
    (use_EB : Bool) (flags : IntVect D → EBCellFlag)
    (bcent bnorm : IntVect D → Fin D → ℚ) (vfrac : IntVect D → ℚ) (min_eb_vfrac : ℚ)
    (par_dot : ℚ) (normal : RealVect D) : Bool × ℚ × RealVect D :=
  let st := check_wall_eb pos ijkc ijkc_prev vel_part use_EB flags bcent bnorm vfrac
    min_eb_vfrac (check_wall_bc bflags ijkc normal)
  if st.wall_check then
    let par_dot' : ℚ := ∑ dir, (pos dir - st.bcentv dir) * dx dir * st.normal dir
    (decide (par_dot' < tolerance), par_dot', st.normal)
  else
    (false, par_dot, st.normal)

/-! ## Reflection (`WallFunctions.H`) -/

/-- The part of `SprayParticleContainer::ParticleType` that `impose_wall` uses: the
position `p.pos(dir)` and the real components `p.rdata(n)`. -/
structure Particle (D : Nat) where
  pos : RealVect D
  rdata : Nat → ℚ

/-- `impose_wall` (WallFunctions.H:236-282), built with `AMREX_USE_EB`.  The index
`SprayComps::pstateVel` of the first velocity component is declared outside the
sources and is the parameter `pstateVel`.  The result is the particle after the
call. -/
def impose_wall {D : Nat} [NeZero D] (pstateVel : Nat) (p : Particle D)
    (dx plo _phi : RealVect D) (bflags : IntVect D) (use_EB : Bool)
    (flags : IntVect D → EBCellFlag) (bcent bnorm : IntVect D → Fin D → ℚ)
    (vfrac : IntVect D → ℚ) (min_eb_vfrac : ℚ) (ijkc_prev ijkc : IntVect D) :
    Particle D :=
  let par_dot : ℚ := 2
  let normal : RealVect D := fun _ => 0
  let vel_part : RealVect D := fun dir => p.rdata (pstateVel + dir)
  let normpos : RealVect D := fun dir => (p.pos dir - plo dir) / dx dir
  let chk := check_wall normpos bflags dx ijkc ijkc_prev vel_part use_EB flags bcent bnorm
    vfrac min_eb_vfrac par_dot normal
  let do_refl := chk.1
  let par_dot := chk.2.1
  let normal := chk.2.2
  if do_refl then
    let Nw_Vp : ℚ := ∑ dir, normal dir * vel_part dir
    (List.finRange D).foldl
      (fun (q : Particle D) dir =>
        { pos := Function.update q.pos dir (q.pos dir - 2 * par_dot * normal dir)
          rdata := Function.update q.rdata (pstateVel + dir)
            (q.rdata (pstateVel + dir) - 2 * Nw_Vp * normal dir) })
      p
  else
    p

/-- The call of `check_wall` made by `impose_wall` (WallFunctions.H:256-274): the
position is normalized by `plo` and `dx`, the velocity is read from the particle,
`par_dot` starts at 2 and `normal` is default-constructed. -/
def impose_wall_check {D : Nat} [NeZero D] (pstateVel : Nat) (p : Particle D)
    (dx plo : RealVect D) (bflags : IntVect D) (use_EB : Bool)
    (flags : IntVect D → EBCellFlag) (bcent bnorm : IntVect D → Fin D → ℚ)
    (vfrac : IntVect D → ℚ) (min_eb_vfrac : ℚ) (ijkc_prev ijkc : IntVect D) :
    Bool × ℚ × RealVect D :=
  check_wall (fun dir => (p.pos dir - plo dir) / dx dir) bflags dx ijkc ijkc_prev
    (fun dir => p.rdata (pstateVel + dir)) use_EB flags bcent bnorm vfrac min_eb_vfrac 2
    (fun _ => 0)

/-- Body of the first loop of `check_wall` (WallFunctions.H:116-129). -/
def check_wall_bc_step {D : Nat} (bflags ijkc : IntVect D) (st : WallState D)
    (dir : Fin D) : WallState D :=
  if (bflags dir = -1 ∨ bflags dir = 1) ∧ st.wall_check = false then
    { wall_check := true
      normal := Function.update st.normal dir (-((bflags dir : Int) : ℚ))
      bcentv := Function.update st.bcentv dir
        ((ijkc dir : ℚ) + 1 / 2 * (((1 - bflags dir : Int)) : ℚ)) }
  else
    { st with
      normal := Function.update st.normal dir 0
      bcentv := Function.update st.bcentv dir 0 }

/-- Body of the reflection loop of `impose_wall` (WallFunctions.H:277-280). -/
def impose_wall_step {D : Nat} (pstateVel : Nat) (par_dot Nw_Vp : ℚ)
    (normal : RealVect D) (q : Particle D) (dir : Fin D) : Particle D :=
  { pos := Function.update q.pos dir (q.pos dir - 2 * par_dot * normal dir)
    rdata := Function.update q.rdata (pstateVel + dir)
      (q.rdata (pstateVel + dir) - 2 * Nw_Vp * normal dir) }

/-! ## The parts of the covered-cell branch of `check_wall` -/

/-- The values of `test_par`, `normal` and `bcentv` before the neighbour search
(WallFunctions.H:157-166): the plane of the previous cell when it is a cut cell,
otherwise `test_par = 2` and the plane left by the first loop. -/
def covered_prev {D : Nat} (pos : RealVect D) (ijkc_prev : IntVect D)
    (flags : IntVect D → EBCellFlag) (bcent bnorm : IntVect D → Fin D → ℚ)
    (st : WallState D) : ℚ × RealVect D × RealVect D :=
  if (flags ijkc_prev).isSingleValued then
    let normal : RealVect D := fun dir => -bnorm ijkc_prev dir
    let bcentv : RealVect D :=
      fun dir => (ijkc_prev dir : ℚ) + 1 / 2 + bcent ijkc_prev dir
    (∑ dir, (pos dir - bcentv dir) * normal dir, normal, bcentv)
  else
    (2, st.normal, st.bcentv)

/-- The cell `tsti` probed for direction `dir` (WallFunctions.H:177-178). -/
def search_tsti {D : Nat} (ijkc ijkc_prev : IntVect D) (dir : Fin D) : IntVect D :=
  Function.update ijkc_prev dir (ijkc dir)

/-- The normal `cur_norm` of the candidate plane of direction `dir`
(WallFunctions.H:185, 199-203); zero when `tsti` is neither cut nor covered, where
the code leaves `cur_norm` as it is and never uses it. -/
def search_norm {D : Nat} (ijkc ijkc_prev : IntVect D) (flags : IntVect D → EBCellFlag)
    (bnorm : IntVect D → Fin D → ℚ) (dir : Fin D) : RealVect D :=
  if (flags (search_tsti ijkc ijkc_prev dir)).isSingleValued then
    fun okdir => -bnorm (search_tsti ijkc ijkc_prev dir) okdir
  else if (flags (search_tsti ijkc ijkc_prev dir)).isCovered then
    Function.update (fun _ => 0) dir (if ijkc_prev dir > ijkc dir then 1 else -1)
  else
    fun _ => 0

/-- The point `cur_bcent` of the candidate plane of direction `dir`
(WallFunctions.H:186-187, 198-202); zero when `tsti` is neither cut nor covered. -/
def search_bcent {D : Nat} (ijkc ijkc_prev : IntVect D) (flags : IntVect D → EBCellFlag)
    (bcent : IntVect D → Fin D → ℚ) (dir : Fin D) : RealVect D :=
  if (flags (search_tsti ijkc ijkc_prev dir)).isSingleValued then
    fun okdir => (search_tsti ijkc ijkc_prev dir okdir : ℚ) + 1 / 2 +
      bcent (search_tsti ijkc ijkc_prev dir) okdir
  else if (flags (search_tsti ijkc ijkc_prev dir)).isCovered then
    Function.update (fun okdir => (search_tsti ijkc ijkc_prev dir okdir : ℚ) + 1 / 2) dir
      ((search_tsti ijkc ijkc_prev dir dir : ℚ) + 1 / 2 +
        (if ijkc_prev dir > ijkc dir then 1 else -1) * (1 / 2))
  else
    fun _ => 0

/-- The crossing fraction `cur_diff` of direction `dir` (WallFunctions.H:176-205).  For
a covered neighbour it is the code's value when `vel_part[dir]` is not zero, the only
case it is used for; see `check_wall_search_body`. -/
def search_frac {D : Nat} (pos : RealVect D) (ijkc ijkc_prev : IntVect D)
    (vel_part : RealVect D) (flags : IntVect D → EBCellFlag)
    (bcent bnorm : IntVect D → Fin D → ℚ) (dir : Fin D) : ℚ :=
  if (flags (search_tsti ijkc ijkc_prev dir)).isSingleValued then
    if ∑ okdir, vel_part okdir * search_norm ijkc ijkc_prev flags bnorm dir okdir ≠ 0 then
      (∑ okdir, (pos okdir - search_bcent ijkc ijkc_prev flags bcent dir okdir) *
          search_norm ijkc ijkc_prev flags bnorm dir okdir) /
        (∑ okdir, vel_part okdir * search_norm ijkc ijkc_prev flags bnorm dir okdir)
    else 0
  else if (flags (search_tsti ijkc ijkc_prev dir)).isCovered then
    (pos dir - search_bcent ijkc ijkc_prev flags bcent dir dir) / vel_part dir
  else
    0

/-- The neighbour search loop (WallFunctions.H:170-212) started from the plane
`normal`, `bcentv`. -/
def covered_search {D : Nat} (pos : RealVect D) (ijkc ijkc_prev : IntVect D)
    (vel_part : RealVect D) (flags : IntVect D → EBCellFlag)
    (bcent bnorm : IntVect D → Fin D → ℚ) (normal bcentv : RealVect D) : SearchState D :=
  (List.finRange D).foldl
    (fun s dir =>
      check_wall_search_body pos ijkc ijkc_prev vel_part flags bcent bnorm dir s)
    { max_diff := 0, cur_bcent := fun _ => 0, cur_norm := fun _ => 0
      normal := normal, bcentv := bcentv }

/-! ## Source transfer (`SprayParticles.H`) -/

/-- Modelled from the spec: the fields of `SprayComps` that `addSpraySrc` reads, "the
explicit component index mapping (momentum, density, energy, per-species)"; the
type is declared outside the sources. -/
structure SprayComps where
  momIndx : Int
  rhoIndx : Int
  engIndx : Int
  specIndx : Int
  momSrcIndx : Int
  rhoSrcIndx : Int
  engSrcIndx : Int
  specSrcIndx : Int

/-- `amrex::Array4<amrex::Real>` of one box of a field: the value at a cell and a
component. -/
abbrev Array4 (D : Nat) := IntVect D → Int → ℚ

/-- Modelled from the spec: `Box::contains(IntVect)`, the cell lies between the two
ends of the box on every direction. -/
def Box.containsCell {D : Nat} (b : Box D) (c : IntVect D) : Bool :=
  decide (∀ d, b.smallend d ≤ c d ∧ c d ≤ b.bigend d)

/-- The body of the `ParallelFor` of `addSpraySrc` (SprayParticles.H:293-302) for one
cell: `tmp` and `act` are the components of the two arrays at that cell.  The number
of fuel species `SPRAY_FUEL_NUM` and the table `dep_indx` of `SprayData` are declared
outside the sources and are parameters. -/
def addSpraySrc_cell (D : Nat) (SPI : SprayComps) (SPRAY_FUEL_NUM : Nat)
    (dep_indx : Fin SPRAY_FUEL_NUM → Int) (tmp act : Int → ℚ) : Int → ℚ :=
  let a1 := (List.finRange D).foldl
    (fun (a : Int → ℚ) (dir : Fin D) =>
      Function.update a (SPI.momIndx + ((dir : Nat) : Int))
        (a (SPI.momIndx + ((dir : Nat) : Int)) + tmp (SPI.momSrcIndx + ((dir : Nat) : Int))))
    act
  let a2 := Function.update a1 SPI.rhoIndx (a1 SPI.rhoIndx + tmp SPI.rhoSrcIndx)
  let a3 := Function.update a2 SPI.engIndx (a2 SPI.engIndx + tmp SPI.engSrcIndx)
  (List.finRange SPRAY_FUEL_NUM).foldl
    (fun (a : Int → ℚ) (sp : Fin SPRAY_FUEL_NUM) =>
      let ecomp := SPI.specIndx + dep_indx sp
      Function.update a ecomp (a ecomp + tmp (SPI.specSrcIndx + ((sp : Nat) : Int))))
    a3

/-- `SprayParticleContainer::addSpraySrc` (SprayParticles.H:284-304): the body is
applied at every cell of `vbox`; the result is the array `act_array` after the
call. -/
def addSpraySrc {D : Nat} (SPI : SprayComps) (SPRAY_FUEL_NUM : Nat)
    (dep_indx : Fin SPRAY_FUEL_NUM → Int) (vbox : Box D) (tmp_array act_array : Array4 D) :
    Array4 D :=
  fun c =>
    if vbox.containsCell c then
      addSpraySrc_cell D SPI SPRAY_FUEL_NUM dep_indx (tmp_array c) (act_array c)
    else
      act_array c

/-- Modelled from the spec: `amrex::MultiFab`, a mesh field of the AMReX library: the
valid boxes of its parts, the number of components, the number of ghost cells and
the value `data i c n` of part `i` at cell `c` (valid or ghost) and component `n`.
An entry outside the allocated region stands for nothing and is 0 in a field that
is zero. -/
structure MultiFab (D : Nat) where
  boxes : List (Box D)
  nComp : Int
  nGrow : Int
  data : Nat → Array4 D

/-- Modelled from the spec: `MultiFab::setVal(v)` sets every value of the field. -/
def MultiFab.setVal {D : Nat} (mf : MultiFab D) (v : ℚ) : MultiFab D :=
  { mf with data := fun _ _ _ => v }

/-- Modelled from the spec: `MultiFab::Add(dst, src, srccomp, dstcomp, numcomp,
nghost)`, "add (component-wise) `tmp_source` into `dest_source`": on every part of
`dst`, at every cell of its valid box grown by `nghost`, the `numcomp` components of
`src` from `srccomp` on are added to those of `dst` from `dstcomp` on. -/
def MultiFab.Add {D : Nat} (dst src : MultiFab D) (srccomp dstcomp numcomp nghost : Int) :
    MultiFab D :=
  { dst with
    data := fun i c n =>
      match dst.boxes[i]? with
      | some b =>
        if (b.grow nghost).containsCell c ∧ dstcomp ≤ n ∧ n < dstcomp + numcomp then
          dst.data i c n + src.data i c (n - dstcomp + srccomp)
        else dst.data i c n
      | none => dst.data i c n }

/-- Modelled from the spec: the data movement of a synchronization primitive of the
AMReX library.  For the entry of part `i` at cell `c` of the destination, the list
of the entries (part, cell) of the source whose values reach it; it is fixed by the
boxes, their distribution and the periodicity, which the sources do not hold. -/
abbrev CommPattern (D : Nat) := Nat → IntVect D → List (Nat × IntVect D)

/-- Modelled from the spec: `MultiFab::SumBoundary(period)`, "sum across duplicated
ghost regions": every entry becomes the sum of the entries of the pattern (the entry
itself among them, where it is kept). -/
def MultiFab.SumBoundary {D : Nat} (mf : MultiFab D) (pat : CommPattern D) : MultiFab D :=
  { mf with data := fun i c n => ((pat i c).map (fun s => mf.data s.1 s.2 n)).sum }

/-- Modelled from the spec: `dst.ParallelAdd(src, 0, 0, ncomp, ...)`, "adds
overlapping contributions": the source entries of the pattern are added to the
entry, for the components below `ncomp`. -/
def MultiFab.ParallelAdd {D : Nat} (dst src : MultiFab D) (ncomp : Int)
    (pat : CommPattern D) : MultiFab D :=
  { dst with
    data := fun i c n =>
      if 0 ≤ n ∧ n < ncomp then
        dst.data i c n + ((pat i c).map (fun s => src.data s.1 s.2 n)).sum
      else dst.data i c n }

/-- Modelled from the spec: `dst.ParallelCopy(src, 0, 0, ncomp, ...)`, the copy of the
"add-then-copy operation": an entry that a source entry overlaps takes its value
(the last one of the pattern), for the components below `ncomp`; the other entries
are kept. -/
def MultiFab.ParallelCopy {D : Nat} (dst src : MultiFab D) (ncomp : Int)
    (pat : CommPattern D) : MultiFab D :=
  { dst with
    data := fun i c n =>
      match (pat i c).getLast? with
      | some s => if 0 ≤ n ∧ n < ncomp then src.data s.1 s.2 n else dst.data i c n
      | none => dst.data i c n }

/-- Modelled from the spec: what `transferSource` reads from the particle container:
`ParticleBoxArray(level)` and, for `Geom(level).periodicity()` with the boxes and
their distribution, the data movement of each of the three synchronization calls. -/
structure ParGDB (D : Nat) where
  ParticleBoxArray : Int → List (Box D)
  sumBoundaryPattern : Int → CommPattern D
  parallelAddPattern : Int → CommPattern D
  parallelCopyPattern : Int → CommPattern D

/-- `SprayParticleContainer::transferSource` (SprayParticles.H:235-280).  The flag
`PELELM_USE_SPRAY` is the build macro of that name.  The result is `none` when
`AMREX_ALWAYS_ASSERT(level >= 0)` fails, and otherwise the fields `tmpSource` and
`actSource` after the call.  The loop over the tiles of a part of `actSource`, which
cover its valid box grown by `nghost`, is the one call of `addSpraySrc` on that
box. -/
def transferSource {D : Nat} (PELELM_USE_SPRAY : Bool) (gdb : ParGDB D) (SPI : SprayComps)
    (SPRAY_FUEL_NUM : Nat) (dep_indx : Fin SPRAY_FUEL_NUM → Int)
    (source_ghosts level : Int) (tmpSource actSource : MultiFab D) :
    Option (MultiFab D × MultiFab D) :=
  if level ≥ 0 then
    let nghost := min actSource.nGrow source_ghosts
    let ncomp := tmpSource.nComp
    let tmp1 : MultiFab D :=
      if PELELM_USE_SPRAY ∧ level > 0 then
        let tmp_mf : MultiFab D :=
          { boxes := gdb.ParticleBoxArray level, nComp := ncomp, nGrow := source_ghosts
            data := fun _ _ _ => 0 }
        let tmp_mf := tmp_mf.setVal 0
        let tmp_mf := tmp_mf.ParallelAdd tmpSource ncomp (gdb.parallelAddPattern level)
        tmpSource.ParallelCopy tmp_mf ncomp (gdb.parallelCopyPattern level)
      else
        tmpSource.SumBoundary (gdb.sumBoundaryPattern level)
    let act1 : MultiFab D :=
      if tmp1.nComp = actSource.nComp then
        MultiFab.Add actSource tmp1 0 0 actSource.nComp nghost
      else
        { actSource with
          data := fun i =>
            match actSource.boxes[i]? with
            | some b =>
              addSpraySrc SPI SPRAY_FUEL_NUM dep_indx (b.grow nghost) (tmp1.data i)
                (actSource.data i)
            | none => actSource.data i }
    some (tmp1.setVal 0, act1)
  else
    none

/-- The field is zero in every cell, ghost cell and component. -/
def MultiFab.isZero {D : Nat} (mf : MultiFab D) : Prop :=
  ∀ i c n, mf.data i c n = 0

/-- The wall plane (`wall_check`, `normal`, `bcentv`) that `check_wall` has selected
before it computes `par_dot` (WallFunctions.H:114-216), in the call made by
`impose_wall`. -/
def impose_wall_plane {D : Nat} [NeZero D] (pstateVel : Nat) (p : Particle D)
    (dx plo : RealVect D) (bflags : IntVect D) (use_EB : Bool)
    (flags : IntVect D → EBCellFlag) (bcent bnorm : IntVect D → Fin D → ℚ)
    (vfrac : IntVect D → ℚ) (min_eb_vfrac : ℚ) (ijkc_prev ijkc : IntVect D) :
    WallState D :=
  check_wall_eb (fun dir => (p.pos dir - plo dir) / dx dir) ijkc ijkc_prev
    (fun dir => p.rdata (pstateVel + dir)) use_EB flags bcent bnorm vfrac min_eb_vfrac
    (check_wall_bc bflags ijkc (fun _ => 0))

/-- The signed distance of `check_wall` (WallFunctions.H:221-224) from the plane
`st` to the physical position `x`, normalized by `plo` and `dx`. -/
def wall_distance {D : Nat} (st : WallState D) (dx plo x : RealVect D) : ℚ :=
  ∑ dir, ((x dir - plo dir) / dx dir - st.bcentv dir) * dx dir * st.normal dir

/-! ## `check_wall` with the divisions checked -/

/-- A division of `amrex::Real` values that reports a zero divisor: `none` stands for
a division by zero. -/
def checked_div (a b : ℚ) : Option ℚ :=
  if b = 0 then none else some (a / b)

/-- Body of the neighbour search loop (WallFunctions.H:175-211) as in
`check_wall_search_body`, with every division checked: the result is `none` when
the iteration divides by zero. -/
def check_wall_search_body_safe {D : Nat} (pos : RealVect D) (ijkc ijkc_prev : IntVect D)
    (vel_part : RealVect D) (flags : IntVect D → EBCellFlag)
    (bcent bnorm : IntVect D → Fin D → ℚ) (dir : Fin D) (st : SearchState D) :
    Option (SearchState D) :=
  if ijkc_prev dir ≠ ijkc dir then
    let tsti : IntVect D := Function.update ijkc_prev dir (ijkc dir)
    let probe : Option (ℚ × RealVect D × RealVect D) :=
      if (flags tsti).isSingleValued then
        let cur_norm : RealVect D := fun okdir => -bnorm tsti okdir
        let cur_bcent : RealVect D := fun okdir => (tsti okdir : ℚ) + 1 / 2 + bcent tsti okdir
        let diff1 : ℚ := ∑ okdir, (pos okdir - cur_bcent okdir) * cur_norm okdir
        let diff2 : ℚ := ∑ okdir, vel_part okdir * cur_norm okdir
        if diff2 ≠ 0 then
          (checked_div diff1 diff2).map (fun cur_diff => (cur_diff, cur_bcent, cur_norm))
        else
          some (0, cur_bcent, cur_norm)
      else if (flags tsti).isCovered then
        let cur_bcent0 : RealVect D := fun okdir => (tsti okdir : ℚ) + 1 / 2
        let cur_norm0 : RealVect D := fun _ => 0
        let sgn : ℚ := if ijkc_prev dir > ijkc dir then 1 else -1
        let cur_bcent := Function.update cur_bcent0 dir (cur_bcent0 dir + sgn * (1 / 2))
        let cur_norm := Function.update cur_norm0 dir sgn
        (checked_div (pos dir - cur_bcent dir) (vel_part dir)).map
          (fun cur_diff => (cur_diff, cur_bcent, cur_norm))
      else
        some (0, st.cur_bcent, st.cur_norm)
    probe.map (fun pr =>
      if pr.1 > st.max_diff then
        { max_diff := pr.1, cur_bcent := pr.2.1, cur_norm := pr.2.2
          normal := pr.2.2, bcentv := pr.2.1 }
      else
        { st with cur_bcent := pr.2.1, cur_norm := pr.2.2 })
  else some st

/-- The embedded-boundary block of `check_wall` (WallFunctions.H:131-215) as in
`check_wall_eb`, with the divisions of the neighbour search checked; the other
branches have no division. -/
def check_wall_eb_safe {D : Nat} [NeZero D] (pos : RealVect D) (ijkc ijkc_prev : IntVect D)
    (vel_part : RealVect D) (use_EB : Bool) (flags : IntVect D → EBCellFlag)
    (bcent bnorm : IntVect D → Fin D → ℚ) (vfrac : IntVect D → ℚ) (min_eb_vfrac : ℚ)
    (st : WallState D) : Option (WallState D) :=
  if use_EB ∧ st.wall_check = false then
    if (flags ijkc).isSingleValued then
      let normal : RealVect D := fun dir => -bnorm ijkc dir
      let bcentv : RealVect D := fun dir => (ijkc dir : ℚ) + 1 / 2 + bcent ijkc dir
      if vfrac ijkc < min_eb_vfrac then
        let fdir := RealVect.maxDir normal true
        let face_sgn : ℚ := if bcent ijkc fdir < 0 then 1 else -1
        let normal0 : RealVect D := fun _ => 0
        some { wall_check := true
               normal := Function.update normal0 fdir (-face_sgn)
               bcentv := Function.update bcentv fdir
                 ((ijkc fdir : ℚ) + 1 / 2 * (1 - face_sgn)) }
      else
        some { wall_check := true, normal := normal, bcentv := bcentv }
    else if (flags ijkc).isCovered then
      let prev : ℚ × RealVect D × RealVect D :=
        if (flags ijkc_prev).isSingleValued then
          let normal : RealVect D := fun dir => -bnorm ijkc_prev dir
          let bcentv : RealVect D :=
            fun dir => (ijkc_prev dir : ℚ) + 1 / 2 + bcent ijkc_prev dir
          (∑ dir, (pos dir - bcentv dir) * normal dir, normal, bcentv)
        else
          (2, st.normal, st.bcentv)
      let test_par := prev.1
      let normal := prev.2.1
      let bcentv := prev.2.2
      if test_par > 0 then
        let fin := (List.finRange D).foldl
          (fun (s : Option (SearchState D)) (dir : Fin D) =>
            s.bind (check_wall_search_body_safe pos ijkc ijkc_prev vel_part flags bcent
              bnorm dir))
          (some { max_diff := 0, cur_bcent := fun _ => 0, cur_norm := fun _ => 0
                  normal := normal, bcentv := bcentv })
        fin.map (fun fin => { wall_check := true, normal := fin.normal, bcentv := fin.bcentv })
      else
        some { wall_check := true, normal := normal, bcentv := bcentv }
    else some st
  else some st

/-- `check_wall` (WallFunctions.H:96-230) as in `check_wall`, with every division
checked: `none` when the call divides by zero, otherwise the result of the call. -/
def check_wall_safe {D : Nat} [NeZero D] (pos : RealVect D) (bflags : IntVect D)
    (dx : RealVect D) (ijkc ijkc_prev : IntVect D) (vel_part : RealVect D)
    (use_EB : Bool) (flags : IntVect D → EBCellFlag)
    (bcent bnorm : IntVect D → Fin D → ℚ) (vfrac : IntVect D → ℚ) (min_eb_vfrac : ℚ)
    (par_dot : ℚ) (normal : RealVect D) : Option (Bool × ℚ × RealVect D) :=
  (check_wall_eb_safe pos ijkc ijkc_prev vel_part use_EB flags bcent bnorm vfrac
    min_eb_vfrac (check_wall_bc bflags ijkc normal)).map
    (fun st =>
      if st.wall_check then
        let par_dot' : ℚ := ∑ dir, (pos dir - st.bcentv dir) * dx dir * st.normal dir
        (decide (par_dot' < tolerance), par_dot', st.normal)
      else
        (false, par_dot, st.normal))

/-! ## Droplet diameter solve (`Exec/SprayTests/gammaTG/prob.cpp`) -/

/-- `amrex::Real` (a `double`) with the special values of IEEE 754 arithmetic, which
decide how the diameter loop of `amrex_probinit` ends: a finite value, kept as an
exact rational (`fin 0` is the positive zero), the negative zero, an infinity with
its sign bit, or a NaN.  Rounding, overflow and underflow of finite values are
outside the model. -/
inductive amrex_Real where
  | fin (q : ℚ)
  | negzero
  | inf (neg : Bool)
  | nan
  deriving DecidableEq

/-- The value is a NaN. -/
def amrex_Real.isNan : amrex_Real → Bool
  | .nan => true
  | _ => false

/-- The value is an infinity. -/
def amrex_Real.isInf : amrex_Real → Bool
  | .inf _ => true
  | _ => false

/-- The value is one of the two zeros. -/
def amrex_Real.isZero : amrex_Real → Bool
  | .fin q => decide (q = 0)
  | .negzero => true
  | _ => false

/-- The sign bit of a value that is not a NaN. -/
def amrex_Real.signbit : amrex_Real → Bool
  | .fin q => decide (q < 0)
  | .negzero => true
  | .inf neg => neg
  | .nan => false

/-- The number a finite value stands for. -/
def amrex_Real.val : amrex_Real → ℚ
  | .fin q => q
  | _ => 0

/-- The zero with the sign bit `neg`. -/
def amrex_Real.zero (neg : Bool) : amrex_Real :=
  if neg then .negzero else .fin 0

/-- The product `x * y` of two doubles: a NaN operand or an infinity times a zero
gives a NaN; the sign of any other result is the exclusive or of the signs. -/
def amrex_Real.mul (x y : amrex_Real) : amrex_Real :=
  if x.isNan || y.isNan then .nan
  else if x.isInf || y.isInf then
    if x.isZero || y.isZero then .nan else .inf (xor x.signbit y.signbit)
  else if x.val * y.val = 0 then amrex_Real.zero (xor x.signbit y.signbit)
  else .fin (x.val * y.val)

/-- The quotient `x / y` of two doubles: a NaN operand, an infinity over an infinity
or a zero over a zero gives a NaN; a value that is not zero over a zero gives an
infinity; the sign of any result that is not a NaN is the exclusive or of the
signs. -/
def amrex_Real.div (x y : amrex_Real) : amrex_Real :=
  if x.isNan || y.isNan then .nan
  else if x.isInf then
    if y.isInf then .nan else .inf (xor x.signbit y.signbit)
  else if y.isInf then amrex_Real.zero (xor x.signbit y.signbit)
  else if y.isZero then
    if x.isZero then .nan else .inf (xor x.signbit y.signbit)
  else if x.isZero then amrex_Real.zero (xor x.signbit y.signbit)
  else .fin (x.val / y.val)

/-- The sum `x + y` of two doubles: a NaN operand or two infinities of opposite
sign give a NaN; a zero sum is the negative zero only for two negative zeros. -/
def amrex_Real.add (x y : amrex_Real) : amrex_Real :=
  if x.isNan || y.isNan then .nan
  else if x.isInf then
    if y.isInf && xor x.signbit y.signbit then .nan else x
  else if y.isInf then y
  else if x.val + y.val = 0 then amrex_Real.zero (x.signbit && y.signbit)
  else .fin (x.val + y.val)

/-- The negation `-x` of a double: the sign bit is flipped. -/
def amrex_Real.neg : amrex_Real → amrex_Real
  | .fin q => if q = 0 then .negzero else .fin (-q)
  | .negzero => .fin 0
  | .inf neg => .inf (!neg)
  | .nan => .nan

/-- The difference `x - y` of two doubles, the sum of `x` and `-y`. -/
def amrex_Real.sub (x y : amrex_Real) : amrex_Real :=
  x.add y.neg

/-- `std::abs` of a double: the sign bit is cleared. -/
def amrex_Real.abs : amrex_Real → amrex_Real
  | .fin q => .fin |q|
  | .negzero => .fin 0
  | .inf _ => .inf false
  | .nan => .nan

/-- The comparison `x > y` of two doubles: false when an operand is a NaN; the two
zeros are equal. -/
def amrex_Real.gt (x y : amrex_Real) : Bool :=
  if x.isNan || y.isNan then false
  else if x.isInf then !x.signbit && !(y.isInf && !y.signbit)
  else if y.isInf then y.signbit
  else decide (x.val > y.val)

/-- The comparison `x <= y` of two doubles: false when an operand is a NaN. -/
def amrex_Real.le (x y : amrex_Real) : Bool :=
  if x.isNan || y.isNan then false else !x.gt y

/-- The tolerance `tol` of the diameter solve (prob.cpp:76). -/
def probinit_tol : amrex_Real := .fin (1 / 1000000)

/-- The iteration cap `maxIter` of the diameter solve (prob.cpp:78). -/
def probinit_maxIter : Int := 500

/-- The quantities the diameter loop of `amrex_probinit` reads and does not change;
`std_pow` stands for `std::pow`, whose values are not rational. -/
structure ProbinitParm where
  std_pow : amrex_Real → amrex_Real → amrex_Real
  refU : amrex_Real
  rho0 : amrex_Real
  mu : amrex_Real
  refRho : amrex_Real
  tau_d : amrex_Real
  partRho : amrex_Real

/-- One pass through the body of the `while` loop of `amrex_probinit`
(prob.cpp:81-87) from the diameter `dia`: the new values of `dia` and `error`.
Products and quotients are taken from left to right, as C++ does. -/
def probinit_body (P : ProbinitParm) (dia : amrex_Real) : amrex_Real × amrex_Real :=
  let oldDia := dia
  let Re_d := ((dia.mul P.refU).mul P.rho0).div P.mu
  let C_D0 := (amrex_Real.fin 24).div Re_d
  let C_D :=
    if Re_d.gt (.fin 1) then
      C_D0.mul ((amrex_Real.fin 1).add
        ((P.std_pow Re_d ((amrex_Real.fin 2).div (.fin 3))).div (.fin 6)))
    else C_D0
  let dia := (((((amrex_Real.fin (3 / 4)).mul P.refRho).mul C_D).mul P.refU).mul
    P.tau_d).div P.partRho
  let error := ((oldDia.sub dia).abs).div dia
  (dia, error)

/-- How the `while` loop of `amrex_probinit` ends: it is left through its condition
with the final `dia`, `error` and `k`, or `amrex::Abort` is called at the counter
`k`, or the fuel of the model ran out. -/
inductive DiaSolve where
  | exited (dia error : amrex_Real) (k : Int)
  | aborted (k : Int)
  | out_of_fuel
  deriving DecidableEq

/-- The `while` loop of `amrex_probinit` (prob.cpp:80-93) from the state `dia`,
`error`, `k`, with `fuel` bounding the number of passes of the model.  The counter
`k` is raised once in every pass of the body. -/
def probinit_loop (P : ProbinitParm) : Nat → amrex_Real → amrex_Real → Int → DiaSolve
  | 0, _, _, _ => DiaSolve.out_of_fuel
  | fuel + 1, dia, error, k =>
    if error.gt probinit_tol then
      let r := probinit_body P dia
      let k := k + 1
      if k > probinit_maxIter then DiaSolve.aborted k
      else probinit_loop P fuel r.1 r.2 k
    else DiaSolve.exited dia error k

/-- The diameter solve of `amrex_probinit` (prob.cpp:75-93) from the first guess
`dia0` (a square root in the code): `error` starts at 1000 and `k` at 0. -/
def amrex_probinit_solve (P : ProbinitParm) (fuel : Nat) (dia0 : amrex_Real) : DiaSolve :=
  probinit_loop P fuel dia0 (.fin 1000) 0

/-- The values of `dia` and `error` after `n` passes through the body of the loop,
from the first guess `dia0`. -/
def probinit_iterate (P : ProbinitParm) (dia0 : amrex_Real) : Nat → amrex_Real × amrex_Real
  | 0 => (dia0, .fin 1000)
  | n + 1 => probinit_body P (probinit_iterate P dia0 n).1

/-- The loop quantities that `prob.st_mod = 0` gives (prob.cpp:61-75): `St_num`, and
with it `tau_d`, is zero; the other quantities are finite and not zero, here the
density ratio 1000 and 1 for the rest. -/
def probinit_stmod_zero : ProbinitParm :=
  { std_pow := fun _ _ => .nan
    refU := .fin 1
    rho0 := .fin 1
    mu := .fin 1
    refRho := .fin 1
    tau_d := .fin 0
    partRho := .fin 1000 }

/-! ## Per-direction description of `check_bounds_norm` -/

/-- The signed distance `diff` computed at WallFunctions.H:55 for side `hilo`. -/
def bounds_diff {D : Nat} (pos phi : RealVect D) (hilo : Nat) (dir : Fin D) : ℚ :=
  if hilo = 0 then pos dir else phi dir - pos dir

/-- The boundary flag read at WallFunctions.H:53 for side `hilo`. -/
def bounds_bflag {D : Nat} (bndry_lo bndry_hi : IntVect D) (hilo : Nat) (dir : Fin D) :
    Int :=
  if hilo = 0 then bndry_lo dir else bndry_hi dir

/-- The particle is outside side `hilo` of direction `dir` and that side is neither
periodic nor reflective. -/
def bounds_escapes {D : Nat} (pos phi : RealVect D) (bndry_lo bndry_hi : IntVect D)
    (hilo : Nat) (dir : Fin D) : Prop :=
  bounds_bflag bndry_lo bndry_hi hilo dir ≠ 0 ∧ bounds_diff pos phi hilo dir < 0 ∧
    bounds_bflag bndry_lo bndry_hi hilo dir ≠ 1

instance bounds_escapes_decidable {D : Nat} (pos phi : RealVect D)
    (bndry_lo bndry_hi : IntVect D) (hilo : Nat) (dir : Fin D) :
    Decidable (bounds_escapes pos phi bndry_lo bndry_hi hilo dir) := by
  unfold bounds_escapes
  infer_instance

/-- The flag of direction `dir` after the pass over side `hilo`, from its value
`old` before the pass, when the pass does not return. -/
def bounds_flag {D : Nat} (pos phi : RealVect D) (bndry_lo bndry_hi : IntVect D)
    (hilo : Nat) (dir : Fin D) (old : Int) : Int :=
  if bounds_bflag bndry_lo bndry_hi hilo dir ≠ 0 then
    if bounds_diff pos phi hilo dir < 0 then (if hilo = 0 then -1 else 1)
    else if bounds_diff pos phi hilo dir < 1 / 2 then (if hilo = 0 then -2 else 2)
    else old
  else old

/-! ## Theorems -/

/-- `std_round` is monotone. -/
theorem std_round_mono {x y : ℚ} (h : x ≤ y) : std_round x ≤ std_round y := by
  unfold std_round
  by_cases hx : 0 ≤ x
  · have hy : 0 ≤ y := le_trans hx h
    rw [if_pos hx, if_pos hy]
    exact Int.floor_le_floor (by linarith)
  · rw [if_neg hx]
    by_cases hy : 0 ≤ y
    · rw [if_pos hy]
      have h1 : ⌈x - 1 / 2⌉ ≤ 0 := by
        rw [Int.ceil_le]
        push_neg at hx
        push_cast
        linarith
      have h2 : (0 : Int) ≤ ⌊y + 1 / 2⌋ := by
        rw [Int.le_floor]
        push_cast
        linarith
      exact le_trans h1 h2
    · rw [if_neg hy]
      exact Int.ceil_le_ceil (by linarith)

/-- `std_round` of an integer-valued argument is that integer. -/
theorem std_round_intCast (n : Int) : std_round (n : ℚ) = n := by
  unfold std_round
  by_cases h : (0 : ℚ) ≤ (n : ℚ)
  · rw [if_pos h, Int.floor_eq_iff]
    constructor <;> linarith
  · rw [if_neg h, Int.ceil_eq_iff]
    constructor <;> linarith

/-- `getGhostPartCells` is monotone in `cfl` and `depos_width` when the
subcycle count is not negative. -/
theorem getGhostPartCells_mono (level finest_level amr_ncycle : Int)
    {cfl cfl' : ℚ} {depos_width depos_width' : Int}
    (hn : 0 ≤ amr_ncycle) (hc : cfl ≤ cfl') (hd : depos_width ≤ depos_width') :
    getGhostPartCells level finest_level amr_ncycle cfl depos_width ≤
      getGhostPartCells level finest_level amr_ncycle cfl' depos_width' := by
  unfold getGhostPartCells
  have hq : (0 : ℚ) ≤ (amr_ncycle : ℚ) := by exact_mod_cast hn
  have hr : std_round (cfl * (amr_ncycle : ℚ)) ≤ std_round (cfl' * (amr_ncycle : ℚ)) :=
    std_round_mono (mul_le_mul_of_nonneg_right hc hq)
  split
  · exact max_le_max le_rfl (by omega)
  · exact le_rfl

/-- C1 (counterexample): with `level = finest_level = 3`, two subcycles, the default
`cfl = 0.5` and `depos_width = 0` the function returns 1, not 0. -/
theorem C1_counterexample : getGhostPartCells 3 3 2 (1 / 2) 0 ≠ 0 := by
  norm_num [getGhostPartCells, std_round, Int.floor_eq_iff]

/-- C1 (amended): `getGhostPartCells` returns exactly 0 when it is called with
`level = finest_level + 1`, that is when the level `level - 1` the ghost particles
are made from is the finest one; called with `level = finest_level` it returns
`max(1, depos_width + round(cfl * amr_ncycle))`. -/
theorem C1_getGhostPartCells_above_finest (finest_level amr_ncycle : Int) (cfl : ℚ)
    (depos_width : Int) :
    getGhostPartCells (finest_level + 1) finest_level amr_ncycle cfl depos_width = 0 ∧
    getGhostPartCells finest_level finest_level amr_ncycle cfl depos_width =
      max 1 (depos_width + std_round (cfl * (amr_ncycle : ℚ))) := by
  unfold getGhostPartCells
  constructor
  · rw [if_neg (by omega)]
  · rw [if_pos (by omega)]

/-- C2: `getStateGhostCells` is `interp_width + round(cfl)` when `level <= 0`, and
the larger of that and `interp_width + getGhostPartCells(...)` when `level > 0`. -/
theorem C2_getStateGhostCells_eq (level finest_level amr_ncycle : Int) (cfl : ℚ)
    (interp_width depos_width : Int) :
    (level ≤ 0 →
      getStateGhostCells level finest_level amr_ncycle cfl interp_width depos_width =
        interp_width + std_round cfl) ∧
    (level > 0 →
      getStateGhostCells level finest_level amr_ncycle cfl interp_width depos_width =
        max (interp_width + std_round cfl)
          (interp_width +
            getGhostPartCells level finest_level amr_ncycle cfl depos_width)) := by
  unfold getStateGhostCells
  constructor
  · intro h
    simp only
    rw [if_neg (by omega)]
  · intro h
    simp only
    rw [if_pos h, max_comm]

/-- C2 (witness): both cases at concrete arguments. -/
theorem C2_getStateGhostCells_eq_witness :
    getStateGhostCells 0 2 2 (1 / 2) 1 0 = 1 + std_round (1 / 2) ∧
    getStateGhostCells 1 2 2 (1 / 2) 1 0 =
      max (1 + std_round (1 / 2)) (1 + getGhostPartCells 1 2 2 (1 / 2) 0) :=
  ⟨(C2_getStateGhostCells_eq 0 2 2 (1 / 2) 1 0).1 (by decide),
   (C2_getStateGhostCells_eq 1 2 2 (1 / 2) 1 0).2 (by decide)⟩

/-- C3: `getSourceGhostCells` is `max(1, depos_width + round(cfl))` when
`level <= 0`, and the larger of that and `getGhostPartCells(...)` when `level > 0`. -/
theorem C3_getSourceGhostCells_eq (level finest_level amr_ncycle : Int) (cfl : ℚ)
    (depos_width : Int) :
    (level ≤ 0 →
      getSourceGhostCells level finest_level amr_ncycle cfl depos_width =
        max 1 (depos_width + std_round cfl)) ∧
    (level > 0 →
      getSourceGhostCells level finest_level amr_ncycle cfl depos_width =
        max (max 1 (depos_width + std_round cfl))
          (getGhostPartCells level finest_level amr_ncycle cfl depos_width)) := by
  unfold getSourceGhostCells
  constructor
  · intro h
    simp only
    rw [if_neg (by omega)]
  · intro h
    simp only
    rw [if_pos h, max_comm]

/-- C3 (witness): both cases at concrete arguments. -/
theorem C3_getSourceGhostCells_eq_witness :
    getSourceGhostCells 0 2 2 (1 / 2) 0 = max 1 (0 + std_round (1 / 2)) ∧
    getSourceGhostCells 1 2 2 (1 / 2) 0 =
      max (max 1 (0 + std_round (1 / 2))) (getGhostPartCells 1 2 2 (1 / 2) 0) :=
  ⟨(C3_getSourceGhostCells_eq 0 2 2 (1 / 2) 0).1 (by decide),
   (C3_getSourceGhostCells_eq 1 2 2 (1 / 2) 0).2 (by decide)⟩

/-- C4 (counterexample): `level = 2` above `finest_level = 1`, one subcycle,
`cfl = 0`, `interp_width = 1`, `depos_width = 0`: the state ghost width at `level`
is 1, the one at `finest_level` is 2. -/
theorem C4_counterexample :
    (2 : Int) > 0 ∧ ¬ (getStateGhostCells 2 1 1 0 1 0 ≥ getStateGhostCells 1 1 1 0 1 0) := by
  norm_num [getStateGhostCells, getGhostPartCells, std_round]

/-- C4 (amended): for `level > 0` that is an existing level (`level <= finest_level`),
or when `finest_level <= 0`, `getStateGhostCells(level, finest_level, ...)` is at
least `getStateGhostCells(finest_level, finest_level, ...)`; in the first case the
two are equal. -/
theorem C4_getStateGhostCells_ge_finest (level finest_level amr_ncycle : Int) (cfl : ℚ)
    (interp_width depos_width : Int) (hl : level > 0)
    (h : level ≤ finest_level ∨ finest_level ≤ 0) :
    getStateGhostCells level finest_level amr_ncycle cfl interp_width depos_width ≥
      getStateGhostCells finest_level finest_level amr_ncycle cfl interp_width depos_width ∧
    (level ≤ finest_level →
      getStateGhostCells level finest_level amr_ncycle cfl interp_width depos_width =
        getStateGhostCells finest_level finest_level amr_ncycle cfl interp_width
          depos_width) := by
  have key : level ≤ finest_level →
      getStateGhostCells level finest_level amr_ncycle cfl interp_width depos_width =
        getStateGhostCells finest_level finest_level amr_ncycle cfl interp_width
          depos_width := by
    intro hle
    unfold getStateGhostCells getGhostPartCells
    simp only
    rw [if_pos hl, if_pos (show finest_level > 0 by omega), if_pos (by omega),
      if_pos (by omega)]
  refine ⟨?_, key⟩
  rcases h with h | h
  · exact le_of_eq (key h).symm
  · unfold getStateGhostCells
    simp only
    rw [if_pos hl, if_neg (by omega)]
    exact le_max_right _ _

/-- C4 (witness): `level = 1`, `finest_level = 2`. -/
theorem C4_getStateGhostCells_ge_finest_witness :
    getStateGhostCells 1 2 2 (1 / 2) 1 0 ≥ getStateGhostCells 2 2 2 (1 / 2) 1 0 ∧
    getStateGhostCells 1 2 2 (1 / 2) 1 0 = getStateGhostCells 2 2 2 (1 / 2) 1 0 :=
  ⟨(C4_getStateGhostCells_ge_finest 1 2 2 (1 / 2) 1 0 (by decide) (Or.inl (by decide))).1,
   (C4_getStateGhostCells_ge_finest 1 2 2 (1 / 2) 1 0 (by decide) (Or.inl (by decide))).2
     (by decide)⟩

/-- C5: each of `getGhostPartCells`, `getStateGhostCells` and `getSourceGhostCells`
is monotonically non-decreasing in `cfl` and in `depos_width`, for a subcycle count
`amr_ncycle >= 0`. -/
theorem C5_ghost_cells_mono (level finest_level amr_ncycle interp_width : Int)
    (cfl cfl' : ℚ) (depos_width depos_width' : Int)
    (hn : 0 ≤ amr_ncycle) (hc : cfl ≤ cfl') (hd : depos_width ≤ depos_width') :
    getGhostPartCells level finest_level amr_ncycle cfl depos_width ≤
      getGhostPartCells level finest_level amr_ncycle cfl' depos_width' ∧
    getStateGhostCells level finest_level amr_ncycle cfl interp_width depos_width ≤
      getStateGhostCells level finest_level amr_ncycle cfl' interp_width depos_width' ∧
    getSourceGhostCells level finest_level amr_ncycle cfl depos_width ≤
      getSourceGhostCells level finest_level amr_ncycle cfl' depos_width' := by
  have hg := getGhostPartCells_mono level finest_level amr_ncycle hn hc hd
  have hr : std_round cfl ≤ std_round cfl' := std_round_mono hc
  refine ⟨hg, ?_, ?_⟩
  · unfold getStateGhostCells
    simp only
    split
    · exact max_le_max (by omega) (by omega)
    · omega
  · unfold getSourceGhostCells
    simp only
    split
    · exact max_le_max hg (max_le_max le_rfl (by omega))
    · exact max_le_max le_rfl (by omega)

/-- C5 (witness): `cfl` raised from 1/2 to 3/2 and `depos_width` from 0 to 1 on
level 1 of 2 with two subcycles. -/
theorem C5_ghost_cells_mono_witness :
    getGhostPartCells 1 2 2 (1 / 2) 0 ≤ getGhostPartCells 1 2 2 (3 / 2) 1 ∧
    getStateGhostCells 1 2 2 (1 / 2) 1 0 ≤ getStateGhostCells 1 2 2 (3 / 2) 1 1 ∧
    getSourceGhostCells 1 2 2 (1 / 2) 0 ≤ getSourceGhostCells 1 2 2 (3 / 2) 1 :=
  C5_ghost_cells_mono 1 2 2 1 (1 / 2) (3 / 2) 0 1 (by decide) (by norm_num) (by decide)

/-! ### `check_bounds_norm` -/

/-- Once `check_bounds_norm` has returned, an iteration changes nothing. -/
theorem check_bounds_body_returned {D : Nat} (pos phi : RealVect D)
    (bndry_lo bndry_hi : IntVect D) (hilo : Nat) (dir : Fin D) (b : IntVect D) :
    check_bounds_body pos phi bndry_lo bndry_hi hilo dir (true, b) = (true, b) := by
  simp [check_bounds_body]

/-- One iteration of `check_bounds_norm` that is reached: it returns `true` when the
particle escapes through this side, and sets the flag of its direction otherwise. -/
theorem check_bounds_body_running {D : Nat} (pos phi : RealVect D)
    (bndry_lo bndry_hi : IntVect D) (hilo : Nat) (dir : Fin D) (b : IntVect D) :
    check_bounds_body pos phi bndry_lo bndry_hi hilo dir (false, b) =
      if bounds_escapes pos phi bndry_lo bndry_hi hilo dir then (true, b)
      else (false,
        Function.update b dir (bounds_flag pos phi bndry_lo bndry_hi hilo dir (b dir))) := by
  unfold check_bounds_body bounds_escapes bounds_flag bounds_diff bounds_bflag
  by_cases h0 : hilo = 0
  · subst h0
    by_cases hb : bndry_lo dir = 0
    · simp [hb]
    · by_cases hd : pos dir < 0
      · by_cases h1 : bndry_lo dir = 1
        · simp [hd, h1]
        · simp [hb, hd, h1]
      · by_cases hh : pos dir < 2⁻¹
        · simp [hb, hd, hh]
        · simp [hb, hd, hh]
  · by_cases hb : bndry_hi dir = 0
    · simp [h0, hb]
    · have e : ((-1 : Int) : ℚ) * (pos dir - phi dir) = phi dir - pos dir := by
        push_cast
        ring
      by_cases hd : phi dir - pos dir < 0
      · by_cases h1 : bndry_hi dir = 1
        · simp [h0, e, hd, h1]
        · simp [h0, hb, e, hd, h1]
      · by_cases hh : phi dir - pos dir < 2⁻¹
        · simp [h0, hb, e, hd, hh]
        · simp [h0, hb, e, hd, hh]

/-- A pass over the directions that starts after the function has returned changes
nothing. -/
theorem check_bounds_pass_returned {D : Nat} (pos phi : RealVect D)
    (bndry_lo bndry_hi : IntVect D) (hilo : Nat) (l : List (Fin D)) (b : IntVect D) :
    l.foldl (fun st dir => check_bounds_body pos phi bndry_lo bndry_hi hilo dir st)
      (true, b) = (true, b) := by
  induction l with
  | nil => rfl
  | cons d l ih => rw [List.foldl_cons, check_bounds_body_returned, ih]

/-- A pass of `check_bounds_norm` over a duplicate-free list of directions: it returns
`true` exactly when the particle escapes through the side on one of them, and
otherwise every listed direction carries the flag of `bounds_flag`. -/
theorem check_bounds_pass_spec {D : Nat} (pos phi : RealVect D)
    (bndry_lo bndry_hi : IntVect D) (hilo : Nat) (l : List (Fin D)) (hl : l.Nodup)
    (b : IntVect D) :
    ((l.foldl (fun st dir => check_bounds_body pos phi bndry_lo bndry_hi hilo dir st)
        (false, b)).1 = true ↔
      ∃ d ∈ l, bounds_escapes pos phi bndry_lo bndry_hi hilo d) ∧
    ((l.foldl (fun st dir => check_bounds_body pos phi bndry_lo bndry_hi hilo dir st)
        (false, b)).1 = false →
      (l.foldl (fun st dir => check_bounds_body pos phi bndry_lo bndry_hi hilo dir st)
        (false, b)).2 =
        fun d => if d ∈ l then bounds_flag pos phi bndry_lo bndry_hi hilo d (b d)
          else b d) := by
  induction l generalizing b with
  | nil => simp
  | cons d l ih =>
    rw [List.foldl_cons, check_bounds_body_running]
    have hd : d ∉ l := (List.nodup_cons.mp hl).1
    have hl' : l.Nodup := (List.nodup_cons.mp hl).2
    by_cases he : bounds_escapes pos phi bndry_lo bndry_hi hilo d
    · rw [if_pos he, check_bounds_pass_returned]
      exact ⟨⟨fun _ => ⟨d, List.mem_cons_self d l, he⟩, fun _ => rfl⟩, fun h => by simp at h⟩
    · rw [if_neg he]
      obtain ⟨ih1, ih2⟩ := ih hl'
        (Function.update b d (bounds_flag pos phi bndry_lo bndry_hi hilo d (b d)))
      constructor
      · rw [ih1]
        constructor
        · rintro ⟨e, hel, hee⟩
          exact ⟨e, List.mem_cons_of_mem d hel, hee⟩
        · rintro ⟨e, hel, hee⟩
          rcases List.mem_cons.mp hel with h | h
          · exact absurd (h ▸ hee) he
          · exact ⟨e, h, hee⟩
      · intro hr
        rw [ih2 hr]
        funext e
        by_cases hed : e = d
        · subst hed
          simp [hd]
        · by_cases hel : e ∈ l
          · simp [hel, hed, Function.update_noteq hed]
          · simp [hel, hed, Function.update_noteq hed]

/-- The two passes of `check_bounds_norm` together. -/
theorem check_bounds_norm_spec {D : Nat} (pos phi : RealVect D)
    (bndry_lo bndry_hi : IntVect D) (bflags : IntVect D) :
    ((check_bounds_norm pos phi bndry_lo bndry_hi bflags).1 = true ↔
      (∃ d, bounds_escapes pos phi bndry_lo bndry_hi 0 d) ∨
      (∃ d, bounds_escapes pos phi bndry_lo bndry_hi 1 d)) ∧
    ((check_bounds_norm pos phi bndry_lo bndry_hi bflags).1 = false →
      (check_bounds_norm pos phi bndry_lo bndry_hi bflags).2 =
        fun d => bounds_flag pos phi bndry_lo bndry_hi 1 d
          (bounds_flag pos phi bndry_lo bndry_hi 0 d (bflags d))) := by
  have hr : List.range 2 = [0, 1] := by decide
  unfold check_bounds_norm
  rw [hr, List.foldl_cons, List.foldl_cons, List.foldl_nil]
  obtain ⟨p1, p2⟩ := check_bounds_pass_spec pos phi bndry_lo bndry_hi 0
    (List.finRange D) (List.nodup_finRange D) bflags
  simp only [List.mem_finRange, true_and, if_true] at p1 p2
  generalize (List.finRange D).foldl
    (fun st dir => check_bounds_body pos phi bndry_lo bndry_hi 0 dir st) (false, bflags)
    = r0 at p1 p2
  obtain ⟨f0, b0⟩ := r0
  cases f0 with
  | true =>
    rw [check_bounds_pass_returned]
    have h0 := p1.mp rfl
    exact ⟨⟨fun _ => Or.inl h0, fun _ => rfl⟩, fun h => by simp at h⟩
  | false =>
    have hb0 := p2 rfl
    simp only at hb0
    have hn0 : ¬ ∃ d, bounds_escapes pos phi bndry_lo bndry_hi 0 d := by
      intro h
      have := p1.mpr h
      simp at this
    obtain ⟨q1, q2⟩ := check_bounds_pass_spec pos phi bndry_lo bndry_hi 1
      (List.finRange D) (List.nodup_finRange D) b0
    simp only [List.mem_finRange, true_and, if_true] at q1 q2
    constructor
    · rw [q1]
      exact ⟨fun h => Or.inr h, fun h => h.resolve_left hn0⟩
    · intro h
      rw [q2 h, hb0]

/-- One iteration of `check_bounds_norm` leaves the flag of a direction that is
periodic on both sides as it is. -/
theorem check_bounds_body_periodic {D : Nat} (pos phi : RealVect D)
    (bndry_lo bndry_hi : IntVect D) (hilo : Nat) (d dir : Fin D)
    (hlo : bndry_lo dir = 0) (hhi : bndry_hi dir = 0) (st : Bool × IntVect D) :
    (check_bounds_body pos phi bndry_lo bndry_hi hilo d st).2 dir = st.2 dir := by
  obtain ⟨f, b⟩ := st
  cases f with
  | true => rw [check_bounds_body_returned]
  | false =>
    rw [check_bounds_body_running]
    by_cases he : bounds_escapes pos phi bndry_lo bndry_hi hilo d
    · rw [if_pos he]
    · rw [if_neg he]
      by_cases hd : dir = d
      · subst hd
        have hb : bounds_bflag bndry_lo bndry_hi hilo dir = 0 := by
          unfold bounds_bflag
          split <;> assumption
        simp [bounds_flag, hb]
      · simp [Function.update_noteq hd]

/-- A pass of `check_bounds_norm` leaves the flag of a direction that is periodic on
both sides as it is, whether or not the pass returns early. -/
theorem check_bounds_pass_periodic {D : Nat} (pos phi : RealVect D)
    (bndry_lo bndry_hi : IntVect D) (hilo : Nat) (dir : Fin D)
    (hlo : bndry_lo dir = 0) (hhi : bndry_hi dir = 0) (l : List (Fin D))
    (st : Bool × IntVect D) :
    (l.foldl (fun st d => check_bounds_body pos phi bndry_lo bndry_hi hilo d st) st).2 dir =
      st.2 dir := by
  induction l generalizing st with
  | nil => rfl
  | cons d l ih =>
    rw [List.foldl_cons, ih, check_bounds_body_periodic pos phi bndry_lo bndry_hi hilo d dir
      hlo hhi]

/-- The returned value of `check_bounds_norm` in terms of the position and the
boundary flags. -/
theorem check_bounds_norm_returns_iff {D : Nat} (pos phi : RealVect D)
    (bndry_lo bndry_hi : IntVect D) (bflags : IntVect D) :
    (check_bounds_norm pos phi bndry_lo bndry_hi bflags).1 = true ↔
      ∃ dir, (bndry_lo dir ≠ 0 ∧ bndry_lo dir ≠ 1 ∧ pos dir < 0) ∨
        (bndry_hi dir ≠ 0 ∧ bndry_hi dir ≠ 1 ∧ pos dir > phi dir) := by
  rw [(check_bounds_norm_spec pos phi bndry_lo bndry_hi bflags).1]
  simp only [bounds_escapes, bounds_bflag, bounds_diff, if_true, one_ne_zero, if_false,
    sub_neg]
  constructor
  · rintro (⟨d, h0, hd, h1⟩ | ⟨d, h0, hd, h1⟩)
    · exact ⟨d, Or.inl ⟨h0, h1, hd⟩⟩
    · exact ⟨d, Or.inr ⟨h0, h1, hd⟩⟩
  · rintro ⟨d, ⟨h0, h1, hd⟩ | ⟨h0, h1, hd⟩⟩
    · exact Or.inl ⟨d, h0, hd, h1⟩
    · exact Or.inr ⟨d, h0, hd, h1⟩

/-- C6: `check_bounds_norm` returns `true` (the particle has escaped) if and only if
on some direction the particle is below 0 while the lower side is neither periodic
(0) nor reflective (1), or above `phi` while the upper side is neither; so being
outside a reflective or periodic side never makes it return `true`. -/
theorem C6_check_bounds_norm_escaped {D : Nat} (pos phi : RealVect D)
    (bndry_lo bndry_hi : IntVect D) (bflags : IntVect D) :
    (check_bounds_norm pos phi bndry_lo bndry_hi bflags).1 = true ↔
      ∃ dir, (bndry_lo dir ≠ 0 ∧ bndry_lo dir ≠ 1 ∧ pos dir < 0) ∨
        (bndry_hi dir ≠ 0 ∧ bndry_hi dir ≠ 1 ∧ pos dir > phi dir) :=
  check_bounds_norm_returns_iff pos phi bndry_lo bndry_hi bflags

/-- C7: when `check_bounds_norm` returns `false` and `phi[dir] >= 1`, the flag of
direction `dir` is -1 below a reflective lower side, +1 above a reflective upper
side, -2 within half a cell inside a non-periodic lower side, +2 within half a cell
inside a non-periodic upper side, and its input value when the position is half a
cell or more inside both faces. -/
theorem C7_check_bounds_norm_flags {D : Nat} (pos phi : RealVect D)
    (bndry_lo bndry_hi : IntVect D) (bflags : IntVect D) (dir : Fin D)
    (hret : (check_bounds_norm pos phi bndry_lo bndry_hi bflags).1 = false)
    (hphi : 1 ≤ phi dir) :
    (pos dir < 0 → bndry_lo dir = 1 →
      (check_bounds_norm pos phi bndry_lo bndry_hi bflags).2 dir = -1) ∧
    (pos dir > phi dir → bndry_hi dir = 1 →
      (check_bounds_norm pos phi bndry_lo bndry_hi bflags).2 dir = 1) ∧
    (0 ≤ pos dir → pos dir < 1 / 2 → bndry_lo dir ≠ 0 →
      (check_bounds_norm pos phi bndry_lo bndry_hi bflags).2 dir = -2) ∧
    (0 ≤ phi dir - pos dir → phi dir - pos dir < 1 / 2 → bndry_hi dir ≠ 0 →
      (check_bounds_norm pos phi bndry_lo bndry_hi bflags).2 dir = 2) ∧
    (1 / 2 ≤ pos dir → 1 / 2 ≤ phi dir - pos dir →
      (check_bounds_norm pos phi bndry_lo bndry_hi bflags).2 dir = bflags dir) := by
  rw [(check_bounds_norm_spec pos phi bndry_lo bndry_hi bflags).2 hret]
  simp only [bounds_flag, bounds_bflag, bounds_diff, if_true, one_ne_zero, if_false]
  refine ⟨?_, ?_, ?_, ?_, ?_⟩
  · intro hp hb
    split_ifs <;> first | rfl | (exfalso; linarith) | (exfalso; omega)
  · intro hp hb
    split_ifs <;> first | rfl | (exfalso; linarith) | (exfalso; omega)
  · intro hp0 hp hb
    split_ifs <;> first | rfl | (exfalso; linarith)
  · intro hp0 hp hb
    split_ifs <;> first | rfl | (exfalso; linarith)
  · intro hp hq
    split_ifs <;> first | rfl | (exfalso; linarith)

/-- C8: on a direction that is periodic on both sides, `check_bounds_norm` leaves
the flag unchanged, and the returned value is the same for any other position on
that direction. -/
theorem C8_check_bounds_norm_periodic {D : Nat} (pos pos' phi : RealVect D)
    (bndry_lo bndry_hi : IntVect D) (bflags : IntVect D) (dir : Fin D)
    (hlo : bndry_lo dir = 0) (hhi : bndry_hi dir = 0)
    (hpos : ∀ d, d ≠ dir → pos' d = pos d) :
    (check_bounds_norm pos phi bndry_lo bndry_hi bflags).2 dir = bflags dir ∧
    (check_bounds_norm pos' phi bndry_lo bndry_hi bflags).1 =
      (check_bounds_norm pos phi bndry_lo bndry_hi bflags).1 := by
  constructor
  · have hr : List.range 2 = [0, 1] := by decide
    unfold check_bounds_norm
    rw [hr, List.foldl_cons, List.foldl_cons, List.foldl_nil,
      check_bounds_pass_periodic pos phi bndry_lo bndry_hi 1 dir hlo hhi,
      check_bounds_pass_periodic pos phi bndry_lo bndry_hi 0 dir hlo hhi]
  · rw [Bool.eq_iff_iff, check_bounds_norm_returns_iff, check_bounds_norm_returns_iff]
    constructor
    · rintro ⟨d, h⟩
      have hd : d ≠ dir := by
        rintro rfl
        rcases h with h | h
        · exact h.1 hlo
        · exact h.1 hhi
      exact ⟨d, by rw [← hpos d hd]; exact h⟩
    · rintro ⟨d, h⟩
      have hd : d ≠ dir := by
        rintro rfl
        rcases h with h | h
        · exact h.1 hlo
        · exact h.1 hhi
      exact ⟨d, by rw [hpos d hd]; exact h⟩

/-- C7 (witness): three directions with reflective sides and `phi = 10`: the particle
is below the lower face on direction 0, above the upper face on direction 1 and
within half a cell of the upper face on direction 2. -/
theorem C7_check_bounds_norm_flags_witness :
    (check_bounds_norm (![-3 / 10, 51 / 5, 99 / 10] : RealVect 3) ![10, 10, 10]
        ![1, 1, 1] ![1, 1, 1] ![0, 0, 0]).2 0 = -1 ∧
    (check_bounds_norm (![-3 / 10, 51 / 5, 99 / 10] : RealVect 3) ![10, 10, 10]
        ![1, 1, 1] ![1, 1, 1] ![0, 0, 0]).2 1 = 1 ∧
    (check_bounds_norm (![-3 / 10, 51 / 5, 99 / 10] : RealVect 3) ![10, 10, 10]
        ![1, 1, 1] ![1, 1, 1] ![0, 0, 0]).2 2 = 2 :=
  have hret : (check_bounds_norm (![-3 / 10, 51 / 5, 99 / 10] : RealVect 3) ![10, 10, 10]
      ![1, 1, 1] ![1, 1, 1] ![0, 0, 0]).1 = false := by
    norm_num [check_bounds_norm, check_bounds_body, List.finRange, List.range,
      List.range.loop]
  ⟨(C7_check_bounds_norm_flags _ _ _ _ _ 0 hret (by norm_num)).1 (by norm_num) (by simp),
   (C7_check_bounds_norm_flags _ _ _ _ _ 1 hret (by norm_num)).2.1 (by norm_num) (by simp),
   (C7_check_bounds_norm_flags _ _ _ _ _ 2 hret (by norm_num)).2.2.2.1 (by norm_num)
     (by norm_num) (by simp)⟩

/-- C8 (witness): direction 1 is periodic; the particle is moved from 3 to -100 on
it. -/
theorem C8_check_bounds_norm_periodic_witness :
    (check_bounds_norm (![5, 3, 5] : RealVect 3) ![10, 10, 10] ![1, 0, 2] ![1, 0, 2]
        ![0, 7, 0]).2 1 = (![0, 7, 0] : IntVect 3) 1 ∧
    (check_bounds_norm (![5, -100, 5] : RealVect 3) ![10, 10, 10] ![1, 0, 2] ![1, 0, 2]
        ![0, 7, 0]).1 =
      (check_bounds_norm (![5, 3, 5] : RealVect 3) ![10, 10, 10] ![1, 0, 2] ![1, 0, 2]
        ![0, 7, 0]).1 :=
  C8_check_bounds_norm_periodic ![5, 3, 5] ![5, -100, 5] ![10, 10, 10] ![1, 0, 2] ![1, 0, 2]
    ![0, 7, 0] 1 (by simp) (by simp) (by
      intro d hd
      fin_cases d
      · rfl
      · exact absurd rfl hd
      · rfl)

/-! ### `tile_at_bndry` -/

/-- The loop of `tile_at_bndry` ends with `true` exactly when it started with `true` or
the test holds on one of the directions. -/
theorem tile_loop_spec {D : Nat} (c : Fin D → Bool) (l : List (Fin D)) (init : Bool) :
    l.foldl (fun at_bndry dir => if c dir then true else at_bndry) init = true ↔
      init = true ∨ ∃ dir ∈ l, c dir = true := by
  induction l generalizing init with
  | nil => simp
  | cons d l ih =>
    rw [List.foldl_cons, ih]
    by_cases hc : c d = true
    · simp [hc]
    · simp [hc]

/-- For a box inside the domain, growing its low end on `dir` by one cell leaves the
domain exactly when the box touches the low end of the domain on `dir`. -/
theorem contains_growLo_iff {D : Nat} (in_box domain : Box D)
    (hin : domain.contains in_box = true) (dir : Fin D) :
    domain.contains (in_box.growLo dir 1) = false ↔
      in_box.smallend dir = domain.smallend dir := by
  simp only [Box.contains, Bool.and_eq_true, decide_eq_true_eq] at hin
  obtain ⟨h1, h2⟩ := hin
  rw [← Bool.not_eq_true]
  simp only [Box.contains, Box.growLo, Bool.and_eq_true, decide_eq_true_eq]
  constructor
  · intro h
    by_contra hne
    apply h
    refine ⟨fun d => ?_, h2⟩
    by_cases hd : d = dir
    · subst hd
      rw [Function.update_same]
      have := h1 d
      omega
    · rw [Function.update_noteq hd]
      exact h1 d
  · rintro heq ⟨h, -⟩
    have := h dir
    rw [Function.update_same] at this
    omega

/-- For a box inside the domain, growing its high end on `dir` by one cell leaves the
domain exactly when the box touches the high end of the domain on `dir`. -/
theorem contains_growHi_iff {D : Nat} (in_box domain : Box D)
    (hin : domain.contains in_box = true) (dir : Fin D) :
    domain.contains (in_box.growHi dir 1) = false ↔
      in_box.bigend dir = domain.bigend dir := by
  simp only [Box.contains, Bool.and_eq_true, decide_eq_true_eq] at hin
  obtain ⟨h1, h2⟩ := hin
  rw [← Bool.not_eq_true]
  simp only [Box.contains, Box.growHi, Bool.and_eq_true, decide_eq_true_eq]
  constructor
  · intro h
    by_contra hne
    apply h
    refine ⟨h1, fun d => ?_⟩
    by_cases hd : d = dir
    · subst hd
      rw [Function.update_same]
      have := h2 d
      omega
    · rw [Function.update_noteq hd]
      exact h2 d
  · rintro heq ⟨-, h⟩
    have := h dir
    rw [Function.update_same] at this
    omega

/-- The value of `tile_at_bndry` for a box inside the domain. -/
theorem tile_at_bndry_iff {D : Nat} (in_box domain : Box D) (bndry_lo bndry_hi : IntVect D)
    (hin : domain.contains in_box = true) :
    tile_at_bndry in_box bndry_lo bndry_hi domain = true ↔
      ∃ dir, (in_box.smallend dir = domain.smallend dir ∧ bndry_lo dir ≠ 0) ∨
        (in_box.bigend dir = domain.bigend dir ∧ bndry_hi dir ≠ 0) := by
  have hloop : (∃ dir ∈ List.finRange D,
        ((!domain.contains (in_box.growLo dir 1) && bndry_lo dir != 0) ||
          (!domain.contains (in_box.growHi dir 1) && bndry_hi dir != 0)) = true) ↔
      ∃ dir, (in_box.smallend dir = domain.smallend dir ∧ bndry_lo dir ≠ 0) ∨
        (in_box.bigend dir = domain.bigend dir ∧ bndry_hi dir ≠ 0) := by
    constructor
    · rintro ⟨dir, -, h⟩
      refine ⟨dir, ?_⟩
      simp only [Bool.or_eq_true, Bool.and_eq_true, Bool.not_eq_true', bne_iff_ne] at h
      rw [contains_growLo_iff in_box domain hin, contains_growHi_iff in_box domain hin] at h
      exact h
    · rintro ⟨dir, h⟩
      refine ⟨dir, List.mem_finRange dir, ?_⟩
      simp only [Bool.or_eq_true, Bool.and_eq_true, Bool.not_eq_true', bne_iff_ne]
      rw [contains_growLo_iff in_box domain hin, contains_growHi_iff in_box domain hin]
      exact h
  unfold tile_at_bndry
  simp only
  by_cases hg : domain.contains (in_box.grow 1) = true
  · rw [if_pos hg]
    simp only [Box.contains, Box.grow, Bool.and_eq_true, decide_eq_true_eq] at hg
    obtain ⟨g1, g2⟩ := hg
    constructor
    · intro h
      exact absurd h (by simp)
    · rintro ⟨dir, h | h⟩
      · have := g1 dir
        omega
      · have := g2 dir
        omega
  · rw [if_neg hg, tile_loop_spec
      (fun dir => (!domain.contains (in_box.growLo dir 1) && bndry_lo dir != 0) ||
          (!domain.contains (in_box.growHi dir 1) && bndry_hi dir != 0))]
    simp only [Bool.false_eq_true, false_or]
    exact hloop

/-- C9: for a box inside the domain, `tile_at_bndry` returns `true` if and only if on
some direction the box touches the low end of the domain with a non-periodic lower
side, or the high end of the domain with a non-periodic upper side; it returns
`false` when the box grown by one cell is still inside the domain, and when every
boundary flag is 0. -/
theorem C9_tile_at_bndry_iff {D : Nat} (in_box domain : Box D)
    (bndry_lo bndry_hi : IntVect D) (hin : domain.contains in_box = true) :
    (tile_at_bndry in_box bndry_lo bndry_hi domain = true ↔
      ∃ dir, (in_box.smallend dir = domain.smallend dir ∧ bndry_lo dir ≠ 0) ∨
        (in_box.bigend dir = domain.bigend dir ∧ bndry_hi dir ≠ 0)) ∧
    (domain.contains (in_box.grow 1) = true →
      tile_at_bndry in_box bndry_lo bndry_hi domain = false) ∧
    ((∀ dir, bndry_lo dir = 0 ∧ bndry_hi dir = 0) →
      tile_at_bndry in_box bndry_lo bndry_hi domain = false) := by
  refine ⟨tile_at_bndry_iff in_box domain bndry_lo bndry_hi hin, ?_, ?_⟩
  · intro hg
    unfold tile_at_bndry
    simp only
    rw [if_pos hg]
  · intro hper
    rw [← Bool.not_eq_true, tile_at_bndry_iff in_box domain bndry_lo bndry_hi hin]
    rintro ⟨dir, h | h⟩
    · exact h.2 (hper dir).1
    · exact h.2 (hper dir).2

/-- C9 (witness): in a domain of 8 x 8 x 8 cells, a box that touches the low end of
direction 0, whose lower side is not periodic. -/
theorem C9_tile_at_bndry_iff_witness :
    tile_at_bndry (D := 3) ⟨![0, 2, 2], ![3, 5, 5]⟩ ![1, 0, 0] ![0, 0, 0]
      ⟨![0, 0, 0], ![7, 7, 7]⟩ = true :=
  (C9_tile_at_bndry_iff (D := 3) ⟨![0, 2, 2], ![3, 5, 5]⟩ ⟨![0, 0, 0], ![7, 7, 7]⟩
    ![1, 0, 0] ![0, 0, 0] (by decide)).1.mpr ⟨0, Or.inl ⟨rfl, by decide⟩⟩

/-! ### `check_wall` -/

/-- The first loop of `check_wall` keeps `wall_check = false` over directions whose
flag is neither -1 nor 1. -/
theorem check_wall_bc_loop_no_flag {D : Nat} (bflags ijkc : IntVect D) (l : List (Fin D))
    (h : ∀ d ∈ l, bflags d ≠ -1 ∧ bflags d ≠ 1) (st : WallState D)
    (hst : st.wall_check = false) :
    (l.foldl
      (fun (st : WallState D) dir =>
        if (bflags dir = -1 ∨ bflags dir = 1) ∧ st.wall_check = false then
          { wall_check := true
            normal := Function.update st.normal dir (-((bflags dir : Int) : ℚ))
            bcentv := Function.update st.bcentv dir
              ((ijkc dir : ℚ) + 1 / 2 * (((1 - bflags dir : Int)) : ℚ)) }
        else
          { st with
            normal := Function.update st.normal dir 0
            bcentv := Function.update st.bcentv dir 0 })
      st).wall_check = false := by
  induction l generalizing st with
  | nil => exact hst
  | cons d l ih =>
    rw [List.foldl_cons]
    apply ih (fun e he => h e (List.mem_cons_of_mem d he))
    have hd := h d (List.mem_cons_self d l)
    rw [if_neg (fun hc => hc.1.elim hd.1 hd.2)]
    exact hst

/-- Without a flag -1 or 1 the first loop of `check_wall` selects no wall. -/
theorem check_wall_bc_no_flag {D : Nat} (bflags ijkc : IntVect D) (normal : RealVect D)
    (h : ∀ d, bflags d ≠ -1 ∧ bflags d ≠ 1) :
    (check_wall_bc bflags ijkc normal).wall_check = false :=
  check_wall_bc_loop_no_flag bflags ijkc (List.finRange D) (fun d _ => h d) _ rfl

/-- Without a flag -1 or 1 and without embedded boundaries `check_wall` returns
`false` and leaves `par_dot` as it is. -/
theorem check_wall_no_flag_no_EB {D : Nat} [NeZero D] (pos : RealVect D)
    (bflags : IntVect D) (dx : RealVect D) (ijkc ijkc_prev : IntVect D)
    (vel_part : RealVect D) (flags : IntVect D → EBCellFlag)
    (bcent bnorm : IntVect D → Fin D → ℚ) (vfrac : IntVect D → ℚ) (min_eb_vfrac : ℚ)
    (par_dot : ℚ) (normal : RealVect D) (h : ∀ d, bflags d ≠ -1 ∧ bflags d ≠ 1) :
    (check_wall pos bflags dx ijkc ijkc_prev vel_part false flags bcent bnorm vfrac
        min_eb_vfrac par_dot normal).1 = false ∧
    (check_wall pos bflags dx ijkc ijkc_prev vel_part false flags bcent bnorm vfrac
        min_eb_vfrac par_dot normal).2.1 = par_dot := by
  have hbc := check_wall_bc_no_flag bflags ijkc normal h
  unfold check_wall check_wall_eb
  simp [hbc]

/-- In a tile that `tile_at_bndry` does not flag, a position in a cell of the tile
sets no flag and does not escape. -/
theorem check_bounds_norm_interior_tile {D : Nat} (in_box domain : Box D)
    (bndry_lo bndry_hi : IntVect D) (pos phi : RealVect D)
    (hlo : ∀ d, domain.smallend d = 0)
    (hphi : ∀ d, phi d = ((domain.bigend d + 1 : Int) : ℚ))
    (hin : domain.contains in_box = true)
    (htile : tile_at_bndry in_box bndry_lo bndry_hi domain = false)
    (hpos : ∀ d, in_box.smallend d ≤ ⌊pos d⌋ ∧ ⌊pos d⌋ ≤ in_box.bigend d) :
    check_bounds_norm pos phi bndry_lo bndry_hi (fun _ => 0) = (false, fun _ => 0) := by
  have hno : ∀ d, (bndry_lo d ≠ 0 → (1 : ℚ) ≤ pos d) ∧ (bndry_hi d ≠ 0 → 1 ≤ phi d - pos d) := by
    intro d
    have ht : ¬ ∃ dir, (in_box.smallend dir = domain.smallend dir ∧ bndry_lo dir ≠ 0) ∨
        (in_box.bigend dir = domain.bigend dir ∧ bndry_hi dir ≠ 0) := by
      rw [← tile_at_bndry_iff in_box domain bndry_lo bndry_hi hin, htile]
      simp
    simp only [Box.contains, Bool.and_eq_true, decide_eq_true_eq] at hin
    have h1 := hin.1 d
    have h2 := hin.2 d
    have h0 := hlo d
    constructor
    · intro hb
      have hne : in_box.smallend d ≠ domain.smallend d := fun he => ht ⟨d, Or.inl ⟨he, hb⟩⟩
      have hge : (1 : Int) ≤ ⌊pos d⌋ := by
        have := (hpos d).1
        omega
      have := Int.le_floor.mp hge
      simpa using this
    · intro hb
      have hne : in_box.bigend d ≠ domain.bigend d := fun he => ht ⟨d, Or.inr ⟨he, hb⟩⟩
      have hle : ⌊pos d⌋ + 1 ≤ domain.bigend d := by
        have := (hpos d).2
        omega
      have hlt : pos d < ((⌊pos d⌋ + 1 : Int) : ℚ) := by
        push_cast
        exact Int.lt_floor_add_one (pos d)
      have hq : ((⌊pos d⌋ + 1 : Int) : ℚ) ≤ ((domain.bigend d : Int) : ℚ) := by
        exact_mod_cast hle
      rw [hphi d]
      push_cast
      linarith
  obtain ⟨s1, s2⟩ := check_bounds_norm_spec pos phi bndry_lo bndry_hi (fun _ => 0)
  have hret : (check_bounds_norm pos phi bndry_lo bndry_hi (fun _ => 0)).1 = false := by
    rw [← Bool.not_eq_true, s1]
    simp only [bounds_escapes, bounds_bflag, bounds_diff, if_true, one_ne_zero, if_false]
    rintro (⟨d, hb, hd, -⟩ | ⟨d, hb, hd, -⟩)
    · have := (hno d).1 hb
      linarith
    · have := (hno d).2 hb
      linarith
  have hfl := s2 hret
  refine Prod.ext hret ?_
  rw [hfl]
  funext d
  simp only [bounds_flag, bounds_bflag, bounds_diff, if_true, one_ne_zero, if_false]
  have hd := hno d
  split_ifs <;> first | rfl | (exfalso; have := hd.1 (by assumption); linarith) |
    (exfalso; have := hd.2 (by assumption); linarith)

/-- C10: a tile that `tile_at_bndry` does not flag never triggers a domain-boundary
reflection.  For a domain with low cell index 0 and `phi[dir]` the number of domain
cells, a box inside the domain with `tile_at_bndry` false, and a position in a cell
of the box, `check_bounds_norm` started from all-zero flags returns `false` and
leaves the flags all zero, and `check_wall` without embedded boundaries returns
`false` on these flags. -/
theorem C10_unflagged_tile_no_reflection {D : Nat} [NeZero D] (in_box domain : Box D)
    (bndry_lo bndry_hi : IntVect D) (pos phi : RealVect D)
    (hlo : ∀ d, domain.smallend d = 0)
    (hphi : ∀ d, phi d = ((domain.bigend d + 1 : Int) : ℚ))
    (hin : domain.contains in_box = true)
    (htile : tile_at_bndry in_box bndry_lo bndry_hi domain = false)
    (hpos : ∀ d, in_box.smallend d ≤ ⌊pos d⌋ ∧ ⌊pos d⌋ ≤ in_box.bigend d) :
    (check_bounds_norm pos phi bndry_lo bndry_hi (fun _ => 0)).1 = false ∧
    (check_bounds_norm pos phi bndry_lo bndry_hi (fun _ => 0)).2 = (fun _ => 0) ∧
    ∀ (dx : RealVect D) (ijkc ijkc_prev : IntVect D) (vel_part : RealVect D)
      (flags : IntVect D → EBCellFlag) (bcent bnorm : IntVect D → Fin D → ℚ)
      (vfrac : IntVect D → ℚ) (min_eb_vfrac par_dot : ℚ) (normal : RealVect D),
      (check_wall pos (check_bounds_norm pos phi bndry_lo bndry_hi (fun _ => 0)).2 dx ijkc
        ijkc_prev vel_part false flags bcent bnorm vfrac min_eb_vfrac par_dot normal).1 =
        false := by
  have h := check_bounds_norm_interior_tile in_box domain bndry_lo bndry_hi pos phi hlo hphi
    hin htile hpos
  rw [h]
  refine ⟨rfl, rfl, ?_⟩
  intro dx ijkc ijkc_prev vel_part flags bcent bnorm vfrac min_eb_vfrac par_dot normal
  exact (check_wall_no_flag_no_EB pos (fun _ => 0) dx ijkc ijkc_prev vel_part flags bcent
    bnorm vfrac min_eb_vfrac par_dot normal
    (fun _ => ⟨by simp, by simp⟩)).1

/-- C10 (witness): a domain of 8 x 8 x 8 cells, periodic on direction 0 and
reflective on the others; a tile that touches only the periodic low end, and a
particle in its cell (0, 2, 5). -/
theorem C10_unflagged_tile_no_reflection_witness :
    (check_bounds_norm (![1 / 5, 5 / 2, 59 / 10] : RealVect 3) ![8, 8, 8] ![0, 1, 1]
        ![0, 1, 1] (fun _ => 0)).1 = false ∧
    (check_bounds_norm (![1 / 5, 5 / 2, 59 / 10] : RealVect 3) ![8, 8, 8] ![0, 1, 1]
        ![0, 1, 1] (fun _ => 0)).2 = (fun _ => 0) ∧
    (check_wall (![1 / 5, 5 / 2, 59 / 10] : RealVect 3)
        (check_bounds_norm (![1 / 5, 5 / 2, 59 / 10] : RealVect 3) ![8, 8, 8] ![0, 1, 1]
          ![0, 1, 1] (fun _ => 0)).2
        ![1, 1, 1] ![0, 2, 5] ![0, 2, 5] ![0, 0, 0] false (fun _ => EBCellFlag.regular)
        (fun _ _ => 0) (fun _ _ => 0) (fun _ => 1) 0 2 ![0, 0, 0]).1 = false :=
  have h := C10_unflagged_tile_no_reflection (D := 3) ⟨![0, 2, 2], ![3, 5, 5]⟩
    ⟨![0, 0, 0], ![7, 7, 7]⟩ ![0, 1, 1] ![0, 1, 1] ![1 / 5, 5 / 2, 59 / 10] ![8, 8, 8]
    (by decide)
    (by intro d; fin_cases d <;> norm_num)
    (by decide) (by decide)
    (by intro d; fin_cases d <;> norm_num [Int.le_floor, Int.floor_le_iff])
  ⟨h.1, h.2.1, h.2.2 _ _ _ _ _ _ _ _ _ _ _⟩

/-! ### `getGhostPartCells`, the level guard -/

/-- C19: `getGhostPartCells` returns 0 exactly when `level > finest_level`; otherwise
it returns `max(1, depos_width + round(cfl * amr_ncycle))`, which is at least 1, so
the result is at least 1 for every `level <= finest_level`, `level = finest_level`
included. -/
theorem C19_getGhostPartCells_zero_iff (level finest_level amr_ncycle : Int) (cfl : ℚ)
    (depos_width : Int) :
    (getGhostPartCells level finest_level amr_ncycle cfl depos_width = 0 ↔
      level > finest_level) ∧
    (level ≤ finest_level →
      getGhostPartCells level finest_level amr_ncycle cfl depos_width =
        max 1 (depos_width + std_round (cfl * (amr_ncycle : ℚ))) ∧
      1 ≤ getGhostPartCells level finest_level amr_ncycle cfl depos_width) ∧
    1 ≤ getGhostPartCells finest_level finest_level amr_ncycle cfl depos_width := by
  have hle : ∀ l : Int, l ≤ finest_level →
      getGhostPartCells l finest_level amr_ncycle cfl depos_width =
        max 1 (depos_width + std_round (cfl * (amr_ncycle : ℚ))) := by
    intro l hl
    unfold getGhostPartCells
    rw [if_pos (by omega)]
  refine ⟨?_, fun h => ⟨hle level h, ?_⟩, ?_⟩
  · constructor
    · intro h0
      by_contra hc
      rw [hle level (by omega)] at h0
      have := le_max_left (1 : Int) (depos_width + std_round (cfl * (amr_ncycle : ℚ)))
      omega
    · intro h
      unfold getGhostPartCells
      rw [if_neg (by omega)]
  · rw [hle level h]
    exact le_max_left _ _
  · rw [hle finest_level le_rfl]
    exact le_max_left _ _

/-- C19 (witness): level 1 of 2 with two subcycles and the default arguments. -/
theorem C19_getGhostPartCells_zero_iff_witness :
    getGhostPartCells 1 2 2 (1 / 2) 0 = max 1 (0 + std_round (1 / 2 * ((2 : Int) : ℚ))) ∧
    1 ≤ getGhostPartCells 1 2 2 (1 / 2) 0 :=
  (C19_getGhostPartCells_zero_iff 1 2 2 (1 / 2) 0).2.1 (by decide)

/-! ### The first loop of `check_wall` with a flagged direction -/

/-- `check_wall_bc` is the fold of `check_wall_bc_step`. -/
theorem check_wall_bc_eq_fold {D : Nat} (bflags ijkc : IntVect D) (normal : RealVect D) :
    check_wall_bc bflags ijkc normal =
      (List.finRange D).foldl (check_wall_bc_step bflags ijkc)
        { wall_check := false, normal := normal, bcentv := fun _ => 0 } := rfl

/-- After a wall has been selected, the first loop of `check_wall` only zeroes the
entries of the remaining directions. -/
theorem check_wall_bc_fold_selected {D : Nat} (bflags ijkc : IntVect D) (l : List (Fin D))
    (st : WallState D) (hst : st.wall_check = true) :
    (l.foldl (check_wall_bc_step bflags ijkc) st).wall_check = true ∧
    (l.foldl (check_wall_bc_step bflags ijkc) st).normal =
      (fun e => if e ∈ l then 0 else st.normal e) ∧
    (l.foldl (check_wall_bc_step bflags ijkc) st).bcentv =
      (fun e => if e ∈ l then 0 else st.bcentv e) := by
  induction l generalizing st with
  | nil => simp [hst]
  | cons a l ih =>
    rw [List.foldl_cons]
    have hstep : check_wall_bc_step bflags ijkc st a =
        { st with normal := Function.update st.normal a 0
                  bcentv := Function.update st.bcentv a 0 } := by
      unfold check_wall_bc_step
      rw [if_neg (by simp [hst])]
    obtain ⟨h1, h2, h3⟩ := ih (check_wall_bc_step bflags ijkc st a) (by rw [hstep]; exact hst)
    refine ⟨h1, ?_, ?_⟩
    · rw [h2, hstep]
      funext e
      by_cases hel : e ∈ l
      · simp [hel]
      · by_cases hea : e = a
        · subst hea
          simp [hel]
        · simp [hel, hea, Function.update_noteq hea]
    · rw [h3, hstep]
      funext e
      by_cases hel : e ∈ l
      · simp [hel]
      · by_cases hea : e = a
        · subst hea
          simp [hel]
        · simp [hel, hea, Function.update_noteq hea]

/-- The first loop of `check_wall` over an increasing list of directions that holds
the lowest flagged direction `d`: the wall is the one of `d`. -/
theorem check_wall_bc_fold_flagged {D : Nat} (bflags ijkc : IntVect D) (d : Fin D)
    (hd : bflags d = -1 ∨ bflags d = 1) (l : List (Fin D))
    (hl : l.Pairwise (fun a b => a < b)) (hdl : d ∈ l)
    (hlow : ∀ e ∈ l, e < d → bflags e ≠ -1 ∧ bflags e ≠ 1)
    (st : WallState D) (hst : st.wall_check = false) :
    (l.foldl (check_wall_bc_step bflags ijkc) st).wall_check = true ∧
    (l.foldl (check_wall_bc_step bflags ijkc) st).normal =
      (fun e => if e ∈ l then (if e = d then -((bflags d : Int) : ℚ) else 0)
        else st.normal e) ∧
    (l.foldl (check_wall_bc_step bflags ijkc) st).bcentv =
      (fun e => if e ∈ l then
          (if e = d then (ijkc d : ℚ) + 1 / 2 * (((1 - bflags d : Int)) : ℚ) else 0)
        else st.bcentv e) := by
  induction l generalizing st with
  | nil => simp at hdl
  | cons a l ih =>
    rw [List.foldl_cons]
    have hal : ∀ b ∈ l, a < b := (List.pairwise_cons.mp hl).1
    have hl' := (List.pairwise_cons.mp hl).2
    have hanl : a ∉ l := fun h => lt_irrefl a (hal a h)
    by_cases had : a = d
    · subst had
      have hstep : check_wall_bc_step bflags ijkc st a =
          { wall_check := true
            normal := Function.update st.normal a (-((bflags a : Int) : ℚ))
            bcentv := Function.update st.bcentv a
              ((ijkc a : ℚ) + 1 / 2 * (((1 - bflags a : Int)) : ℚ)) } := by
        unfold check_wall_bc_step
        rw [if_pos ⟨hd, hst⟩]
      obtain ⟨h1, h2, h3⟩ := check_wall_bc_fold_selected bflags ijkc l
        (check_wall_bc_step bflags ijkc st a) (by rw [hstep])
      refine ⟨h1, ?_, ?_⟩
      · rw [h2, hstep]
        funext e
        by_cases hea : e = a
        · subst hea
          simp [hanl]
        · by_cases hel : e ∈ l
          · simp [hel, hea]
          · simp [hel, hea, Function.update_noteq hea]
      · rw [h3, hstep]
        funext e
        by_cases hea : e = a
        · subst hea
          simp [hanl]
        · by_cases hel : e ∈ l
          · simp [hel, hea]
          · simp [hel, hea, Function.update_noteq hea]
    · have hdl' : d ∈ l := by
        rcases List.mem_cons.mp hdl with h | h
        · exact absurd h.symm had
        · exact h
      have hna := hlow a (List.mem_cons_self a l) (hal d hdl')
      have hstep : check_wall_bc_step bflags ijkc st a =
          { st with normal := Function.update st.normal a 0
                    bcentv := Function.update st.bcentv a 0 } := by
        unfold check_wall_bc_step
        rw [if_neg (fun hc => hc.1.elim hna.1 hna.2)]
      obtain ⟨h1, h2, h3⟩ := ih hl' hdl' (fun e he => hlow e (List.mem_cons_of_mem a he))
        (check_wall_bc_step bflags ijkc st a) (by rw [hstep]; exact hst)
      refine ⟨h1, ?_, ?_⟩
      · rw [h2, hstep]
        funext e
        by_cases hea : e = a
        · subst hea
          simp [hanl, had]
        · by_cases hel : e ∈ l
          · simp [hel, hea]
          · simp [hel, hea, Function.update_noteq hea]
      · rw [h3, hstep]
        funext e
        by_cases hea : e = a
        · subst hea
          simp [hanl, had]
        · by_cases hel : e ∈ l
          · simp [hel, hea]
          · simp [hel, hea, Function.update_noteq hea]

/-- The wall selected by the first loop of `check_wall` when `d` is the lowest
direction whose flag is -1 or 1. -/
theorem check_wall_bc_flagged {D : Nat} (bflags ijkc : IntVect D) (normal : RealVect D)
    (d : Fin D) (hd : bflags d = -1 ∨ bflags d = 1)
    (hlow : ∀ e, e < d → bflags e ≠ -1 ∧ bflags e ≠ 1) :
    (check_wall_bc bflags ijkc normal).wall_check = true ∧
    (check_wall_bc bflags ijkc normal).normal =
      (fun e => if e = d then -(bflags d : ℚ) else 0) ∧
    (check_wall_bc bflags ijkc normal).bcentv =
      (fun e => if e = d then (ijkc d : ℚ) + (1 - (bflags d : ℚ)) / 2 else 0) := by
  rw [check_wall_bc_eq_fold]
  obtain ⟨h1, h2, h3⟩ := check_wall_bc_fold_flagged bflags ijkc d hd (List.finRange D)
    (List.pairwise_lt_finRange D) (List.mem_finRange d) (fun e _ => hlow e)
    { wall_check := false, normal := normal, bcentv := fun _ => 0 } rfl
  refine ⟨h1, ?_, ?_⟩
  · rw [h2]
    funext e
    simp
  · rw [h3]
    funext e
    simp only [List.mem_finRange, if_true]
    split
    · push_cast
      ring
    · rfl

/-- The result of `check_wall` when `d` is the lowest direction whose flag is -1 or
1: the embedded-boundary block is skipped. -/
theorem check_wall_flagged {D : Nat} [NeZero D] (pos : RealVect D) (bflags : IntVect D)
    (dx : RealVect D) (ijkc ijkc_prev : IntVect D) (vel_part : RealVect D)
    (use_EB : Bool) (flags : IntVect D → EBCellFlag)
    (bcent bnorm : IntVect D → Fin D → ℚ) (vfrac : IntVect D → ℚ) (min_eb_vfrac : ℚ)
    (par_dot : ℚ) (normal : RealVect D) (d : Fin D)
    (hd : bflags d = -1 ∨ bflags d = 1)
    (hlow : ∀ e, e < d → bflags e ≠ -1 ∧ bflags e ≠ 1) :
    check_wall pos bflags dx ijkc ijkc_prev vel_part use_EB flags bcent bnorm vfrac
        min_eb_vfrac par_dot normal =
      (decide ((pos d - ((ijkc d : ℚ) + (1 - (bflags d : ℚ)) / 2)) * dx d *
          (-(bflags d : ℚ)) < tolerance),
        (pos d - ((ijkc d : ℚ) + (1 - (bflags d : ℚ)) / 2)) * dx d * (-(bflags d : ℚ)),
        fun e => if e = d then -(bflags d : ℚ) else 0) := by
  obtain ⟨h1, h2, h3⟩ := check_wall_bc_flagged bflags ijkc normal d hd hlow
  have heb : check_wall_eb pos ijkc ijkc_prev vel_part use_EB flags bcent bnorm vfrac
      min_eb_vfrac (check_wall_bc bflags ijkc normal) = check_wall_bc bflags ijkc normal := by
    unfold check_wall_eb
    rw [if_neg (by simp [h1])]
  have hsum : ∑ dir, (pos dir - (check_wall_bc bflags ijkc normal).bcentv dir) * dx dir *
        (check_wall_bc bflags ijkc normal).normal dir =
      (pos d - ((ijkc d : ℚ) + (1 - (bflags d : ℚ)) / 2)) * dx d * (-(bflags d : ℚ)) := by
    rw [h2, h3, Finset.sum_eq_single d]
    · simp
    · intro b _ hb
      simp [hb]
    · intro h
      exact absurd (Finset.mem_univ d) h
  unfold check_wall
  simp only [heb, h1, if_true, hsum]
  rw [h2]

/-! ### `impose_wall` -/

/-- The reflection loop of `impose_wall` over a duplicate-free list of directions. -/
theorem impose_wall_fold {D : Nat} (pstateVel : Nat) (par_dot Nw_Vp : ℚ)
    (normal : RealVect D) (l : List (Fin D)) (hl : l.Nodup) (q : Particle D) :
    (∀ e, (l.foldl (impose_wall_step pstateVel par_dot Nw_Vp normal) q).pos e =
      if e ∈ l then q.pos e - 2 * par_dot * normal e else q.pos e) ∧
    (∀ e : Fin D, (l.foldl (impose_wall_step pstateVel par_dot Nw_Vp normal) q).rdata
        (pstateVel + e) =
      if e ∈ l then q.rdata (pstateVel + e) - 2 * Nw_Vp * normal e
      else q.rdata (pstateVel + e)) ∧
    (∀ n : Nat, (∀ e : Fin D, n ≠ pstateVel + e) →
      (l.foldl (impose_wall_step pstateVel par_dot Nw_Vp normal) q).rdata n = q.rdata n) := by
  induction l generalizing q with
  | nil => simp
  | cons a l ih =>
    rw [List.foldl_cons]
    have hal : a ∉ l := (List.nodup_cons.mp hl).1
    obtain ⟨h1, h2, h3⟩ := ih (List.nodup_cons.mp hl).2
      (impose_wall_step pstateVel par_dot Nw_Vp normal q a)
    refine ⟨fun e => ?_, fun e => ?_, fun n hn => ?_⟩
    · rw [h1 e]
      by_cases hea : e = a
      · subst hea
        simp [hal, impose_wall_step]
      · by_cases hel : e ∈ l
        · simp [hel, hea, impose_wall_step, Function.update_noteq hea]
        · simp [hel, hea, impose_wall_step, Function.update_noteq hea]
    · rw [h2 e]
      by_cases hea : e = a
      · subst hea
        simp [hal, impose_wall_step]
      · have hne : pstateVel + (e : Nat) ≠ pstateVel + (a : Nat) := by
          intro h
          exact hea (Fin.ext (by omega))
        by_cases hel : e ∈ l
        · simp [hel, hea, impose_wall_step, Function.update_noteq hne]
        · simp [hel, hea, impose_wall_step, Function.update_noteq hne]
    · rw [h3 n hn]
      simp [impose_wall_step, Function.update_noteq (hn a)]

/-- What `impose_wall` does, in terms of the result of its call of `check_wall`: the
specular update of position and velocity when the call returns `true`, nothing
otherwise. -/
theorem impose_wall_spec {D : Nat} [NeZero D] (pstateVel : Nat) (p : Particle D)
    (dx plo phi : RealVect D) (bflags : IntVect D) (use_EB : Bool)
    (flags : IntVect D → EBCellFlag) (bcent bnorm : IntVect D → Fin D → ℚ)
    (vfrac : IntVect D → ℚ) (min_eb_vfrac : ℚ) (ijkc_prev ijkc : IntVect D) :
    ((impose_wall_check pstateVel p dx plo bflags use_EB flags bcent bnorm vfrac
        min_eb_vfrac ijkc_prev ijkc).1 = true →
      (∀ d, (impose_wall pstateVel p dx plo phi bflags use_EB flags bcent bnorm vfrac
          min_eb_vfrac ijkc_prev ijkc).pos d =
        p.pos d - 2 *
          (impose_wall_check pstateVel p dx plo bflags use_EB flags bcent bnorm vfrac
            min_eb_vfrac ijkc_prev ijkc).2.1 *
          (impose_wall_check pstateVel p dx plo bflags use_EB flags bcent bnorm vfrac
            min_eb_vfrac ijkc_prev ijkc).2.2 d) ∧
      (∀ d : Fin D, (impose_wall pstateVel p dx plo phi bflags use_EB flags bcent bnorm
          vfrac min_eb_vfrac ijkc_prev ijkc).rdata (pstateVel + d) =
        p.rdata (pstateVel + d) - 2 *
          (∑ e : Fin D, (impose_wall_check pstateVel p dx plo bflags use_EB flags bcent
            bnorm vfrac min_eb_vfrac ijkc_prev ijkc).2.2 e * p.rdata (pstateVel + e)) *
          (impose_wall_check pstateVel p dx plo bflags use_EB flags bcent bnorm vfrac
            min_eb_vfrac ijkc_prev ijkc).2.2 d) ∧
      (∀ n : Nat, (∀ e : Fin D, n ≠ pstateVel + e) →
        (impose_wall pstateVel p dx plo phi bflags use_EB flags bcent bnorm vfrac
          min_eb_vfrac ijkc_prev ijkc).rdata n = p.rdata n)) ∧
    ((impose_wall_check pstateVel p dx plo bflags use_EB flags bcent bnorm vfrac
        min_eb_vfrac ijkc_prev ijkc).1 = false →
      impose_wall pstateVel p dx plo phi bflags use_EB flags bcent bnorm vfrac
        min_eb_vfrac ijkc_prev ijkc = p) := by
  have hdef : impose_wall pstateVel p dx plo phi bflags use_EB flags bcent bnorm vfrac
      min_eb_vfrac ijkc_prev ijkc =
      if (impose_wall_check pstateVel p dx plo bflags use_EB flags bcent bnorm vfrac
          min_eb_vfrac ijkc_prev ijkc).1 = true then
        (List.finRange D).foldl
          (impose_wall_step pstateVel
            (impose_wall_check pstateVel p dx plo bflags use_EB flags bcent bnorm vfrac
              min_eb_vfrac ijkc_prev ijkc).2.1
            (∑ e : Fin D, (impose_wall_check pstateVel p dx plo bflags use_EB flags bcent
              bnorm vfrac min_eb_vfrac ijkc_prev ijkc).2.2 e * p.rdata (pstateVel + e))
            (impose_wall_check pstateVel p dx plo bflags use_EB flags bcent bnorm vfrac
              min_eb_vfrac ijkc_prev ijkc).2.2) p
      else p := rfl
  constructor
  · intro h
    rw [hdef, if_pos h]
    obtain ⟨h1, h2, h3⟩ := impose_wall_fold pstateVel
      (impose_wall_check pstateVel p dx plo bflags use_EB flags bcent bnorm vfrac
        min_eb_vfrac ijkc_prev ijkc).2.1
      (∑ e : Fin D, (impose_wall_check pstateVel p dx plo bflags use_EB flags bcent
        bnorm vfrac min_eb_vfrac ijkc_prev ijkc).2.2 e * p.rdata (pstateVel + e))
      (impose_wall_check pstateVel p dx plo bflags use_EB flags bcent bnorm vfrac
        min_eb_vfrac ijkc_prev ijkc).2.2 (List.finRange D) (List.nodup_finRange D) p
    refine ⟨fun d => ?_, fun d => ?_, h3⟩
    · rw [h1 d, if_pos (List.mem_finRange d)]
    · rw [h2 d, if_pos (List.mem_finRange d)]
  · intro h
    rw [hdef, if_neg (by simp [h])]

/-- The machine epsilon is positive. -/
theorem tolerance_pos : 0 < tolerance := by
  unfold tolerance
  positivity

/-- C11: reflection off a reflective lower domain boundary.  A particle whose
normalized position on direction `d` is `-delta` with `0 < delta < 1`, in the cell
`ijkc[d] = -1`, with `bflags[d] = -1` and no other direction flagged -1 or 1, leaves
`impose_wall` with the velocity component on `d` negated, the other velocity
components unchanged, the position on `d` at `plo[d] + delta * dx[d]` and the other
position components unchanged (grid spacing `dx[d] > 0`). -/
theorem C11_reflect_lower_boundary {D : Nat} [NeZero D] (pstateVel : Nat) (p : Particle D)
    (dx plo phi : RealVect D) (bflags : IntVect D) (use_EB : Bool)
    (flags : IntVect D → EBCellFlag) (bcent bnorm : IntVect D → Fin D → ℚ)
    (vfrac : IntVect D → ℚ) (min_eb_vfrac : ℚ) (ijkc_prev ijkc : IntVect D)
    (d : Fin D) (delta : ℚ) (hdelta0 : 0 < delta) (_hdelta1 : delta < 1)
    (hdx : 0 < dx d) (hpos : (p.pos d - plo d) / dx d = -delta)
    (hijkc : ijkc d = -1) (hflag : bflags d = -1)
    (hother : ∀ e, e ≠ d → bflags e ≠ -1 ∧ bflags e ≠ 1) :
    (impose_wall pstateVel p dx plo phi bflags use_EB flags bcent bnorm vfrac
        min_eb_vfrac ijkc_prev ijkc).rdata (pstateVel + d) = -p.rdata (pstateVel + d) ∧
    (∀ e : Fin D, e ≠ d →
      (impose_wall pstateVel p dx plo phi bflags use_EB flags bcent bnorm vfrac
        min_eb_vfrac ijkc_prev ijkc).rdata (pstateVel + e) = p.rdata (pstateVel + e)) ∧
    (impose_wall pstateVel p dx plo phi bflags use_EB flags bcent bnorm vfrac
        min_eb_vfrac ijkc_prev ijkc).pos d = plo d + delta * dx d ∧
    (∀ e : Fin D, e ≠ d →
      (impose_wall pstateVel p dx plo phi bflags use_EB flags bcent bnorm vfrac
        min_eb_vfrac ijkc_prev ijkc).pos e = p.pos e) := by
  have hc : impose_wall_check pstateVel p dx plo bflags use_EB flags bcent bnorm vfrac
      min_eb_vfrac ijkc_prev ijkc =
      (true, -delta * dx d, fun e => if e = d then 1 else 0) := by
    unfold impose_wall_check
    rw [check_wall_flagged _ bflags dx ijkc ijkc_prev _ use_EB flags bcent bnorm vfrac
      min_eb_vfrac 2 _ d (Or.inl hflag) (fun e he => hother e (ne_of_lt he))]
    have hpd : ((p.pos d - plo d) / dx d - ((ijkc d : ℚ) + (1 - (bflags d : ℚ)) / 2)) * dx d *
        (-(bflags d : ℚ)) = -delta * dx d := by
      rw [hpos, hijkc, hflag]
      push_cast
      ring
    have hlt : -delta * dx d < tolerance := by
      have : 0 < delta * dx d := mul_pos hdelta0 hdx
      have := tolerance_pos
      linarith
    rw [hpd, decide_eq_true hlt, hflag]
    simp
  have hp : p.pos d = plo d - delta * dx d := by
    have hne : dx d ≠ 0 := ne_of_gt hdx
    field_simp at hpos
    linarith
  obtain ⟨h1, h2, -⟩ := (impose_wall_spec pstateVel p dx plo phi bflags use_EB flags bcent
    bnorm vfrac min_eb_vfrac ijkc_prev ijkc).1 (by rw [hc])
  rw [hc] at h1 h2
  have hsum : ∑ e : Fin D, (if e = d then (1 : ℚ) else 0) * p.rdata (pstateVel + e) =
      p.rdata (pstateVel + d) := by
    rw [Finset.sum_eq_single d]
    · simp
    · intro b _ hb
      simp [hb]
    · intro h
      exact absurd (Finset.mem_univ d) h
  simp only [hsum] at h2
  refine ⟨?_, fun e he => ?_, ?_, fun e he => ?_⟩
  · rw [h2 d]
    simp
    ring
  · rw [h2 e]
    simp [he]
  · rw [h1 d, hp]
    simp
    ring
  · rw [h1 e]
    simp [he]

/-- C11 (witness): `delta = 0.3`, velocity (-2, 0, 0), unit grid spacing: the velocity
becomes (2, 0, 0) and the position on direction 0 becomes 0.3. -/
theorem C11_reflect_lower_boundary_witness :
    (impose_wall (D := 3) 0 ⟨![-3 / 10, 5 / 2, 5 / 2], fun n => if n = 0 then -2 else 0⟩
      ![1, 1, 1] ![0, 0, 0] ![8, 8, 8] ![-1, 0, 0] false (fun _ => EBCellFlag.regular)
      (fun _ _ => 0) (fun _ _ => 0) (fun _ => 1) 0 ![0, 2, 2] ![-1, 2, 2]).rdata 0 = 2 ∧
    (impose_wall (D := 3) 0 ⟨![-3 / 10, 5 / 2, 5 / 2], fun n => if n = 0 then -2 else 0⟩
      ![1, 1, 1] ![0, 0, 0] ![8, 8, 8] ![-1, 0, 0] false (fun _ => EBCellFlag.regular)
      (fun _ _ => 0) (fun _ _ => 0) (fun _ => 1) 0 ![0, 2, 2] ![-1, 2, 2]).pos 0 = 3 / 10 ∧
    (impose_wall (D := 3) 0 ⟨![-3 / 10, 5 / 2, 5 / 2], fun n => if n = 0 then -2 else 0⟩
      ![1, 1, 1] ![0, 0, 0] ![8, 8, 8] ![-1, 0, 0] false (fun _ => EBCellFlag.regular)
      (fun _ _ => 0) (fun _ _ => 0) (fun _ => 1) 0 ![0, 2, 2] ![-1, 2, 2]).rdata 1 = 0 ∧
    (impose_wall (D := 3) 0 ⟨![-3 / 10, 5 / 2, 5 / 2], fun n => if n = 0 then -2 else 0⟩
      ![1, 1, 1] ![0, 0, 0] ![8, 8, 8] ![-1, 0, 0] false (fun _ => EBCellFlag.regular)
      (fun _ _ => 0) (fun _ _ => 0) (fun _ => 1) 0 ![0, 2, 2] ![-1, 2, 2]).rdata 2 = 0 :=
  have h := C11_reflect_lower_boundary (D := 3) 0
    ⟨![-3 / 10, 5 / 2, 5 / 2], fun n => if n = 0 then -2 else 0⟩
    ![1, 1, 1] ![0, 0, 0] ![8, 8, 8] ![-1, 0, 0] false (fun _ => EBCellFlag.regular)
    (fun _ _ => 0) (fun _ _ => 0) (fun _ => 1) 0 ![0, 2, 2] ![-1, 2, 2] 0 (3 / 10)
    (by norm_num) (by norm_num) (by norm_num) (by norm_num) (by simp) (by simp)
    (by intro e he; fin_cases e <;> simp at he ⊢)
  ⟨by simpa using h.1, by simpa using h.2.2.1, by simpa using h.2.1 1 (by decide),
    by simpa using h.2.1 2 (by decide)⟩

/-- The normal that `check_wall` returns for a domain-boundary reflection (some flag
is -1 or 1) is a signed coordinate unit vector. -/
theorem check_wall_flagged_unit {D : Nat} [NeZero D] (pos : RealVect D) (bflags : IntVect D)
    (dx : RealVect D) (ijkc ijkc_prev : IntVect D) (vel_part : RealVect D)
    (use_EB : Bool) (flags : IntVect D → EBCellFlag)
    (bcent bnorm : IntVect D → Fin D → ℚ) (vfrac : IntVect D → ℚ) (min_eb_vfrac : ℚ)
    (par_dot : ℚ) (normal : RealVect D) (h : ∃ d, bflags d = -1 ∨ bflags d = 1) :
    ∑ d, ((check_wall pos bflags dx ijkc ijkc_prev vel_part use_EB flags bcent bnorm vfrac
      min_eb_vfrac par_dot normal).2.2 d) ^ 2 = 1 := by
  obtain ⟨d, hd, hmin⟩ := wellFounded_lt.has_min
    {d : Fin D | bflags d = -1 ∨ bflags d = 1} h
  have hlow : ∀ e, e < d → bflags e ≠ -1 ∧ bflags e ≠ 1 := by
    intro e he
    have := hmin e
    constructor
    · intro h1
      exact this (Or.inl h1) he
    · intro h1
      exact this (Or.inr h1) he
  rw [check_wall_flagged pos bflags dx ijkc ijkc_prev vel_part use_EB flags bcent bnorm
    vfrac min_eb_vfrac par_dot normal d hd hlow]
  simp only
  rw [Finset.sum_eq_single d]
  · rcases hd with hd | hd <;> simp [hd]
  · intro b _ hb
    simp [hb]
  · intro h
    exact absurd (Finset.mem_univ d) h

/-- C12: reflection conserves kinetic energy.  Whenever the normal that `check_wall`
hands to `impose_wall` has unit length, the sum of squares of the velocity
components after `impose_wall` equals the sum before; a domain-boundary reflection
(some flag is -1 or 1) always has such a normal. -/
theorem C12_reflection_conserves_energy {D : Nat} [NeZero D] (pstateVel : Nat)
    (p : Particle D) (dx plo phi : RealVect D) (bflags : IntVect D) (use_EB : Bool)
    (flags : IntVect D → EBCellFlag) (bcent bnorm : IntVect D → Fin D → ℚ)
    (vfrac : IntVect D → ℚ) (min_eb_vfrac : ℚ) (ijkc_prev ijkc : IntVect D) :
    (∑ d, ((impose_wall_check pstateVel p dx plo bflags use_EB flags bcent bnorm vfrac
        min_eb_vfrac ijkc_prev ijkc).2.2 d) ^ 2 = 1 →
      ∑ d : Fin D, ((impose_wall pstateVel p dx plo phi bflags use_EB flags bcent bnorm
          vfrac min_eb_vfrac ijkc_prev ijkc).rdata (pstateVel + d)) ^ 2 =
        ∑ d : Fin D, (p.rdata (pstateVel + d)) ^ 2) ∧
    ((∃ d, bflags d = -1 ∨ bflags d = 1) →
      ∑ d, ((impose_wall_check pstateVel p dx plo bflags use_EB flags bcent bnorm vfrac
        min_eb_vfrac ijkc_prev ijkc).2.2 d) ^ 2 = 1) := by
  constructor
  · intro hunit
    obtain ⟨hrefl, hno⟩ := impose_wall_spec pstateVel p dx plo phi bflags use_EB flags bcent
      bnorm vfrac min_eb_vfrac ijkc_prev ijkc
    cases hc : (impose_wall_check pstateVel p dx plo bflags use_EB flags bcent bnorm vfrac
        min_eb_vfrac ijkc_prev ijkc).1 with
    | false => rw [hno hc]
    | true =>
      obtain ⟨-, h2, -⟩ := hrefl hc
      simp only [h2]
      generalize (impose_wall_check pstateVel p dx plo bflags use_EB flags bcent bnorm vfrac
        min_eb_vfrac ijkc_prev ijkc).2.2 = n at hunit ⊢
      have hsq : ∀ d : Fin D,
          (p.rdata (pstateVel + d) -
              2 * (∑ e : Fin D, n e * p.rdata (pstateVel + e)) * n d) ^ 2 =
            (p.rdata (pstateVel + d)) ^ 2 -
              4 * (∑ e : Fin D, n e * p.rdata (pstateVel + e)) *
                (n d * p.rdata (pstateVel + d)) +
              4 * (∑ e : Fin D, n e * p.rdata (pstateVel + e)) ^ 2 * (n d) ^ 2 := by
        intro d
        ring
      simp only [hsq, Finset.sum_add_distrib, Finset.sum_sub_distrib, ← Finset.mul_sum]
      rw [hunit]
      ring
  · intro h
    unfold impose_wall_check
    exact check_wall_flagged_unit _ bflags dx ijkc ijkc_prev _ use_EB flags bcent bnorm vfrac
      min_eb_vfrac 2 _ h

/-- C12 (witness): the particle of the lower-boundary scenario, velocity (-2, 1, 3):
the sum of squares stays 14. -/
theorem C12_reflection_conserves_energy_witness :
    ∑ d : Fin 3, ((impose_wall (D := 3) 0
        ⟨![-3 / 10, 5 / 2, 5 / 2], fun n => if n = 0 then -2 else if n = 1 then 1 else 3⟩
        ![1, 1, 1] ![0, 0, 0] ![8, 8, 8] ![-1, 0, 0] false (fun _ => EBCellFlag.regular)
        (fun _ _ => 0) (fun _ _ => 0) (fun _ => 1) 0 ![0, 2, 2] ![-1, 2, 2]).rdata
          (0 + d)) ^ 2 =
      ∑ d : Fin 3, ((fun n : Nat => if n = 0 then (-2 : ℚ) else if n = 1 then 1 else 3)
        (0 + d)) ^ 2 :=
  (C12_reflection_conserves_energy (D := 3) 0
    ⟨![-3 / 10, 5 / 2, 5 / 2], fun n => if n = 0 then -2 else if n = 1 then 1 else 3⟩
    ![1, 1, 1] ![0, 0, 0] ![8, 8, 8] ![-1, 0, 0] false (fun _ => EBCellFlag.regular)
    (fun _ _ => 0) (fun _ _ => 0) (fun _ => 1) 0 ![0, 2, 2] ![-1, 2, 2]).1
    ((C12_reflection_conserves_energy (D := 3) 0
      ⟨![-3 / 10, 5 / 2, 5 / 2], fun n => if n = 0 then -2 else if n = 1 then 1 else 3⟩
      ![1, 1, 1] ![0, 0, 0] ![8, 8, 8] ![-1, 0, 0] false (fun _ => EBCellFlag.regular)
      (fun _ _ => 0) (fun _ _ => 0) (fun _ => 1) 0 ![0, 2, 2] ![-1, 2, 2]).2
      ⟨0, Or.inl (by simp)⟩)

/-- C13: `impose_wall` applies exactly the specular update.  When its call of
`check_wall` returns `true` with `par_dot` and `normal`, the new velocity is
`v - 2 (v . normal) normal` and the new position `p - 2 par_dot normal`, the other
real components are unchanged, the velocity change is a multiple of the normal and
the velocity along any direction orthogonal to the normal is unchanged; when it
returns `false` the particle is unchanged.  `check_wall` returns `true` exactly when
a wall plane was selected and `par_dot` is below the positive tolerance. -/
theorem C13_impose_wall_specular {D : Nat} [NeZero D] (pstateVel : Nat) (p : Particle D)
    (dx plo phi : RealVect D) (bflags : IntVect D) (use_EB : Bool)
    (flags : IntVect D → EBCellFlag) (bcent bnorm : IntVect D → Fin D → ℚ)
    (vfrac : IntVect D → ℚ) (min_eb_vfrac : ℚ) (ijkc_prev ijkc : IntVect D) :
    ((impose_wall_check pstateVel p dx plo bflags use_EB flags bcent bnorm vfrac
        min_eb_vfrac ijkc_prev ijkc).1 = true →
      (∀ d : Fin D, (impose_wall pstateVel p dx plo phi bflags use_EB flags bcent bnorm
          vfrac min_eb_vfrac ijkc_prev ijkc).rdata (pstateVel + d) =
        p.rdata (pstateVel + d) - 2 *
          (∑ e : Fin D, p.rdata (pstateVel + e) *
            (impose_wall_check pstateVel p dx plo bflags use_EB flags bcent
              bnorm vfrac min_eb_vfrac ijkc_prev ijkc).2.2 e) *
          (impose_wall_check pstateVel p dx plo bflags use_EB flags bcent bnorm vfrac
            min_eb_vfrac ijkc_prev ijkc).2.2 d) ∧
      (∀ d, (impose_wall pstateVel p dx plo phi bflags use_EB flags bcent bnorm vfrac
          min_eb_vfrac ijkc_prev ijkc).pos d =
        p.pos d - 2 *
          (impose_wall_check pstateVel p dx plo bflags use_EB flags bcent bnorm vfrac
            min_eb_vfrac ijkc_prev ijkc).2.1 *
          (impose_wall_check pstateVel p dx plo bflags use_EB flags bcent bnorm vfrac
            min_eb_vfrac ijkc_prev ijkc).2.2 d) ∧
      (∀ n : Nat, (∀ e : Fin D, n ≠ pstateVel + e) →
        (impose_wall pstateVel p dx plo phi bflags use_EB flags bcent bnorm vfrac
          min_eb_vfrac ijkc_prev ijkc).rdata n = p.rdata n) ∧
      (∃ c : ℚ, ∀ d : Fin D,
        (impose_wall pstateVel p dx plo phi bflags use_EB flags bcent bnorm vfrac
          min_eb_vfrac ijkc_prev ijkc).rdata (pstateVel + d) - p.rdata (pstateVel + d) =
          c * (impose_wall_check pstateVel p dx plo bflags use_EB flags bcent bnorm vfrac
            min_eb_vfrac ijkc_prev ijkc).2.2 d) ∧
      (∀ t : RealVect D,
        ∑ d, t d * (impose_wall_check pstateVel p dx plo bflags use_EB flags bcent bnorm
          vfrac min_eb_vfrac ijkc_prev ijkc).2.2 d = 0 →
        ∑ d : Fin D, t d * (impose_wall pstateVel p dx plo phi bflags use_EB flags bcent
          bnorm vfrac min_eb_vfrac ijkc_prev ijkc).rdata (pstateVel + d) =
          ∑ d : Fin D, t d * p.rdata (pstateVel + d))) ∧
    ((impose_wall_check pstateVel p dx plo bflags use_EB flags bcent bnorm vfrac
        min_eb_vfrac ijkc_prev ijkc).1 = false →
      impose_wall pstateVel p dx plo phi bflags use_EB flags bcent bnorm vfrac
        min_eb_vfrac ijkc_prev ijkc = p) ∧
    (∀ (pos : RealVect D) (vel_part : RealVect D) (par_dot : ℚ) (normal : RealVect D),
      ((check_wall pos bflags dx ijkc ijkc_prev vel_part use_EB flags bcent bnorm vfrac
          min_eb_vfrac par_dot normal).1 = true ↔
        (check_wall_eb pos ijkc ijkc_prev vel_part use_EB flags bcent bnorm vfrac
          min_eb_vfrac (check_wall_bc bflags ijkc normal)).wall_check = true ∧
        (check_wall pos bflags dx ijkc ijkc_prev vel_part use_EB flags bcent bnorm vfrac
          min_eb_vfrac par_dot normal).2.1 < tolerance)) ∧
    0 < tolerance := by
  obtain ⟨hrefl, hno⟩ := impose_wall_spec pstateVel p dx plo phi bflags use_EB flags bcent
    bnorm vfrac min_eb_vfrac ijkc_prev ijkc
  refine ⟨fun hc => ?_, hno, ?_, tolerance_pos⟩
  · obtain ⟨h1, h2, h3⟩ := hrefl hc
    have hcomm : ∑ e : Fin D, p.rdata (pstateVel + e) *
          (impose_wall_check pstateVel p dx plo bflags use_EB flags bcent
            bnorm vfrac min_eb_vfrac ijkc_prev ijkc).2.2 e =
        ∑ e : Fin D, (impose_wall_check pstateVel p dx plo bflags use_EB flags bcent
            bnorm vfrac min_eb_vfrac ijkc_prev ijkc).2.2 e * p.rdata (pstateVel + e) :=
      Finset.sum_congr rfl (fun e _ => mul_comm _ _)
    refine ⟨fun d => ?_, h1, h3, ?_, ?_⟩
    · rw [h2 d, hcomm]
    · refine ⟨-2 * ∑ e : Fin D, (impose_wall_check pstateVel p dx plo bflags use_EB flags
        bcent bnorm vfrac min_eb_vfrac ijkc_prev ijkc).2.2 e * p.rdata (pstateVel + e),
        fun d => ?_⟩
      rw [h2 d]
      ring
    · intro t ht
      simp only [h2]
      have hexp : ∀ d : Fin D,
          t d * (p.rdata (pstateVel + d) -
            2 * (∑ e : Fin D, (impose_wall_check pstateVel p dx plo bflags use_EB flags
              bcent bnorm vfrac min_eb_vfrac ijkc_prev ijkc).2.2 e *
                p.rdata (pstateVel + e)) *
            (impose_wall_check pstateVel p dx plo bflags use_EB flags bcent bnorm vfrac
              min_eb_vfrac ijkc_prev ijkc).2.2 d) =
          t d * p.rdata (pstateVel + d) -
            2 * (∑ e : Fin D, (impose_wall_check pstateVel p dx plo bflags use_EB flags
              bcent bnorm vfrac min_eb_vfrac ijkc_prev ijkc).2.2 e *
                p.rdata (pstateVel + e)) *
            (t d * (impose_wall_check pstateVel p dx plo bflags use_EB flags bcent bnorm
              vfrac min_eb_vfrac ijkc_prev ijkc).2.2 d) := by
        intro d
        ring
      simp only [hexp, Finset.sum_sub_distrib, ← Finset.mul_sum, ht]
      ring
  · intro pos vel_part par_dot normal
    unfold check_wall
    simp only
    split
    · next h => simp [h]
    · next h => simp [h]

/-- C13 (witness): the particle of the lower-boundary scenario: the call of
`check_wall` returns `true` and the position on direction 0 is mirrored. -/
theorem C13_impose_wall_specular_witness :
    (impose_wall (D := 3) 0 ⟨![-3 / 10, 5 / 2, 5 / 2], fun n => if n = 0 then -2 else 0⟩
      ![1, 1, 1] ![0, 0, 0] ![8, 8, 8] ![-1, 0, 0] false (fun _ => EBCellFlag.regular)
      (fun _ _ => 0) (fun _ _ => 0) (fun _ => 1) 0 ![0, 2, 2] ![-1, 2, 2]).pos 0 =
    (![-3 / 10, 5 / 2, 5 / 2] : RealVect 3) 0 - 2 *
      (impose_wall_check (D := 3) 0
        ⟨![-3 / 10, 5 / 2, 5 / 2], fun n => if n = 0 then -2 else 0⟩
        ![1, 1, 1] ![0, 0, 0] ![-1, 0, 0] false (fun _ => EBCellFlag.regular)
        (fun _ _ => 0) (fun _ _ => 0) (fun _ => 1) 0 ![0, 2, 2] ![-1, 2, 2]).2.1 *
      (impose_wall_check (D := 3) 0
        ⟨![-3 / 10, 5 / 2, 5 / 2], fun n => if n = 0 then -2 else 0⟩
        ![1, 1, 1] ![0, 0, 0] ![-1, 0, 0] false (fun _ => EBCellFlag.regular)
        (fun _ _ => 0) (fun _ _ => 0) (fun _ => 1) 0 ![0, 2, 2] ![-1, 2, 2]).2.2 0 :=
  ((C13_impose_wall_specular (D := 3) 0
    ⟨![-3 / 10, 5 / 2, 5 / 2], fun n => if n = 0 then -2 else 0⟩
    ![1, 1, 1] ![0, 0, 0] ![8, 8, 8] ![-1, 0, 0] false (fun _ => EBCellFlag.regular)
    (fun _ _ => 0) (fun _ _ => 0) (fun _ => 1) 0 ![0, 2, 2] ![-1, 2, 2]).1
    (by
      norm_num [impose_wall_check, check_wall, check_wall_eb, check_wall_bc, List.finRange,
        tolerance, Fin.sum_univ_three, Function.update_apply]
      rw [if_neg (by decide)]
      norm_num)).2.1 0

/-- Without a flag -1 or 1, and with embedded boundaries off or the current cell
neither cut nor covered, `check_wall` selects no wall: it returns `false` and leaves
`par_dot` as it is. -/
theorem check_wall_interior {D : Nat} [NeZero D] (pos : RealVect D) (bflags : IntVect D)
    (dx : RealVect D) (ijkc ijkc_prev : IntVect D) (vel_part : RealVect D)
    (use_EB : Bool) (flags : IntVect D → EBCellFlag)
    (bcent bnorm : IntVect D → Fin D → ℚ) (vfrac : IntVect D → ℚ) (min_eb_vfrac : ℚ)
    (par_dot : ℚ) (normal : RealVect D) (h : ∀ d, bflags d ≠ -1 ∧ bflags d ≠ 1)
    (hcell : use_EB = false ∨
      ((flags ijkc).isSingleValued = false ∧ (flags ijkc).isCovered = false)) :
    (check_wall pos bflags dx ijkc ijkc_prev vel_part use_EB flags bcent bnorm vfrac
        min_eb_vfrac par_dot normal).1 = false ∧
    (check_wall pos bflags dx ijkc ijkc_prev vel_part use_EB flags bcent bnorm vfrac
        min_eb_vfrac par_dot normal).2.1 = par_dot := by
  have hbc := check_wall_bc_no_flag bflags ijkc normal h
  have heb : (check_wall_eb pos ijkc ijkc_prev vel_part use_EB flags bcent bnorm vfrac
      min_eb_vfrac (check_wall_bc bflags ijkc normal)).wall_check = false := by
    unfold check_wall_eb
    rcases hcell with hu | ⟨hs, hc⟩
    · simp [hu, hbc]
    · simp [hs, hc, hbc]
  unfold check_wall
  simp [heb]

/-- C14: interior particles are never reflected.  If no entry of `bflags` is -1 or 1
and either embedded boundaries are not in use or the current cell `ijkc` is neither
a cut nor a covered cell, then `check_wall` returns `false` and `impose_wall` leaves
the particle's position and velocity unchanged. -/
theorem C14_interior_not_reflected {D : Nat} [NeZero D] (bflags : IntVect D)
    (use_EB : Bool) (flags : IntVect D → EBCellFlag)
    (bcent bnorm : IntVect D → Fin D → ℚ) (vfrac : IntVect D → ℚ) (min_eb_vfrac : ℚ)
    (ijkc_prev ijkc : IntVect D) (h : ∀ d, bflags d ≠ -1 ∧ bflags d ≠ 1)
    (hcell : use_EB = false ∨
      ((flags ijkc).isSingleValued = false ∧ (flags ijkc).isCovered = false)) :
    (∀ (pos dx vel_part : RealVect D) (par_dot : ℚ) (normal : RealVect D),
      (check_wall pos bflags dx ijkc ijkc_prev vel_part use_EB flags bcent bnorm vfrac
        min_eb_vfrac par_dot normal).1 = false) ∧
    (∀ (pstateVel : Nat) (p : Particle D) (dx plo phi : RealVect D),
      impose_wall pstateVel p dx plo phi bflags use_EB flags bcent bnorm vfrac
        min_eb_vfrac ijkc_prev ijkc = p) := by
  constructor
  · intro pos dx vel_part par_dot normal
    exact (check_wall_interior pos bflags dx ijkc ijkc_prev vel_part use_EB flags bcent bnorm
      vfrac min_eb_vfrac par_dot normal h hcell).1
  · intro pstateVel p dx plo phi
    apply (impose_wall_spec pstateVel p dx plo phi bflags use_EB flags bcent bnorm vfrac
      min_eb_vfrac ijkc_prev ijkc).2
    unfold impose_wall_check
    exact (check_wall_interior _ bflags dx ijkc ijkc_prev _ use_EB flags bcent bnorm
      vfrac min_eb_vfrac 2 _ h hcell).1

/-- C14 (witness): embedded boundaries in use, the particle in a regular cell half a
cell away from a reflective face (flag -2 on direction 0). -/
theorem C14_interior_not_reflected_witness :
    (check_wall (D := 3) ![1 / 5, 5 / 2, 5 / 2] ![-2, 0, 0] ![1, 1, 1] ![0, 2, 2] ![0, 2, 2]
      ![-2, 0, 0] true (fun _ => EBCellFlag.regular) (fun _ _ => 0) (fun _ _ => 0)
      (fun _ => 1) (1 / 10) 2 ![0, 0, 0]).1 = false ∧
    impose_wall (D := 3) 0 ⟨![1 / 5, 5 / 2, 5 / 2], fun n => if n = 0 then -2 else 0⟩
      ![1, 1, 1] ![0, 0, 0] ![8, 8, 8] ![-2, 0, 0] true (fun _ => EBCellFlag.regular)
      (fun _ _ => 0) (fun _ _ => 0) (fun _ => 1) (1 / 10) ![0, 2, 2] ![0, 2, 2] =
      ⟨![1 / 5, 5 / 2, 5 / 2], fun n => if n = 0 then -2 else 0⟩ :=
  have h := C14_interior_not_reflected (D := 3) ![-2, 0, 0] true
    (fun _ => EBCellFlag.regular) (fun _ _ => 0) (fun _ _ => 0) (fun _ => 1) (1 / 10)
    ![0, 2, 2] ![0, 2, 2] (by intro d; fin_cases d <;> simp) (Or.inr ⟨rfl, rfl⟩)
  ⟨h.1 _ _ _ _ _, h.2 _ _ _ _ _⟩

/-- C15: a reflective domain boundary takes precedence and only one direction is
used.  If `d` is the lowest direction with `bflags[d]` equal to -1 or 1, then
`check_wall` puts out `normal = -bflags[d]` times the unit vector of `d`, uses the
plane at the normalized coordinate `ijkc[d] + (1 - bflags[d]) / 2` (the cell index
plus 1 for the lower side, plus 0 for the upper side), sets
`par_dot = (pos[d] - that coordinate) * dx[d] * normal[d]`, returns whether this is
below the tolerance, and nothing of this depends on the flags of the other
directions or on any embedded-boundary input. -/
theorem C15_domain_boundary_precedence {D : Nat} [NeZero D] (pos : RealVect D)
    (bflags : IntVect D) (dx : RealVect D) (ijkc ijkc_prev : IntVect D)
    (vel_part : RealVect D) (use_EB : Bool) (flags : IntVect D → EBCellFlag)
    (bcent bnorm : IntVect D → Fin D → ℚ) (vfrac : IntVect D → ℚ) (min_eb_vfrac : ℚ)
    (par_dot : ℚ) (normal : RealVect D) (d : Fin D)
    (hd : bflags d = -1 ∨ bflags d = 1)
    (hlow : ∀ e, e < d → bflags e ≠ -1 ∧ bflags e ≠ 1) :
    check_wall pos bflags dx ijkc ijkc_prev vel_part use_EB flags bcent bnorm vfrac
        min_eb_vfrac par_dot normal =
      (decide ((pos d - ((ijkc d : ℚ) + (1 - (bflags d : ℚ)) / 2)) * dx d *
          (-(bflags d : ℚ)) < tolerance),
        (pos d - ((ijkc d : ℚ) + (1 - (bflags d : ℚ)) / 2)) * dx d * (-(bflags d : ℚ)),
        fun e => if e = d then -(bflags d : ℚ) else 0) ∧
    (bflags d = -1 → (ijkc d : ℚ) + (1 - (bflags d : ℚ)) / 2 = (ijkc d : ℚ) + 1) ∧
    (bflags d = 1 → (ijkc d : ℚ) + (1 - (bflags d : ℚ)) / 2 = (ijkc d : ℚ)) ∧
    (∀ (bflags' : IntVect D) (ijkc_prev' : IntVect D) (vel_part' : RealVect D)
        (use_EB' : Bool) (flags' : IntVect D → EBCellFlag)
        (bcent' bnorm' : IntVect D → Fin D → ℚ) (vfrac' : IntVect D → ℚ)
        (min_eb_vfrac' : ℚ),
      bflags' d = bflags d → (∀ e, e < d → bflags' e ≠ -1 ∧ bflags' e ≠ 1) →
      check_wall pos bflags' dx ijkc ijkc_prev' vel_part' use_EB' flags' bcent' bnorm'
          vfrac' min_eb_vfrac' par_dot normal =
        check_wall pos bflags dx ijkc ijkc_prev vel_part use_EB flags bcent bnorm vfrac
          min_eb_vfrac par_dot normal) := by
  refine ⟨check_wall_flagged pos bflags dx ijkc ijkc_prev vel_part use_EB flags bcent bnorm
    vfrac min_eb_vfrac par_dot normal d hd hlow, ?_, ?_, ?_⟩
  · intro h
    rw [h]
    push_cast
    ring
  · intro h
    rw [h]
    push_cast
    ring
  · intro bflags' ijkc_prev' vel_part' use_EB' flags' bcent' bnorm' vfrac' min_eb_vfrac'
      hsame hlow'
    rw [check_wall_flagged pos bflags dx ijkc ijkc_prev vel_part use_EB flags bcent bnorm
      vfrac min_eb_vfrac par_dot normal d hd hlow,
      check_wall_flagged pos bflags' dx ijkc ijkc_prev' vel_part' use_EB' flags' bcent'
      bnorm' vfrac' min_eb_vfrac' par_dot normal d (hsame ▸ hd) hlow', hsame]

/-- C15 (witness): the upper side of direction 2 is flagged together with the flag 2
on direction 0; embedded boundaries are in use and the cell is a cut cell.  The wall
is the upper face of direction 2. -/
theorem C15_domain_boundary_precedence_witness :
    check_wall (D := 3) ![1 / 5, 5 / 2, 83 / 10] ![2, 0, 1] ![1, 1, 1 / 2] ![0, 2, 8]
      ![0, 2, 7] ![0, 0, 3] true (fun _ => EBCellFlag.singleValued) (fun _ _ => 1 / 4)
      (fun _ _ => 1) (fun _ => 1 / 2) (1 / 10) 2 ![0, 0, 0] =
    (decide (((![1 / 5, 5 / 2, 83 / 10] : RealVect 3) 2 -
          ((((![0, 2, 8] : IntVect 3) 2 : Int) : ℚ) +
            (1 - (((![2, 0, 1] : IntVect 3) 2 : Int) : ℚ)) / 2)) *
          (![1, 1, 1 / 2] : RealVect 3) 2 *
          (-(((![2, 0, 1] : IntVect 3) 2 : Int) : ℚ)) < tolerance),
      ((![1 / 5, 5 / 2, 83 / 10] : RealVect 3) 2 -
          ((((![0, 2, 8] : IntVect 3) 2 : Int) : ℚ) +
            (1 - (((![2, 0, 1] : IntVect 3) 2 : Int) : ℚ)) / 2)) *
          (![1, 1, 1 / 2] : RealVect 3) 2 *
          (-(((![2, 0, 1] : IntVect 3) 2 : Int) : ℚ)),
      fun e => if e = 2 then -(((![2, 0, 1] : IntVect 3) 2 : Int) : ℚ) else 0) :=
  (C15_domain_boundary_precedence (D := 3) ![1 / 5, 5 / 2, 83 / 10] ![2, 0, 1]
    ![1, 1, 1 / 2] ![0, 2, 8] ![0, 2, 7] ![0, 0, 3] true (fun _ => EBCellFlag.singleValued)
    (fun _ _ => 1 / 4) (fun _ _ => 1) (fun _ => 1 / 2) (1 / 10) 2 ![0, 0, 0] 2
    (Or.inr (by simp)) (by intro e he; fin_cases e <;> simp at he ⊢)).1

/-! ### `RealVect::maxDir` -/

/-- The scan of `maxDir` keeps the value of the direction it holds, never lowers it,
and ends at or above the value of every direction it has seen. -/
theorem maxDir_fold {D : Nat} (val : Fin D → ℚ) (l : List (Fin D)) (st : Fin D × ℚ)
    (hst : st.2 = val st.1) :
    (l.foldl (fun (st : Fin D × ℚ) idir => if val idir > st.2 then (idir, val idir) else st)
        st).2 =
      val (l.foldl
        (fun (st : Fin D × ℚ) idir => if val idir > st.2 then (idir, val idir) else st)
        st).1 ∧
    st.2 ≤ (l.foldl
        (fun (st : Fin D × ℚ) idir => if val idir > st.2 then (idir, val idir) else st)
        st).2 ∧
    ∀ e ∈ l, val e ≤ (l.foldl
        (fun (st : Fin D × ℚ) idir => if val idir > st.2 then (idir, val idir) else st)
        st).2 := by
  induction l generalizing st with
  | nil => simp [hst]
  | cons a l ih =>
    rw [List.foldl_cons]
    by_cases h : val a > st.2
    · rw [if_pos h]
      obtain ⟨h1, h2, h3⟩ := ih (a, val a) rfl
      refine ⟨h1, le_trans (le_of_lt h) h2, fun e he => ?_⟩
      rcases List.mem_cons.mp he with rfl | he
      · exact h2
      · exact h3 e he
    · rw [if_neg h]
      obtain ⟨h1, h2, h3⟩ := ih st hst
      refine ⟨h1, h2, fun e he => ?_⟩
      rcases List.mem_cons.mp he with rfl | he
      · exact le_trans (not_lt.mp h) h2
      · exact h3 e he

/-- Every direction is direction 0 or one of the directions the scan of `maxDir`
visits. -/
theorem mem_tail_finRange_or_zero {D : Nat} (e : Fin D) :
    e ∈ (List.finRange D).tail ∨ (e : Nat) = 0 := by
  cases D with
  | zero => exact e.elim0
  | succ n =>
    rw [List.finRange_succ_eq_map, List.tail_cons]
    induction e using Fin.cases with
    | zero => exact Or.inr rfl
    | succ i => exact Or.inl (List.mem_map.mpr ⟨i, List.mem_finRange i, rfl⟩)

/-- `maxDir` with `a_doAbs = true` returns a direction of largest magnitude. -/
theorem maxDir_abs_max {D : Nat} [NeZero D] (v : RealVect D) (e : Fin D) :
    |v e| ≤ |v (RealVect.maxDir v true)| := by
  obtain ⟨h1, h2, h3⟩ := maxDir_fold (fun d => |v d|) (List.finRange D).tail
    ((0 : Fin D), |v 0|) rfl
  have hdef : RealVect.maxDir v true =
      ((List.finRange D).tail.foldl
        (fun (st : Fin D × ℚ) idir => if |v idir| > st.2 then (idir, |v idir|) else st)
        ((0 : Fin D), |v 0|)).1 := by
    simp [RealVect.maxDir]
  rw [hdef]
  simp only at h1 h2 h3
  rw [← h1]
  rcases mem_tail_finRange_or_zero e with he | he
  · exact h3 e he
  · have : e = 0 := Fin.ext (by simp [he])
    rw [this]
    exact h2

/-! ### `check_wall` and the checked divisions -/

/-- One iteration of the neighbour search divides by zero in no case when the
velocity component of its direction is not zero where the probed cell is covered
and not cut: the division for a cut cell is guarded. -/
theorem check_wall_search_body_safe_eq {D : Nat} (pos : RealVect D)
    (ijkc ijkc_prev : IntVect D) (vel_part : RealVect D) (flags : IntVect D → EBCellFlag)
    (bcent bnorm : IntVect D → Fin D → ℚ) (dir : Fin D) (st : SearchState D)
    (h : ijkc_prev dir ≠ ijkc dir →
      (flags (Function.update ijkc_prev dir (ijkc dir))).isSingleValued = false →
      (flags (Function.update ijkc_prev dir (ijkc dir))).isCovered = true →
      vel_part dir ≠ 0) :
    check_wall_search_body_safe pos ijkc ijkc_prev vel_part flags bcent bnorm dir st =
      some (check_wall_search_body pos ijkc ijkc_prev vel_part flags bcent bnorm dir st) := by
  unfold check_wall_search_body_safe check_wall_search_body
  by_cases hne : ijkc_prev dir ≠ ijkc dir
  · rw [if_pos hne, if_pos hne]
    by_cases hs : (flags (Function.update ijkc_prev dir (ijkc dir))).isSingleValued = true
    · simp only [hs, if_true]
      by_cases h2 : ∑ okdir, vel_part okdir *
          (-bnorm (Function.update ijkc_prev dir (ijkc dir)) okdir) ≠ 0
      · have h2' : ¬ ∑ okdir, vel_part okdir *
            (-bnorm (Function.update ijkc_prev dir (ijkc dir)) okdir) = 0 := h2
        simp only [checked_div, ne_eq, h2', not_false_eq_true, if_true, if_false,
          Option.map_some']
      · have h2' : ∑ okdir, vel_part okdir *
            (-bnorm (Function.update ijkc_prev dir (ijkc dir)) okdir) = 0 := not_not.mp h2
        simp only [ne_eq, h2', not_true_eq_false, if_false, Option.map_some']
    · have hs' : (flags (Function.update ijkc_prev dir (ijkc dir))).isSingleValued = false := by
        simpa using hs
      by_cases hc : (flags (Function.update ijkc_prev dir (ijkc dir))).isCovered = true
      · have hv := h hne hs' hc
        simp only [hs', hc, Bool.false_eq_true, if_false, if_true, checked_div, hv,
          Option.map_some']
      · simp only [hs', hc, Bool.false_eq_true, if_false, Option.map_some']
  · rw [if_neg hne, if_neg hne]

/-- A loop whose checked body always agrees with the unchecked body divides by zero
in no iteration. -/
theorem foldl_bind_some {α β : Type} (f : α → β → α) (g : α → β → Option α)
    (l : List β) (hfg : ∀ b ∈ l, ∀ a, g a b = some (f a b)) (a : α) :
    l.foldl (fun (s : Option α) b => s.bind (fun a => g a b)) (some a) =
      some (l.foldl f a) := by
  induction l generalizing a with
  | nil => rfl
  | cons b l ih =>
    rw [List.foldl_cons, List.foldl_cons, Option.some_bind, hfg b (List.mem_cons_self b l) a]
    exact ih (fun b' hb' => hfg b' (List.mem_cons_of_mem b hb')) (f a b)

/-- `check_wall` divides by zero in no case when the velocity component is not zero
on every direction that changes cell and whose probed cell is covered and not cut;
the checked call then gives the result of `check_wall`. -/
theorem check_wall_safe_eq {D : Nat} [NeZero D] (pos : RealVect D) (bflags : IntVect D)
    (dx : RealVect D) (ijkc ijkc_prev : IntVect D) (vel_part : RealVect D)
    (use_EB : Bool) (flags : IntVect D → EBCellFlag)
    (bcent bnorm : IntVect D → Fin D → ℚ) (vfrac : IntVect D → ℚ) (min_eb_vfrac : ℚ)
    (par_dot : ℚ) (normal : RealVect D)
    (h : ∀ dir, ijkc_prev dir ≠ ijkc dir →
      (flags (Function.update ijkc_prev dir (ijkc dir))).isSingleValued = false →
      (flags (Function.update ijkc_prev dir (ijkc dir))).isCovered = true →
      vel_part dir ≠ 0) :
    check_wall_safe pos bflags dx ijkc ijkc_prev vel_part use_EB flags bcent bnorm vfrac
        min_eb_vfrac par_dot normal =
      some (check_wall pos bflags dx ijkc ijkc_prev vel_part use_EB flags bcent bnorm vfrac
        min_eb_vfrac par_dot normal) := by
  have hfold : ∀ init : SearchState D,
      (List.finRange D).foldl
        (fun (s : Option (SearchState D)) (dir : Fin D) =>
          s.bind (check_wall_search_body_safe pos ijkc ijkc_prev vel_part flags bcent
            bnorm dir)) (some init) =
      some ((List.finRange D).foldl
        (fun s dir =>
          check_wall_search_body pos ijkc ijkc_prev vel_part flags bcent bnorm dir s)
        init) := by
    intro init
    exact foldl_bind_some
      (fun s dir =>
        check_wall_search_body pos ijkc ijkc_prev vel_part flags bcent bnorm dir s)
      (fun s dir =>
        check_wall_search_body_safe pos ijkc ijkc_prev vel_part flags bcent bnorm dir s)
      (List.finRange D)
      (fun dir _ s => check_wall_search_body_safe_eq pos ijkc ijkc_prev vel_part flags bcent
        bnorm dir s (h dir)) init
  have heb : check_wall_eb_safe pos ijkc ijkc_prev vel_part use_EB flags bcent bnorm vfrac
        min_eb_vfrac (check_wall_bc bflags ijkc normal) =
      some (check_wall_eb pos ijkc ijkc_prev vel_part use_EB flags bcent bnorm vfrac
        min_eb_vfrac (check_wall_bc bflags ijkc normal)) := by
    unfold check_wall_eb_safe check_wall_eb
    simp only [hfold, Option.map_some']
    split_ifs <;> rfl
  unfold check_wall_safe check_wall
  rw [heb, Option.map_some']

/-! ### The neighbour search of `check_wall` -/

/-- One iteration of the neighbour search in terms of the candidate of its
direction: the candidate replaces the plane when its direction changes cell and its
crossing fraction is above the largest one so far. -/
theorem check_wall_search_body_spec {D : Nat} (pos : RealVect D)
    (ijkc ijkc_prev : IntVect D) (vel_part : RealVect D) (flags : IntVect D → EBCellFlag)
    (bcent bnorm : IntVect D → Fin D → ℚ) (dir : Fin D) (st : SearchState D)
    (hst : 0 ≤ st.max_diff) :
    ((ijkc_prev dir ≠ ijkc dir ∧
        search_frac pos ijkc ijkc_prev vel_part flags bcent bnorm dir > st.max_diff) →
      (check_wall_search_body pos ijkc ijkc_prev vel_part flags bcent bnorm dir st).max_diff =
        search_frac pos ijkc ijkc_prev vel_part flags bcent bnorm dir ∧
      (check_wall_search_body pos ijkc ijkc_prev vel_part flags bcent bnorm dir st).normal =
        search_norm ijkc ijkc_prev flags bnorm dir ∧
      (check_wall_search_body pos ijkc ijkc_prev vel_part flags bcent bnorm dir st).bcentv =
        search_bcent ijkc ijkc_prev flags bcent dir) ∧
    (¬ (ijkc_prev dir ≠ ijkc dir ∧
        search_frac pos ijkc ijkc_prev vel_part flags bcent bnorm dir > st.max_diff) →
      (check_wall_search_body pos ijkc ijkc_prev vel_part flags bcent bnorm dir st).max_diff =
        st.max_diff ∧
      (check_wall_search_body pos ijkc ijkc_prev vel_part flags bcent bnorm dir st).normal =
        st.normal ∧
      (check_wall_search_body pos ijkc ijkc_prev vel_part flags bcent bnorm dir st).bcentv =
        st.bcentv) := by
  unfold check_wall_search_body
  by_cases hne : ijkc_prev dir ≠ ijkc dir
  · rw [if_pos hne]
    by_cases hs : (flags (Function.update ijkc_prev dir (ijkc dir))).isSingleValued = true
    · simp only [search_frac, search_norm, search_bcent, search_tsti, hs, if_true]
      constructor
      · rintro ⟨-, h⟩
        rw [if_pos h]
        exact ⟨rfl, rfl, rfl⟩
      · intro h
        have h' := fun hc => h ⟨hne, hc⟩
        rw [if_neg h']
        exact ⟨rfl, rfl, rfl⟩
    · by_cases hc : (flags (Function.update ijkc_prev dir (ijkc dir))).isCovered = true
      · simp only [search_frac, search_norm, search_bcent, search_tsti, hs, hc, if_true,
          Bool.false_eq_true, if_false, Function.update_same]
        constructor
        · rintro ⟨-, h⟩
          rw [if_pos h]
          exact ⟨rfl, rfl, rfl⟩
        · intro h
          have h' := fun hc => h ⟨hne, hc⟩
          rw [if_neg h']
          exact ⟨rfl, rfl, rfl⟩
      · simp only [search_frac, search_norm, search_bcent, search_tsti, hs, hc,
          Bool.false_eq_true, if_false]
        have h0 : ¬ (0 : ℚ) > st.max_diff := not_lt.mpr hst
        constructor
        · rintro ⟨-, h⟩
          exact absurd h h0
        · intro _
          rw [if_neg h0]
          exact ⟨rfl, rfl, rfl⟩
  · rw [if_neg hne]
    constructor
    · rintro ⟨h, -⟩
      exact absurd h hne
    · intro _
      exact ⟨rfl, rfl, rfl⟩

/-- The neighbour search over directions none of which has a candidate above the
largest crossing fraction so far: the plane stays. -/
theorem search_fold_unchanged {D : Nat} (pos : RealVect D)
    (ijkc ijkc_prev : IntVect D) (vel_part : RealVect D) (flags : IntVect D → EBCellFlag)
    (bcent bnorm : IntVect D → Fin D → ℚ) (l : List (Fin D)) (st : SearchState D)
    (hst : 0 ≤ st.max_diff)
    (h : ∀ e ∈ l, ijkc_prev e ≠ ijkc e →
      search_frac pos ijkc ijkc_prev vel_part flags bcent bnorm e ≤ st.max_diff) :
    (l.foldl (fun s dir =>
        check_wall_search_body pos ijkc ijkc_prev vel_part flags bcent bnorm dir s)
        st).max_diff = st.max_diff ∧
    (l.foldl (fun s dir =>
        check_wall_search_body pos ijkc ijkc_prev vel_part flags bcent bnorm dir s)
        st).normal = st.normal ∧
    (l.foldl (fun s dir =>
        check_wall_search_body pos ijkc ijkc_prev vel_part flags bcent bnorm dir s)
        st).bcentv = st.bcentv := by
  induction l generalizing st with
  | nil => exact ⟨rfl, rfl, rfl⟩
  | cons a l ih =>
    rw [List.foldl_cons]
    have hno : ¬ (ijkc_prev a ≠ ijkc a ∧
        search_frac pos ijkc ijkc_prev vel_part flags bcent bnorm a > st.max_diff) := by
      rintro ⟨h1, h2⟩
      exact absurd h2 (not_lt.mpr (h a (List.mem_cons_self a l) h1))
    obtain ⟨b1, b2, b3⟩ := (check_wall_search_body_spec pos ijkc ijkc_prev vel_part flags
      bcent bnorm a st hst).2 hno
    obtain ⟨i1, i2, i3⟩ := ih
      (check_wall_search_body pos ijkc ijkc_prev vel_part flags bcent bnorm a st)
      (by rw [b1]; exact hst)
      (fun e he hne => by rw [b1]; exact h e (List.mem_cons_of_mem a he) hne)
    exact ⟨by rw [i1, b1], by rw [i2, b2], by rw [i3, b3]⟩

/-- The neighbour search over an increasing list of directions that holds `dstar`,
the lowest direction with the largest crossing fraction, which is above the largest
one so far: the plane becomes the candidate of `dstar`. -/
theorem search_fold_select {D : Nat} (pos : RealVect D)
    (ijkc ijkc_prev : IntVect D) (vel_part : RealVect D) (flags : IntVect D → EBCellFlag)
    (bcent bnorm : IntVect D → Fin D → ℚ) (dstar : Fin D)
    (hne : ijkc_prev dstar ≠ ijkc dstar) (l : List (Fin D))
    (hl : l.Pairwise (fun a b => a < b)) (hdl : dstar ∈ l) (st : SearchState D)
    (hst : 0 ≤ st.max_diff)
    (hgt : search_frac pos ijkc ijkc_prev vel_part flags bcent bnorm dstar > st.max_diff)
    (hmax : ∀ e ∈ l, ijkc_prev e ≠ ijkc e →
      search_frac pos ijkc ijkc_prev vel_part flags bcent bnorm e ≤
        search_frac pos ijkc ijkc_prev vel_part flags bcent bnorm dstar)
    (hfirst : ∀ e ∈ l, e < dstar → ijkc_prev e ≠ ijkc e →
      search_frac pos ijkc ijkc_prev vel_part flags bcent bnorm e <
        search_frac pos ijkc ijkc_prev vel_part flags bcent bnorm dstar) :
    (l.foldl (fun s dir =>
        check_wall_search_body pos ijkc ijkc_prev vel_part flags bcent bnorm dir s)
        st).normal = search_norm ijkc ijkc_prev flags bnorm dstar ∧
    (l.foldl (fun s dir =>
        check_wall_search_body pos ijkc ijkc_prev vel_part flags bcent bnorm dir s)
        st).bcentv = search_bcent ijkc ijkc_prev flags bcent dstar := by
  induction l generalizing st with
  | nil => simp at hdl
  | cons a l ih =>
    rw [List.foldl_cons]
    have hal : ∀ b ∈ l, a < b := (List.pairwise_cons.mp hl).1
    have hl' := (List.pairwise_cons.mp hl).2
    by_cases had : a = dstar
    · subst had
      obtain ⟨b1, b2, b3⟩ := (check_wall_search_body_spec pos ijkc ijkc_prev vel_part flags
        bcent bnorm a st hst).1 ⟨hne, hgt⟩
      obtain ⟨-, i2, i3⟩ := search_fold_unchanged pos ijkc ijkc_prev vel_part flags bcent
        bnorm l (check_wall_search_body pos ijkc ijkc_prev vel_part flags bcent bnorm a st)
        (by rw [b1]; exact le_trans hst (le_of_lt hgt))
        (fun e he hne' => by rw [b1]; exact hmax e (List.mem_cons_of_mem a he) hne')
      exact ⟨by rw [i2, b2], by rw [i3, b3]⟩
    · have hdl' : dstar ∈ l := by
        rcases List.mem_cons.mp hdl with h | h
        · exact absurd h.symm had
        · exact h
      have halt : a < dstar := hal dstar hdl'
      have hstep : 0 ≤ (check_wall_search_body pos ijkc ijkc_prev vel_part flags bcent bnorm
            a st).max_diff ∧
          search_frac pos ijkc ijkc_prev vel_part flags bcent bnorm dstar >
            (check_wall_search_body pos ijkc ijkc_prev vel_part flags bcent bnorm
              a st).max_diff := by
        by_cases hsel : ijkc_prev a ≠ ijkc a ∧
            search_frac pos ijkc ijkc_prev vel_part flags bcent bnorm a > st.max_diff
        · obtain ⟨b1, -, -⟩ := (check_wall_search_body_spec pos ijkc ijkc_prev vel_part flags
            bcent bnorm a st hst).1 hsel
          rw [b1]
          exact ⟨le_trans hst (le_of_lt hsel.2),
            hfirst a (List.mem_cons_self a l) halt hsel.1⟩
        · obtain ⟨b1, -, -⟩ := (check_wall_search_body_spec pos ijkc ijkc_prev vel_part flags
            bcent bnorm a st hst).2 hsel
          rw [b1]
          exact ⟨hst, hgt⟩
      exact ih hl' hdl'
        (check_wall_search_body pos ijkc ijkc_prev vel_part flags bcent bnorm a st)
        hstep.1 hstep.2
        (fun e he => hmax e (List.mem_cons_of_mem a he))
        (fun e he => hfirst e (List.mem_cons_of_mem a he))

/-- The embedded-boundary block of `check_wall` when no wall was selected before, the
current cell is covered and the neighbour search is entered (`test_par > 0`): the
plane is the one the search ends with. -/
theorem check_wall_eb_covered_search {D : Nat} [NeZero D] (pos : RealVect D)
    (ijkc ijkc_prev : IntVect D) (vel_part : RealVect D) (flags : IntVect D → EBCellFlag)
    (bcent bnorm : IntVect D → Fin D → ℚ) (vfrac : IntVect D → ℚ) (min_eb_vfrac : ℚ)
    (st : WallState D) (hst : st.wall_check = false)
    (hcov : (flags ijkc).isCovered = true)
    (htest : (covered_prev pos ijkc_prev flags bcent bnorm st).1 > 0) :
    check_wall_eb pos ijkc ijkc_prev vel_part true flags bcent bnorm vfrac min_eb_vfrac st =
      { wall_check := true
        normal := ((List.finRange D).foldl
          (fun s dir =>
            check_wall_search_body pos ijkc ijkc_prev vel_part flags bcent bnorm dir s)
          { max_diff := 0, cur_bcent := fun _ => 0, cur_norm := fun _ => 0
            normal := (covered_prev pos ijkc_prev flags bcent bnorm st).2.1
            bcentv := (covered_prev pos ijkc_prev flags bcent bnorm st).2.2 }).normal
        bcentv := ((List.finRange D).foldl
          (fun s dir =>
            check_wall_search_body pos ijkc ijkc_prev vel_part flags bcent bnorm dir s)
          { max_diff := 0, cur_bcent := fun _ => 0, cur_norm := fun _ => 0
            normal := (covered_prev pos ijkc_prev flags bcent bnorm st).2.1
            bcentv := (covered_prev pos ijkc_prev flags bcent bnorm st).2.2 }).bcentv } := by
  have hns : (flags ijkc).isSingleValued = false := by
    cases hf : flags ijkc <;> simp_all [EBCellFlag.isCovered, EBCellFlag.isSingleValued]
  have hprev : covered_prev pos ijkc_prev flags bcent bnorm st =
      (if (flags ijkc_prev).isSingleValued then
        (∑ dir, (pos dir - ((ijkc_prev dir : ℚ) + 1 / 2 + bcent ijkc_prev dir)) *
            (-bnorm ijkc_prev dir),
          fun dir => -bnorm ijkc_prev dir,
          fun dir => (ijkc_prev dir : ℚ) + 1 / 2 + bcent ijkc_prev dir)
      else (2, st.normal, st.bcentv)) := rfl
  unfold check_wall_eb
  simp only [hst, hns, hcov, and_self, if_true, Bool.false_eq_true, if_false]
  rw [← hprev, if_pos htest]

/-- The result of `check_wall` when embedded boundaries are in use, no flag is -1 or
1, the current cell is covered and the neighbour search is entered. -/
theorem check_wall_covered_search {D : Nat} [NeZero D] (pos : RealVect D)
    (bflags : IntVect D) (dx : RealVect D) (ijkc ijkc_prev : IntVect D)
    (vel_part : RealVect D) (flags : IntVect D → EBCellFlag)
    (bcent bnorm : IntVect D → Fin D → ℚ) (vfrac : IntVect D → ℚ) (min_eb_vfrac : ℚ)
    (par_dot : ℚ) (normal : RealVect D) (hflags : ∀ d, bflags d ≠ -1 ∧ bflags d ≠ 1)
    (hcov : (flags ijkc).isCovered = true)
    (htest : (covered_prev pos ijkc_prev flags bcent bnorm
      (check_wall_bc bflags ijkc normal)).1 > 0) :
    check_wall pos bflags dx ijkc ijkc_prev vel_part true flags bcent bnorm vfrac
        min_eb_vfrac par_dot normal =
      (decide (∑ dir, (pos dir -
          (covered_search pos ijkc ijkc_prev vel_part flags bcent bnorm
            (covered_prev pos ijkc_prev flags bcent bnorm
              (check_wall_bc bflags ijkc normal)).2.1
            (covered_prev pos ijkc_prev flags bcent bnorm
              (check_wall_bc bflags ijkc normal)).2.2).bcentv dir) * dx dir *
          (covered_search pos ijkc ijkc_prev vel_part flags bcent bnorm
            (covered_prev pos ijkc_prev flags bcent bnorm
              (check_wall_bc bflags ijkc normal)).2.1
            (covered_prev pos ijkc_prev flags bcent bnorm
              (check_wall_bc bflags ijkc normal)).2.2).normal dir < tolerance),
        ∑ dir, (pos dir -
          (covered_search pos ijkc ijkc_prev vel_part flags bcent bnorm
            (covered_prev pos ijkc_prev flags bcent bnorm
              (check_wall_bc bflags ijkc normal)).2.1
            (covered_prev pos ijkc_prev flags bcent bnorm
              (check_wall_bc bflags ijkc normal)).2.2).bcentv dir) * dx dir *
          (covered_search pos ijkc ijkc_prev vel_part flags bcent bnorm
            (covered_prev pos ijkc_prev flags bcent bnorm
              (check_wall_bc bflags ijkc normal)).2.1
            (covered_prev pos ijkc_prev flags bcent bnorm
              (check_wall_bc bflags ijkc normal)).2.2).normal dir,
        (covered_search pos ijkc ijkc_prev vel_part flags bcent bnorm
          (covered_prev pos ijkc_prev flags bcent bnorm
            (check_wall_bc bflags ijkc normal)).2.1
          (covered_prev pos ijkc_prev flags bcent bnorm
            (check_wall_bc bflags ijkc normal)).2.2).normal) := by
  have hbc := check_wall_bc_no_flag bflags ijkc normal hflags
  unfold check_wall
  rw [check_wall_eb_covered_search pos ijkc ijkc_prev vel_part flags bcent bnorm vfrac
    min_eb_vfrac (check_wall_bc bflags ijkc normal) hbc hcov htest]
  rfl

/-- C20: the covered-cell neighbour search picks the last wall crossed.  With embedded
boundaries in use, no flag -1 or 1, the current cell covered and the search entered
(`test_par > 0`, plane `normal0`, `bcentv0` before the search): for each direction
`dir` with `ijkc_prev[dir] != ijkc[dir]` the probed cell `tsti` is `ijkc_prev` with
its `dir` index replaced by `ijkc[dir]`; its crossing fraction is
`((pos - plane point) . n) / (vel_part . n)` for a cut `tsti` (0 if
`vel_part . n = 0`), `(pos[dir] - face) / vel_part[dir]` for a covered `tsti` and 0
otherwise; the plane `check_wall` uses is the candidate with the largest crossing
fraction among the strictly positive ones, the lowest direction on ties, and the
plane set before the search when no candidate has a positive fraction.  The
fractions are numbers: `vel_part[dir]` is not zero on every direction that changes
cell and whose probed cell is covered (`hvel`), and then the call divides by zero
nowhere (last part); a covered neighbour probed with `vel_part[dir] = 0` gives an
infinity or a NaN in the code and is not described here. -/
theorem C20_covered_search_selects {D : Nat} [NeZero D] (pos : RealVect D)
    (bflags : IntVect D) (dx : RealVect D) (ijkc ijkc_prev : IntVect D)
    (vel_part : RealVect D) (flags : IntVect D → EBCellFlag)
    (bcent bnorm : IntVect D → Fin D → ℚ) (vfrac : IntVect D → ℚ) (min_eb_vfrac : ℚ)
    (par_dot : ℚ) (normal : RealVect D) (test_par : ℚ) (normal0 bcentv0 : RealVect D)
    (hflags : ∀ d, bflags d ≠ -1 ∧ bflags d ≠ 1)
    (hcov : (flags ijkc).isCovered = true)
    (hprev : covered_prev pos ijkc_prev flags bcent bnorm
      (check_wall_bc bflags ijkc normal) = (test_par, normal0, bcentv0))
    (htest : test_par > 0)
    (hvel : ∀ dir, ijkc_prev dir ≠ ijkc dir →
      (flags (search_tsti ijkc ijkc_prev dir)).isCovered = true → vel_part dir ≠ 0) :
    ((∀ dir, ijkc_prev dir ≠ ijkc dir →
        search_frac pos ijkc ijkc_prev vel_part flags bcent bnorm dir ≤ 0) →
      (check_wall pos bflags dx ijkc ijkc_prev vel_part true flags bcent bnorm vfrac
        min_eb_vfrac par_dot normal).2.2 = normal0 ∧
      (check_wall pos bflags dx ijkc ijkc_prev vel_part true flags bcent bnorm vfrac
        min_eb_vfrac par_dot normal).2.1 =
        ∑ dir, (pos dir - bcentv0 dir) * dx dir * normal0 dir) ∧
    (∀ dstar, ijkc_prev dstar ≠ ijkc dstar →
      0 < search_frac pos ijkc ijkc_prev vel_part flags bcent bnorm dstar →
      (∀ e, ijkc_prev e ≠ ijkc e →
        0 < search_frac pos ijkc ijkc_prev vel_part flags bcent bnorm e →
        search_frac pos ijkc ijkc_prev vel_part flags bcent bnorm e ≤
          search_frac pos ijkc ijkc_prev vel_part flags bcent bnorm dstar) →
      (∀ e, e < dstar → ijkc_prev e ≠ ijkc e →
        0 < search_frac pos ijkc ijkc_prev vel_part flags bcent bnorm e →
        search_frac pos ijkc ijkc_prev vel_part flags bcent bnorm e <
          search_frac pos ijkc ijkc_prev vel_part flags bcent bnorm dstar) →
      (check_wall pos bflags dx ijkc ijkc_prev vel_part true flags bcent bnorm vfrac
        min_eb_vfrac par_dot normal).2.2 = search_norm ijkc ijkc_prev flags bnorm dstar ∧
      (check_wall pos bflags dx ijkc ijkc_prev vel_part true flags bcent bnorm vfrac
        min_eb_vfrac par_dot normal).2.1 =
        ∑ dir, (pos dir - search_bcent ijkc ijkc_prev flags bcent dstar dir) * dx dir *
          search_norm ijkc ijkc_prev flags bnorm dstar dir) ∧
    (∀ dir, search_tsti ijkc ijkc_prev dir = Function.update ijkc_prev dir (ijkc dir)) ∧
    (∀ dir, (flags (search_tsti ijkc ijkc_prev dir)).isSingleValued = true →
      search_norm ijkc ijkc_prev flags bnorm dir =
        (fun okdir => -bnorm (search_tsti ijkc ijkc_prev dir) okdir) ∧
      search_bcent ijkc ijkc_prev flags bcent dir =
        (fun okdir => (search_tsti ijkc ijkc_prev dir okdir : ℚ) + 1 / 2 +
          bcent (search_tsti ijkc ijkc_prev dir) okdir) ∧
      search_frac pos ijkc ijkc_prev vel_part flags bcent bnorm dir =
        if ∑ okdir, vel_part okdir * (-bnorm (search_tsti ijkc ijkc_prev dir) okdir) = 0
        then 0
        else (∑ okdir, (pos okdir - ((search_tsti ijkc ijkc_prev dir okdir : ℚ) + 1 / 2 +
            bcent (search_tsti ijkc ijkc_prev dir) okdir)) *
              (-bnorm (search_tsti ijkc ijkc_prev dir) okdir)) /
          (∑ okdir, vel_part okdir * (-bnorm (search_tsti ijkc ijkc_prev dir) okdir))) ∧
    (∀ dir, (flags (search_tsti ijkc ijkc_prev dir)).isSingleValued = false →
      (flags (search_tsti ijkc ijkc_prev dir)).isCovered = true →
      search_norm ijkc ijkc_prev flags bnorm dir =
        Function.update (fun _ => 0) dir (if ijkc_prev dir > ijkc dir then 1 else -1) ∧
      search_bcent ijkc ijkc_prev flags bcent dir dir =
        (ijkc dir : ℚ) + 1 / 2 + (if ijkc_prev dir > ijkc dir then 1 else -1) * (1 / 2) ∧
      search_frac pos ijkc ijkc_prev vel_part flags bcent bnorm dir =
        (pos dir - ((ijkc dir : ℚ) + 1 / 2 +
          (if ijkc_prev dir > ijkc dir then 1 else -1) * (1 / 2))) / vel_part dir) ∧
    (∀ dir, (flags (search_tsti ijkc ijkc_prev dir)).isSingleValued = false →
      (flags (search_tsti ijkc ijkc_prev dir)).isCovered = false →
      search_frac pos ijkc ijkc_prev vel_part flags bcent bnorm dir = 0) ∧
    check_wall_safe pos bflags dx ijkc ijkc_prev vel_part true flags bcent bnorm vfrac
        min_eb_vfrac par_dot normal =
      some (check_wall pos bflags dx ijkc ijkc_prev vel_part true flags bcent bnorm vfrac
        min_eb_vfrac par_dot normal) := by
  have hchk := check_wall_covered_search pos bflags dx ijkc ijkc_prev vel_part flags bcent
    bnorm vfrac min_eb_vfrac par_dot normal hflags hcov (by rw [hprev]; exact htest)
  rw [hprev] at hchk
  simp only at hchk
  refine ⟨fun hnone => ?_, fun dstar hne hpos hmax hfirst => ?_, fun _ => rfl,
    fun dir hs => ?_, fun dir hs hc => ?_, fun dir hs hc => ?_,
    check_wall_safe_eq pos bflags dx ijkc ijkc_prev vel_part true flags bcent bnorm vfrac
      min_eb_vfrac par_dot normal (fun dir hne _ hc => hvel dir hne hc)⟩
  · obtain ⟨-, i2, i3⟩ := search_fold_unchanged pos ijkc ijkc_prev vel_part flags bcent
      bnorm (List.finRange D)
      { max_diff := 0, cur_bcent := fun _ => 0, cur_norm := fun _ => 0
        normal := normal0, bcentv := bcentv0 } le_rfl (fun e _ he => hnone e he)
    have hn : (covered_search pos ijkc ijkc_prev vel_part flags bcent bnorm normal0
        bcentv0).normal = normal0 := i2
    have hb : (covered_search pos ijkc ijkc_prev vel_part flags bcent bnorm normal0
        bcentv0).bcentv = bcentv0 := i3
    rw [hchk, hn, hb]
    exact ⟨rfl, rfl⟩
  · have hle : ∀ e, ijkc_prev e ≠ ijkc e →
        search_frac pos ijkc ijkc_prev vel_part flags bcent bnorm e ≤
          search_frac pos ijkc ijkc_prev vel_part flags bcent bnorm dstar := by
      intro e he
      by_cases h0 : 0 < search_frac pos ijkc ijkc_prev vel_part flags bcent bnorm e
      · exact hmax e he h0
      · exact le_trans (not_lt.mp h0) (le_of_lt hpos)
    have hlt : ∀ e, e < dstar → ijkc_prev e ≠ ijkc e →
        search_frac pos ijkc ijkc_prev vel_part flags bcent bnorm e <
          search_frac pos ijkc ijkc_prev vel_part flags bcent bnorm dstar := by
      intro e hed he
      by_cases h0 : 0 < search_frac pos ijkc ijkc_prev vel_part flags bcent bnorm e
      · exact hfirst e hed he h0
      · exact lt_of_le_of_lt (not_lt.mp h0) hpos
    obtain ⟨i2, i3⟩ := search_fold_select pos ijkc ijkc_prev vel_part flags bcent
      bnorm dstar hne (List.finRange D) (List.pairwise_lt_finRange D)
      (List.mem_finRange dstar)
      { max_diff := 0, cur_bcent := fun _ => 0, cur_norm := fun _ => 0
        normal := normal0, bcentv := bcentv0 } le_rfl hpos (fun e _ => hle e)
      (fun e _ => hlt e)
    have hn : (covered_search pos ijkc ijkc_prev vel_part flags bcent bnorm normal0
        bcentv0).normal = search_norm ijkc ijkc_prev flags bnorm dstar := i2
    have hb : (covered_search pos ijkc ijkc_prev vel_part flags bcent bnorm normal0
        bcentv0).bcentv = search_bcent ijkc ijkc_prev flags bcent dstar := i3
    rw [hchk, hn, hb]
    exact ⟨rfl, rfl⟩
  · have hn : search_norm ijkc ijkc_prev flags bnorm dir =
        (fun okdir => -bnorm (search_tsti ijkc ijkc_prev dir) okdir) := by
      simp [search_norm, hs]
    have hb : search_bcent ijkc ijkc_prev flags bcent dir =
        (fun okdir => (search_tsti ijkc ijkc_prev dir okdir : ℚ) + 1 / 2 +
          bcent (search_tsti ijkc ijkc_prev dir) okdir) := by
      simp [search_bcent, hs]
    refine ⟨hn, hb, ?_⟩
    unfold search_frac
    rw [if_pos hs, hn, hb]
    by_cases h0 : ∑ okdir, vel_part okdir * (-bnorm (search_tsti ijkc ijkc_prev dir) okdir) = 0
    · rw [if_pos h0, if_neg (not_not.mpr h0)]
    · rw [if_neg h0, if_pos h0]
  · have hb : search_bcent ijkc ijkc_prev flags bcent dir dir =
        (ijkc dir : ℚ) + 1 / 2 + (if ijkc_prev dir > ijkc dir then 1 else -1) * (1 / 2) := by
      unfold search_bcent
      rw [if_neg (by simp [hs]), if_pos hc, Function.update_same]
      simp [search_tsti]
    refine ⟨by simp [search_norm, hs, hc], hb, ?_⟩
    unfold search_frac
    rw [if_neg (by simp [hs]), if_pos hc, hb]
  · unfold search_frac
    rw [if_neg (by simp [hs]), if_neg (by simp [hc])]

/-- C20 (witness): the particle went from the regular cell (1, 3, 2) to the covered
cell (0, 2, 2) with velocity (-2, -1, 0); both neighbours (0, 3, 2) and (1, 2, 2) are
covered, with crossing fractions 7/20 and 1/2: the wall is the face of direction
1. -/
theorem C20_covered_search_selects_witness :
    (check_wall (D := 3) ![3 / 10, 5 / 2, 5 / 2] ![0, 0, 0] ![1, 1, 1] ![0, 2, 2]
      ![1, 3, 2] ![-2, -1, 0] true
      (fun c => if c 0 = 0 ∨ c 1 = 2 then EBCellFlag.covered else EBCellFlag.regular)
      (fun _ _ => 0) (fun _ _ => 0) (fun _ => 1) (1 / 10) 2 ![0, 0, 0]).2.2 =
      search_norm (D := 3) ![0, 2, 2] ![1, 3, 2]
        (fun c => if c 0 = 0 ∨ c 1 = 2 then EBCellFlag.covered else EBCellFlag.regular)
        (fun _ _ => 0) 1 ∧
    (check_wall (D := 3) ![3 / 10, 5 / 2, 5 / 2] ![0, 0, 0] ![1, 1, 1] ![0, 2, 2]
      ![1, 3, 2] ![-2, -1, 0] true
      (fun c => if c 0 = 0 ∨ c 1 = 2 then EBCellFlag.covered else EBCellFlag.regular)
      (fun _ _ => 0) (fun _ _ => 0) (fun _ => 1) (1 / 10) 2 ![0, 0, 0]).2.1 =
      ∑ dir : Fin 3, ((![3 / 10, 5 / 2, 5 / 2] : RealVect 3) dir -
        search_bcent (D := 3) ![0, 2, 2] ![1, 3, 2]
          (fun c => if c 0 = 0 ∨ c 1 = 2 then EBCellFlag.covered else EBCellFlag.regular)
          (fun _ _ => 0) 1 dir) * (![1, 1, 1] : RealVect 3) dir *
        search_norm (D := 3) ![0, 2, 2] ![1, 3, 2]
          (fun c => if c 0 = 0 ∨ c 1 = 2 then EBCellFlag.covered else EBCellFlag.regular)
          (fun _ _ => 0) 1 dir :=
  (C20_covered_search_selects (D := 3) ![3 / 10, 5 / 2, 5 / 2] ![0, 0, 0] ![1, 1, 1]
    ![0, 2, 2] ![1, 3, 2] ![-2, -1, 0]
    (fun c => if c 0 = 0 ∨ c 1 = 2 then EBCellFlag.covered else EBCellFlag.regular)
    (fun _ _ => 0) (fun _ _ => 0) (fun _ => 1) (1 / 10) 2 ![0, 0, 0] 2
    (check_wall_bc ![0, 0, 0] ![0, 2, 2] ![0, 0, 0]).normal
    (check_wall_bc ![0, 0, 0] ![0, 2, 2] ![0, 0, 0]).bcentv
    (by intro d; fin_cases d <;> simp)
    (by simp [EBCellFlag.isCovered])
    (by simp +decide [covered_prev, EBCellFlag.isSingleValued])
    (by norm_num)
    (by intro dir h _; fin_cases dir <;> simp at h ⊢)).2.1 1
    (by simp)
    (by
      simp +decide [search_frac, search_bcent, search_tsti, Function.update_apply,
        EBCellFlag.isSingleValued, EBCellFlag.isCovered]
      norm_num)
    (by
      intro e _ _
      fin_cases e <;>
        simp +decide [search_frac, search_bcent, search_tsti, Function.update_apply,
          EBCellFlag.isSingleValued, EBCellFlag.isCovered] <;> norm_num)
    (by
      intro e he _ _
      fin_cases e
      · simp +decide [search_frac, search_bcent, search_tsti, Function.update_apply,
          EBCellFlag.isSingleValued, EBCellFlag.isCovered]
        norm_num
      · exact absurd he (by decide)
      · exact absurd he (by decide))

/-! ### Covered current cell, cut previous cell -/

/-- C17 (counterexample): the particle went from the cut cell (1, 2, 2) into the
covered cell (0, 2, 2) with velocity (-2, 0, 0) and is in front of the plane of the
previous cell (the sum is 6/5), yet `check_wall` returns `true`: the neighbour
search selects the face between the two cells. -/
theorem C17_counterexample :
    (∀ d : Fin 3, (![0, 0, 0] : IntVect 3) d ≠ -1 ∧ (![0, 0, 0] : IntVect 3) d ≠ 1) ∧
    ((fun c : IntVect 3 => if c 0 = 0 then EBCellFlag.covered else EBCellFlag.singleValued)
      ![0, 2, 2]).isCovered = true ∧
    ((fun c : IntVect 3 => if c 0 = 0 then EBCellFlag.covered else EBCellFlag.singleValued)
      ![1, 2, 2]).isSingleValued = true ∧
    ∑ dir : Fin 3, ((![3 / 10, 5 / 2, 5 / 2] : RealVect 3) dir -
        ((((![1, 2, 2] : IntVect 3) dir : Int) : ℚ) + 1 / 2 + 0)) *
        (-(![1, 0, 0] : RealVect 3) dir) > 0 ∧
    (check_wall (D := 3) ![3 / 10, 5 / 2, 5 / 2] ![0, 0, 0] ![1, 1, 1] ![0, 2, 2]
      ![1, 2, 2] ![-2, 0, 0] true
      (fun c => if c 0 = 0 then EBCellFlag.covered else EBCellFlag.singleValued)
      (fun _ _ => 0) (fun _ => ![1, 0, 0]) (fun _ => 1) (1 / 10) 2 ![0, 0, 0]).1 = true := by
  refine ⟨?_, ?_, ?_, ?_, ?_⟩
  · intro d
    fin_cases d <;> simp
  · simp [EBCellFlag.isCovered]
  · simp [EBCellFlag.isSingleValued]
  · norm_num [Fin.sum_univ_three]
  · simp +decide [check_wall, check_wall_eb, check_wall_bc, check_wall_search_body,
      List.finRange, Fin.sum_univ_three, tolerance, Function.update_apply,
      EBCellFlag.isSingleValued, EBCellFlag.isCovered]
    norm_num
    simp +decide [Function.update_apply]

/-- C17 (amended): with embedded boundaries in use, no flag -1 or 1, the current cell
covered, the previous cell a cut cell and the particle in front of the plane of the
previous cell, `check_wall` runs the neighbour search.  When `vel_part[dir]` is not
zero on every direction that changes cell and whose probed cell is covered (`hvel`:
the call then divides by zero nowhere, last part, and every crossing fraction is a
number) and no neighbour has a positive crossing fraction, the plane stays the one of
the previous cell, `par_dot` is the distance to it weighted by `dx`, and
`check_wall` returns `false` exactly when `par_dot` is at least the tolerance; for a
uniform grid spacing `h` that is when `h` times the sum is at least the tolerance.
A covered neighbour probed with `vel_part[dir] = 0` gives an infinity or a NaN in
the code and is not described here. -/
theorem C17_in_front_no_candidate {D : Nat} [NeZero D] (pos : RealVect D)
    (bflags : IntVect D) (dx : RealVect D) (ijkc ijkc_prev : IntVect D)
    (vel_part : RealVect D) (flags : IntVect D → EBCellFlag)
    (bcent bnorm : IntVect D → Fin D → ℚ) (vfrac : IntVect D → ℚ) (min_eb_vfrac : ℚ)
    (par_dot : ℚ) (normal : RealVect D)
    (hflags : ∀ d, bflags d ≠ -1 ∧ bflags d ≠ 1)
    (hcov : (flags ijkc).isCovered = true)
    (hcut : (flags ijkc_prev).isSingleValued = true)
    (hfront : ∑ dir, (pos dir - ((ijkc_prev dir : ℚ) + 1 / 2 + bcent ijkc_prev dir)) *
      (-bnorm ijkc_prev dir) > 0)
    (hvel : ∀ dir, ijkc_prev dir ≠ ijkc dir →
      (flags (search_tsti ijkc ijkc_prev dir)).isCovered = true → vel_part dir ≠ 0)
    (hnone : ∀ dir, ijkc_prev dir ≠ ijkc dir →
      search_frac pos ijkc ijkc_prev vel_part flags bcent bnorm dir ≤ 0) :
    (check_wall pos bflags dx ijkc ijkc_prev vel_part true flags bcent bnorm vfrac
        min_eb_vfrac par_dot normal).2.2 = (fun dir => -bnorm ijkc_prev dir) ∧
    (check_wall pos bflags dx ijkc ijkc_prev vel_part true flags bcent bnorm vfrac
        min_eb_vfrac par_dot normal).2.1 =
      ∑ dir, (pos dir - ((ijkc_prev dir : ℚ) + 1 / 2 + bcent ijkc_prev dir)) * dx dir *
        (-bnorm ijkc_prev dir) ∧
    ((check_wall pos bflags dx ijkc ijkc_prev vel_part true flags bcent bnorm vfrac
        min_eb_vfrac par_dot normal).1 = false ↔
      tolerance ≤ ∑ dir, (pos dir - ((ijkc_prev dir : ℚ) + 1 / 2 + bcent ijkc_prev dir)) *
        dx dir * (-bnorm ijkc_prev dir)) ∧
    (∀ h : ℚ, (∀ d, dx d = h) →
      tolerance ≤ h * ∑ dir, (pos dir - ((ijkc_prev dir : ℚ) + 1 / 2 +
        bcent ijkc_prev dir)) * (-bnorm ijkc_prev dir) →
      (check_wall pos bflags dx ijkc ijkc_prev vel_part true flags bcent bnorm vfrac
        min_eb_vfrac par_dot normal).1 = false) ∧
    check_wall_safe pos bflags dx ijkc ijkc_prev vel_part true flags bcent bnorm vfrac
        min_eb_vfrac par_dot normal =
      some (check_wall pos bflags dx ijkc ijkc_prev vel_part true flags bcent bnorm vfrac
        min_eb_vfrac par_dot normal) := by
  have hsafe := check_wall_safe_eq pos bflags dx ijkc ijkc_prev vel_part true flags bcent
    bnorm vfrac min_eb_vfrac par_dot normal (fun dir hne _ hc => hvel dir hne hc)
  have hprev : covered_prev pos ijkc_prev flags bcent bnorm
      (check_wall_bc bflags ijkc normal) =
      (∑ dir, (pos dir - ((ijkc_prev dir : ℚ) + 1 / 2 + bcent ijkc_prev dir)) *
          (-bnorm ijkc_prev dir),
        fun dir => -bnorm ijkc_prev dir,
        fun dir => (ijkc_prev dir : ℚ) + 1 / 2 + bcent ijkc_prev dir) := by
    unfold covered_prev
    rw [if_pos hcut]
  have hchk := check_wall_covered_search pos bflags dx ijkc ijkc_prev vel_part flags bcent
    bnorm vfrac min_eb_vfrac par_dot normal hflags hcov (by rw [hprev]; exact hfront)
  rw [hprev] at hchk
  simp only at hchk
  obtain ⟨-, i2, i3⟩ := search_fold_unchanged pos ijkc ijkc_prev vel_part flags bcent
    bnorm (List.finRange D)
    { max_diff := 0, cur_bcent := fun _ => 0, cur_norm := fun _ => 0
      normal := fun dir => -bnorm ijkc_prev dir
      bcentv := fun dir => (ijkc_prev dir : ℚ) + 1 / 2 + bcent ijkc_prev dir }
    le_rfl (fun e _ he => hnone e he)
  have hn : (covered_search pos ijkc ijkc_prev vel_part flags bcent bnorm
      (fun dir => -bnorm ijkc_prev dir)
      (fun dir => (ijkc_prev dir : ℚ) + 1 / 2 + bcent ijkc_prev dir)).normal =
      (fun dir => -bnorm ijkc_prev dir) := i2
  have hb : (covered_search pos ijkc ijkc_prev vel_part flags bcent bnorm
      (fun dir => -bnorm ijkc_prev dir)
      (fun dir => (ijkc_prev dir : ℚ) + 1 / 2 + bcent ijkc_prev dir)).bcentv =
      (fun dir => (ijkc_prev dir : ℚ) + 1 / 2 + bcent ijkc_prev dir) := i3
  rw [hn, hb] at hchk
  have hiff : (check_wall pos bflags dx ijkc ijkc_prev vel_part true flags bcent bnorm vfrac
        min_eb_vfrac par_dot normal).1 = false ↔
      tolerance ≤ ∑ dir, (pos dir - ((ijkc_prev dir : ℚ) + 1 / 2 + bcent ijkc_prev dir)) *
        dx dir * (-bnorm ijkc_prev dir) := by
    rw [hchk]
    simp
  refine ⟨by rw [hchk], by rw [hchk], hiff, fun h hdx htol => ?_, hsafe⟩
  rw [hiff]
  have hsum : ∑ dir, (pos dir - ((ijkc_prev dir : ℚ) + 1 / 2 + bcent ijkc_prev dir)) *
        dx dir * (-bnorm ijkc_prev dir) =
      h * ∑ dir, (pos dir - ((ijkc_prev dir : ℚ) + 1 / 2 + bcent ijkc_prev dir)) *
        (-bnorm ijkc_prev dir) := by
    rw [Finset.mul_sum]
    refine Finset.sum_congr rfl (fun d _ => ?_)
    rw [hdx d]
    ring
  rw [hsum]
  exact htol

/-- C17 (witness): the particle of the counterexample after its reflection, with
velocity (2, 0, 0): the only neighbour has the crossing fraction -7/20, the plane of
the previous cell stays and `check_wall` returns `false`. -/
theorem C17_in_front_no_candidate_witness :
    (check_wall (D := 3) ![3 / 10, 5 / 2, 5 / 2] ![0, 0, 0] ![1, 1, 1] ![0, 2, 2]
      ![1, 2, 2] ![2, 0, 0] true
      (fun c => if c 0 = 0 then EBCellFlag.covered else EBCellFlag.singleValued)
      (fun _ _ => 0) (fun _ => ![1, 0, 0]) (fun _ => 1) (1 / 10) 2 ![0, 0, 0]).1 = false :=
  (C17_in_front_no_candidate (D := 3) ![3 / 10, 5 / 2, 5 / 2] ![0, 0, 0] ![1, 1, 1]
    ![0, 2, 2] ![1, 2, 2] ![2, 0, 0]
    (fun c => if c 0 = 0 then EBCellFlag.covered else EBCellFlag.singleValued)
    (fun _ _ => 0) (fun _ => ![1, 0, 0]) (fun _ => 1) (1 / 10) 2 ![0, 0, 0]
    (by intro d; fin_cases d <;> simp)
    (by simp [EBCellFlag.isCovered])
    (by simp [EBCellFlag.isSingleValued])
    (by norm_num [Fin.sum_univ_three])
    (by intro dir h _; fin_cases dir <;> simp at h ⊢)
    (by
      intro e he
      fin_cases e
      · simp +decide [search_frac, search_bcent, search_tsti, Function.update_apply,
          EBCellFlag.isSingleValued, EBCellFlag.isCovered]
        norm_num
      · simp at he
      · simp at he)).2.2.2.1 1
    (by intro d; fin_cases d <;> simp)
    (by norm_num [Fin.sum_univ_three, tolerance])

/-! ### Sliver cut cells -/

/-- The result of `check_wall` in a cut cell whose volume fraction is below the
minimum, with embedded boundaries in use and no flag -1 or 1: the wall is a face of
the cell on the direction `fdir` that `maxDir` gives for the normal, the low face
when `bcent(ijkc, fdir) < 0` and the high face otherwise. -/
theorem check_wall_sliver {D : Nat} [NeZero D] (pos : RealVect D)
    (bflags : IntVect D) (dx : RealVect D) (ijkc ijkc_prev : IntVect D)
    (vel_part : RealVect D) (flags : IntVect D → EBCellFlag)
    (bcent bnorm : IntVect D → Fin D → ℚ) (vfrac : IntVect D → ℚ) (min_eb_vfrac : ℚ)
    (par_dot : ℚ) (normal : RealVect D) (fdir : Fin D)
    (hflags : ∀ d, bflags d ≠ -1 ∧ bflags d ≠ 1)
    (hcut : (flags ijkc).isSingleValued = true)
    (hv : vfrac ijkc < min_eb_vfrac)
    (hf : fdir = RealVect.maxDir (fun d => -bnorm ijkc d) true) :
    check_wall pos bflags dx ijkc ijkc_prev vel_part true flags bcent bnorm vfrac
        min_eb_vfrac par_dot normal =
      (decide ((pos fdir - (if bcent ijkc fdir < 0 then (ijkc fdir : ℚ)
            else (ijkc fdir : ℚ) + 1)) * dx fdir *
          (if bcent ijkc fdir < 0 then -1 else 1) < tolerance),
        (pos fdir - (if bcent ijkc fdir < 0 then (ijkc fdir : ℚ)
            else (ijkc fdir : ℚ) + 1)) * dx fdir *
          (if bcent ijkc fdir < 0 then -1 else 1),
        fun e => if e = fdir then (if bcent ijkc fdir < 0 then -1 else 1) else 0) := by
  have hbc := check_wall_bc_no_flag bflags ijkc normal hflags
  have heb : check_wall_eb pos ijkc ijkc_prev vel_part true flags bcent bnorm vfrac
      min_eb_vfrac (check_wall_bc bflags ijkc normal) =
      { wall_check := true
        normal := Function.update (fun _ => 0) fdir
          (-(if bcent ijkc fdir < 0 then (1 : ℚ) else -1))
        bcentv := Function.update
          (fun dir => (ijkc dir : ℚ) + 1 / 2 + bcent ijkc dir) fdir
          ((ijkc fdir : ℚ) + 1 / 2 * (1 - (if bcent ijkc fdir < 0 then (1 : ℚ) else -1))) } := by
    unfold check_wall_eb
    rw [if_pos ⟨rfl, hbc⟩, if_pos hcut]
    simp only
    rw [if_pos hv, ← hf]
  unfold check_wall
  rw [heb]
  simp only [if_true]
  have hsum : ∑ dir, (pos dir - Function.update
        (fun dir => (ijkc dir : ℚ) + 1 / 2 + bcent ijkc dir) fdir
        ((ijkc fdir : ℚ) + 1 / 2 * (1 - (if bcent ijkc fdir < 0 then (1 : ℚ) else -1))) dir) *
        dx dir * Function.update (fun _ => (0 : ℚ)) fdir
          (-(if bcent ijkc fdir < 0 then (1 : ℚ) else -1)) dir =
      (pos fdir - (if bcent ijkc fdir < 0 then (ijkc fdir : ℚ)
            else (ijkc fdir : ℚ) + 1)) * dx fdir *
          (if bcent ijkc fdir < 0 then -1 else 1) := by
    rw [Finset.sum_eq_single fdir]
    · rw [Function.update_same, Function.update_same]
      by_cases hb : bcent ijkc fdir < 0
      · simp only [hb, if_true]
        ring
      · simp only [hb, if_false]
        ring
    · intro b _ hb
      rw [Function.update_noteq hb (-(if bcent ijkc fdir < 0 then (1 : ℚ) else -1))
        (fun _ => (0 : ℚ))]
      ring
    · intro h
      exact absurd (Finset.mem_univ fdir) h
  rw [hsum]
  refine Prod.ext rfl (Prod.ext rfl ?_)
  funext e
  by_cases he : e = fdir
  · subst he
    simp only [Function.update_same, if_true]
    by_cases hb : bcent ijkc e < 0
    · simp [hb]
    · simp [hb]
  · simp only [Function.update_noteq he, if_neg he]

/-- C16 (counterexample): a sliver cut cell (0, 2, 2) with volume fraction 1/20 below
the minimum 1/10, normal along direction 0 and `bcent < 0` there, so the wall is the
low face; the particle sits exactly on that face.  `check_wall` returns `true`, but
the mirrored position is the same position and its cell index on direction 0 is
still 0. -/
theorem C16_counterexample :
    (1 / 20 : ℚ) < 1 / 10 ∧
    (∀ i : Fin 3, (((![0, 2, 2] : IntVect 3) i : Int) : ℚ) ≤
        ((![0, 5 / 2, 5 / 2] : RealVect 3) i - (![0, 0, 0] : RealVect 3) i) /
          (![1, 1, 1] : RealVect 3) i ∧
      ((![0, 5 / 2, 5 / 2] : RealVect 3) i - (![0, 0, 0] : RealVect 3) i) /
          (![1, 1, 1] : RealVect 3) i < (((![0, 2, 2] : IntVect 3) i : Int) : ℚ) + 1) ∧
    RealVect.maxDir (D := 3) (fun d => -(![-1, 0, 0] : RealVect 3) d) true = 0 ∧
    (impose_wall_check (D := 3) 0 ⟨![0, 5 / 2, 5 / 2], fun n => if n = 0 then -2 else 0⟩
      ![1, 1, 1] ![0, 0, 0] ![0, 0, 0] true (fun _ => EBCellFlag.singleValued)
      (fun _ => ![-1 / 4, 0, 0]) (fun _ => ![-1, 0, 0]) (fun _ => 1 / 20) (1 / 10)
      ![1, 2, 2] ![0, 2, 2]).1 = true ∧
    ⌊((impose_wall (D := 3) 0 ⟨![0, 5 / 2, 5 / 2], fun n => if n = 0 then -2 else 0⟩
      ![1, 1, 1] ![0, 0, 0] ![8, 8, 8] ![0, 0, 0] true (fun _ => EBCellFlag.singleValued)
      (fun _ => ![-1 / 4, 0, 0]) (fun _ => ![-1, 0, 0]) (fun _ => 1 / 20) (1 / 10)
      ![1, 2, 2] ![0, 2, 2]).pos 0 - (![0, 0, 0] : RealVect 3) 0) /
        (![1, 1, 1] : RealVect 3) 0⌋ = (![0, 2, 2] : IntVect 3) 0 := by
  have hmax : RealVect.maxDir (D := 3) (fun d => -(![-1, 0, 0] : RealVect 3) d) true = 0 := by
    simp +decide [RealVect.maxDir, List.finRange]
  have hchk : impose_wall_check (D := 3) 0
      ⟨![0, 5 / 2, 5 / 2], fun n => if n = 0 then -2 else 0⟩
      ![1, 1, 1] ![0, 0, 0] ![0, 0, 0] true (fun _ => EBCellFlag.singleValued)
      (fun _ => ![-1 / 4, 0, 0]) (fun _ => ![-1, 0, 0]) (fun _ => 1 / 20) (1 / 10)
      ![1, 2, 2] ![0, 2, 2] = (true, 0, fun e => if e = 0 then -1 else 0) := by
    unfold impose_wall_check
    rw [check_wall_sliver _ ![0, 0, 0] ![1, 1, 1] ![0, 2, 2] ![1, 2, 2] _
      (fun _ => EBCellFlag.singleValued) (fun _ => ![-1 / 4, 0, 0]) (fun _ => ![-1, 0, 0])
      (fun _ => 1 / 20) (1 / 10) 2 _ 0 (by intro d; fin_cases d <;> simp) rfl (by norm_num)
      hmax.symm]
    norm_num [tolerance]
  refine ⟨by norm_num, ?_, hmax, by rw [hchk], ?_⟩
  · intro i
    fin_cases i <;> norm_num
  · have hpos := ((impose_wall_spec (D := 3) 0
      ⟨![0, 5 / 2, 5 / 2], fun n => if n = 0 then -2 else 0⟩
      ![1, 1, 1] ![0, 0, 0] ![8, 8, 8] ![0, 0, 0] true (fun _ => EBCellFlag.singleValued)
      (fun _ => ![-1 / 4, 0, 0]) (fun _ => ![-1, 0, 0]) (fun _ => 1 / 20) (1 / 10)
      ![1, 2, 2] ![0, 2, 2]).1 (by rw [hchk])).1 0
    rw [hpos, hchk]
    norm_num

/-- C16 (amended): sliver cut cells expel particles that are not exactly on the
selected low face.  With embedded boundaries in use, no flag -1 or 1, the current
cell `ijkc` a cut cell with `vfrac(ijkc) < min_eb_vfrac`, the normalized position in
that cell and `dx[fdir] > 0`, where `fdir` is the direction `maxDir` gives for the
normal (a direction of largest magnitude): `check_wall` selects the low face of the
cell on `fdir` if `bcent(ijkc, fdir) < 0` and the high face otherwise and returns
`true`; `impose_wall` mirrors the normalized position on `fdir` across that face; and
when the face is the high face, or the particle is strictly above the low face, the
cell index of the new position on `fdir` differs from `ijkc[fdir]`. -/
theorem C16_sliver_expels {D : Nat} [NeZero D] (pstateVel : Nat) (p : Particle D)
    (dx plo phi : RealVect D) (bflags : IntVect D)
    (flags : IntVect D → EBCellFlag) (bcent bnorm : IntVect D → Fin D → ℚ)
    (vfrac : IntVect D → ℚ) (min_eb_vfrac : ℚ) (ijkc_prev ijkc : IntVect D) (fdir : Fin D)
    (hflags : ∀ d, bflags d ≠ -1 ∧ bflags d ≠ 1)
    (hcut : (flags ijkc).isSingleValued = true)
    (hv : vfrac ijkc < min_eb_vfrac)
    (hf : fdir = RealVect.maxDir (fun d => -bnorm ijkc d) true)
    (hdx : 0 < dx fdir)
    (hcell : ∀ i, (ijkc i : ℚ) ≤ (p.pos i - plo i) / dx i ∧
      (p.pos i - plo i) / dx i < (ijkc i : ℚ) + 1) :
    (∀ e, |bnorm ijkc e| ≤ |bnorm ijkc fdir|) ∧
    impose_wall_check pstateVel p dx plo bflags true flags bcent bnorm vfrac
        min_eb_vfrac ijkc_prev ijkc =
      (true,
        ((p.pos fdir - plo fdir) / dx fdir -
            (if bcent ijkc fdir < 0 then (ijkc fdir : ℚ) else (ijkc fdir : ℚ) + 1)) *
          dx fdir * (if bcent ijkc fdir < 0 then -1 else 1),
        fun e => if e = fdir then (if bcent ijkc fdir < 0 then -1 else 1) else 0) ∧
    ((impose_wall pstateVel p dx plo phi bflags true flags bcent bnorm vfrac
        min_eb_vfrac ijkc_prev ijkc).pos fdir - plo fdir) / dx fdir =
      2 * (if bcent ijkc fdir < 0 then (ijkc fdir : ℚ) else (ijkc fdir : ℚ) + 1) -
        (p.pos fdir - plo fdir) / dx fdir ∧
    ((0 ≤ bcent ijkc fdir ∨ (ijkc fdir : ℚ) < (p.pos fdir - plo fdir) / dx fdir) →
      ⌊((impose_wall pstateVel p dx plo phi bflags true flags bcent bnorm vfrac
        min_eb_vfrac ijkc_prev ijkc).pos fdir - plo fdir) / dx fdir⌋ ≠ ijkc fdir) := by
  have hne : dx fdir ≠ 0 := ne_of_gt hdx
  have hlo := (hcell fdir).1
  have hhi := (hcell fdir).2
  have hmaxd : ∀ e, |bnorm ijkc e| ≤ |bnorm ijkc fdir| := by
    intro e
    have := maxDir_abs_max (fun d => -bnorm ijkc d) e
    rw [← hf] at this
    simpa using this
  have hlt : ((p.pos fdir - plo fdir) / dx fdir -
        (if bcent ijkc fdir < 0 then (ijkc fdir : ℚ) else (ijkc fdir : ℚ) + 1)) *
      dx fdir * (if bcent ijkc fdir < 0 then -1 else 1) < tolerance := by
    have ht := tolerance_pos
    by_cases hb : bcent ijkc fdir < 0
    · simp only [hb, if_true]
      have : 0 ≤ ((p.pos fdir - plo fdir) / dx fdir - (ijkc fdir : ℚ)) * dx fdir :=
        mul_nonneg (by linarith) (le_of_lt hdx)
      linarith
    · simp only [hb, if_false]
      have : ((p.pos fdir - plo fdir) / dx fdir - ((ijkc fdir : ℚ) + 1)) * dx fdir < 0 :=
        mul_neg_of_neg_of_pos (by linarith) hdx
      linarith
  have hchk : impose_wall_check pstateVel p dx plo bflags true flags bcent bnorm vfrac
        min_eb_vfrac ijkc_prev ijkc =
      (true,
        ((p.pos fdir - plo fdir) / dx fdir -
            (if bcent ijkc fdir < 0 then (ijkc fdir : ℚ) else (ijkc fdir : ℚ) + 1)) *
          dx fdir * (if bcent ijkc fdir < 0 then -1 else 1),
        fun e => if e = fdir then (if bcent ijkc fdir < 0 then -1 else 1) else 0) := by
    unfold impose_wall_check
    rw [check_wall_sliver _ bflags dx ijkc ijkc_prev _ flags bcent bnorm vfrac min_eb_vfrac
      2 _ fdir hflags hcut hv hf, decide_eq_true hlt]
  have hpos := ((impose_wall_spec pstateVel p dx plo phi bflags true flags bcent bnorm vfrac
    min_eb_vfrac ijkc_prev ijkc).1 (by rw [hchk])).1 fdir
  rw [hchk] at hpos
  simp only [if_true] at hpos
  have hmirror : ((impose_wall pstateVel p dx plo phi bflags true flags bcent bnorm vfrac
        min_eb_vfrac ijkc_prev ijkc).pos fdir - plo fdir) / dx fdir =
      2 * (if bcent ijkc fdir < 0 then (ijkc fdir : ℚ) else (ijkc fdir : ℚ) + 1) -
        (p.pos fdir - plo fdir) / dx fdir := by
    rw [hpos]
    by_cases hb : bcent ijkc fdir < 0
    · simp only [hb, if_true]
      field_simp
      ring
    · simp only [hb, if_false]
      field_simp
      ring
  refine ⟨hmaxd, hchk, hmirror, fun hcase => ?_⟩
  rw [hmirror]
  by_cases hb : bcent ijkc fdir < 0
  · simp only [hb, if_true]
    have hx : (ijkc fdir : ℚ) < (p.pos fdir - plo fdir) / dx fdir := by
      rcases hcase with h | h
      · exact absurd hb (not_lt.mpr h)
      · exact h
    have hfl : ⌊2 * (ijkc fdir : ℚ) - (p.pos fdir - plo fdir) / dx fdir⌋ < ijkc fdir := by
      rw [Int.floor_lt]
      linarith
    exact ne_of_lt hfl
  · simp only [hb, if_false]
    have hfl : ijkc fdir + 1 ≤
        ⌊2 * ((ijkc fdir : ℚ) + 1) - (p.pos fdir - plo fdir) / dx fdir⌋ := by
      rw [Int.le_floor]
      push_cast
      linarith
    intro h
    rw [h] at hfl
    omega

/-- C16 (witness): the sliver cell of the counterexample with the particle at 0.3
inside the cell: it is mirrored across the low face to -0.3, in cell -1. -/
theorem C16_sliver_expels_witness :
    ⌊((impose_wall (D := 3) 0 ⟨![3 / 10, 5 / 2, 5 / 2], fun n => if n = 0 then -2 else 0⟩
      ![1, 1, 1] ![0, 0, 0] ![8, 8, 8] ![0, 0, 0] true (fun _ => EBCellFlag.singleValued)
      (fun _ => ![-1 / 4, 0, 0]) (fun _ => ![-1, 0, 0]) (fun _ => 1 / 20) (1 / 10)
      ![1, 2, 2] ![0, 2, 2]).pos 0 - (![0, 0, 0] : RealVect 3) 0) /
        (![1, 1, 1] : RealVect 3) 0⌋ ≠ (![0, 2, 2] : IntVect 3) 0 :=
  (C16_sliver_expels (D := 3) 0 ⟨![3 / 10, 5 / 2, 5 / 2], fun n => if n = 0 then -2 else 0⟩
    ![1, 1, 1] ![0, 0, 0] ![8, 8, 8] ![0, 0, 0] (fun _ => EBCellFlag.singleValued)
    (fun _ => ![-1 / 4, 0, 0]) (fun _ => ![-1, 0, 0]) (fun _ => 1 / 20) (1 / 10)
    ![1, 2, 2] ![0, 2, 2] 0 (by intro d; fin_cases d <;> simp) rfl (by norm_num)
    (by simp +decide [RealVect.maxDir, List.finRange]) (by norm_num)
    (by intro i; fin_cases i <;> norm_num)).2.2.2 (Or.inr (by norm_num))

/-! ### `transferSource` -/

/-- A loop that adds 0 to one component after the other changes nothing. -/
theorem foldl_update_add_zero {α : Type} (idx : α → Int) (l : List α) (a : Int → ℚ) :
    l.foldl (fun (a : Int → ℚ) x => Function.update a (idx x) (a (idx x) + 0)) a = a := by
  induction l generalizing a with
  | nil => rfl
  | cons x l ih =>
    rw [List.foldl_cons, add_zero, Function.update_eq_self, ih]

/-- `addSpraySrc` at a cell where the temporary array is zero leaves the components
of the destination as they are. -/
theorem addSpraySrc_cell_zero (D : Nat) (SPI : SprayComps) (SPRAY_FUEL_NUM : Nat)
    (dep_indx : Fin SPRAY_FUEL_NUM → Int) (tmp act : Int → ℚ) (h : ∀ n, tmp n = 0) :
    addSpraySrc_cell D SPI SPRAY_FUEL_NUM dep_indx tmp act = act := by
  unfold addSpraySrc_cell
  simp only [h]
  rw [foldl_update_add_zero (fun dir : Fin D => SPI.momIndx + ((dir : Nat) : Int)),
    add_zero, Function.update_eq_self, add_zero, Function.update_eq_self,
    foldl_update_add_zero (fun sp : Fin SPRAY_FUEL_NUM => SPI.specIndx + dep_indx sp)]

/-- The three synchronization steps keep a zero field zero. -/
theorem sync_zero {D : Nat} (gdb : ParGDB D) (level ncomp source_ghosts : Int)
    (tmpSource : MultiFab D) (h : tmpSource.isZero) :
    (tmpSource.SumBoundary (gdb.sumBoundaryPattern level)).isZero ∧
    (tmpSource.ParallelCopy
      ((({ boxes := gdb.ParticleBoxArray level, nComp := ncomp, nGrow := source_ghosts
           data := fun _ _ _ => 0 } : MultiFab D).setVal 0).ParallelAdd tmpSource ncomp
        (gdb.parallelAddPattern level))
      ncomp (gdb.parallelCopyPattern level)).isZero := by
  constructor
  · intro i c n
    simp [MultiFab.SumBoundary, h _ _ _]
  · intro i c n
    simp only [MultiFab.ParallelCopy, MultiFab.ParallelAdd, MultiFab.setVal]
    cases (gdb.parallelCopyPattern level i c).getLast? with
    | none => exact h i c n
    | some s =>
      simp only
      split
      · simp [h _ _ _]
      · exact h i c n

/-- `transferSource` with a zero temporary field: the destination field is returned
as it is and the temporary field is zero. -/
theorem transferSource_zero {D : Nat} (PELELM_USE_SPRAY : Bool) (gdb : ParGDB D)
    (SPI : SprayComps) (SPRAY_FUEL_NUM : Nat) (dep_indx : Fin SPRAY_FUEL_NUM → Int)
    (source_ghosts level : Int) (tmpSource actSource : MultiFab D) (hlevel : level ≥ 0)
    (h : tmpSource.isZero) :
    ∃ tmp1 : MultiFab D,
      transferSource PELELM_USE_SPRAY gdb SPI SPRAY_FUEL_NUM dep_indx source_ghosts level
        tmpSource actSource = some (tmp1, actSource) ∧ tmp1.isZero := by
  obtain ⟨hs, hp⟩ := sync_zero gdb level tmpSource.nComp source_ghosts tmpSource h
  unfold transferSource
  rw [if_pos hlevel]
  simp only
  have key : ∀ tmp1 : MultiFab D, tmp1.isZero →
      (if tmp1.nComp = actSource.nComp then
        MultiFab.Add actSource tmp1 0 0 actSource.nComp (min actSource.nGrow source_ghosts)
      else
        { actSource with
          data := fun i =>
            match actSource.boxes[i]? with
            | some b =>
              addSpraySrc SPI SPRAY_FUEL_NUM dep_indx
                (b.grow (min actSource.nGrow source_ghosts)) (tmp1.data i)
                (actSource.data i)
            | none => actSource.data i }) = actSource := by
    intro tmp1 h1
    have hdata : ∀ f : Nat → Array4 D, f = actSource.data →
        ({ actSource with data := f } : MultiFab D) = actSource := by
      intro f hf
      rw [hf]
    split
    · apply hdata
      funext i c n
      cases actSource.boxes[i]? with
      | none => rfl
      | some b =>
        simp only
        split
        · rw [h1 i c _, add_zero]
        · rfl
    · apply hdata
      funext i
      cases actSource.boxes[i]? with
      | none => rfl
      | some b =>
        simp only
        funext c
        unfold addSpraySrc
        split
        · rw [addSpraySrc_cell_zero D SPI SPRAY_FUEL_NUM dep_indx (tmp1.data i c)
            (actSource.data i c) (fun n => h1 i c n)]
        · rfl
  by_cases hb : PELELM_USE_SPRAY = true ∧ level > 0
  · rw [if_pos hb, key _ hp]
    exact ⟨_, rfl, fun _ _ _ => rfl⟩
  · rw [if_neg hb, key _ hs]
    exact ⟨_, rfl, fun _ _ _ => rfl⟩

/-- `transferSource` returns, and with a zero temporary field, for `level >= 0`. -/
theorem transferSource_returns {D : Nat} (PELELM_USE_SPRAY : Bool) (gdb : ParGDB D)
    (SPI : SprayComps) (SPRAY_FUEL_NUM : Nat) (dep_indx : Fin SPRAY_FUEL_NUM → Int)
    (source_ghosts level : Int) (tmpSource actSource : MultiFab D) (hlevel : level ≥ 0) :
    ∃ tmp1 act1 : MultiFab D,
      transferSource PELELM_USE_SPRAY gdb SPI SPRAY_FUEL_NUM dep_indx source_ghosts level
        tmpSource actSource = some (tmp1, act1) ∧ tmp1.isZero := by
  unfold transferSource
  rw [if_pos hlevel]
  exact ⟨_, _, rfl, fun _ _ _ => rfl⟩

/-- C18: idempotence of `transferSource` on an empty temporary field.  For
`level >= 0`, a call with a `tmpSource` that is zero in every cell, ghost cell and
component returns `actSource` as it is and a zero `tmpSource`; and any call leaves
`tmpSource` zero, so a second call made right after it does not change
`actSource`. -/
theorem C18_transferSource_idempotent {D : Nat} (PELELM_USE_SPRAY : Bool) (gdb : ParGDB D)
    (SPI : SprayComps) (SPRAY_FUEL_NUM : Nat) (dep_indx : Fin SPRAY_FUEL_NUM → Int)
    (source_ghosts level : Int) (tmpSource actSource : MultiFab D) (hlevel : level ≥ 0) :
    (tmpSource.isZero →
      ∃ tmp1 : MultiFab D,
        transferSource PELELM_USE_SPRAY gdb SPI SPRAY_FUEL_NUM dep_indx source_ghosts level
          tmpSource actSource = some (tmp1, actSource) ∧ tmp1.isZero) ∧
    (∃ tmp1 act1 : MultiFab D,
      transferSource PELELM_USE_SPRAY gdb SPI SPRAY_FUEL_NUM dep_indx source_ghosts level
        tmpSource actSource = some (tmp1, act1) ∧ tmp1.isZero ∧
      ∃ tmp2 : MultiFab D,
        transferSource PELELM_USE_SPRAY gdb SPI SPRAY_FUEL_NUM dep_indx source_ghosts level
          tmp1 act1 = some (tmp2, act1) ∧ tmp2.isZero) := by
  refine ⟨transferSource_zero PELELM_USE_SPRAY gdb SPI SPRAY_FUEL_NUM dep_indx source_ghosts
    level tmpSource actSource hlevel, ?_⟩
  obtain ⟨tmp1, act1, h1, hz⟩ := transferSource_returns PELELM_USE_SPRAY gdb SPI
    SPRAY_FUEL_NUM dep_indx source_ghosts level tmpSource actSource hlevel
  exact ⟨tmp1, act1, h1, hz, transferSource_zero PELELM_USE_SPRAY gdb SPI SPRAY_FUEL_NUM
    dep_indx source_ghosts level tmp1 act1 hlevel hz⟩

/-- C18 (witness): one box of 8 x 8 x 8 cells with one ghost cell and six components
on level 0, a zero temporary field and a destination field with the value
`c[0] + n` at cell `c` and component `n`. -/
theorem C18_transferSource_idempotent_witness :
    ∃ tmp1 : MultiFab 3,
      transferSource (D := 3) true
        ⟨fun _ => [], fun _ i c => [(i, c)], fun _ i c => [(i, c)], fun _ i c => [(i, c)]⟩
        ⟨1, 0, 4, 5, 1, 0, 4, 5⟩ 1 (fun _ => 0) 1 0
        ⟨[⟨![0, 0, 0], ![7, 7, 7]⟩], 6, 1, fun _ _ _ => 0⟩
        ⟨[⟨![0, 0, 0], ![7, 7, 7]⟩], 6, 1, fun _ c n => ((c 0 : Int) : ℚ) + (n : ℚ)⟩ =
        some (tmp1,
          ⟨[⟨![0, 0, 0], ![7, 7, 7]⟩], 6, 1, fun _ c n => ((c 0 : Int) : ℚ) + (n : ℚ)⟩) ∧
      tmp1.isZero :=
  (C18_transferSource_idempotent (D := 3) true
    ⟨fun _ => [], fun _ i c => [(i, c)], fun _ i c => [(i, c)], fun _ i c => [(i, c)]⟩
    ⟨1, 0, 4, 5, 1, 0, 4, 5⟩ 1 (fun _ => 0) 1 0
    ⟨[⟨![0, 0, 0], ![7, 7, 7]⟩], 6, 1, fun _ _ _ => 0⟩
    ⟨[⟨![0, 0, 0], ![7, 7, 7]⟩], 6, 1, fun _ c n => ((c 0 : Int) : ℚ) + (n : ℚ)⟩
    (by decide)).1 (fun _ _ _ => rfl)

/-! ### `addSpraySrc` -/

/-- A loop that adds `v x` to the component `idx x` for one `x` after the other: a
component ends with the sum of the terms that were sent to it. -/
theorem foldl_update_add {α : Type} (idx : α → Int) (v : α → ℚ) (l : List α)
    (a : Int → ℚ) (n : Int) :
    (l.foldl (fun (a : Int → ℚ) x => Function.update a (idx x) (a (idx x) + v x)) a) n =
      a n + (l.map (fun x => if idx x = n then v x else 0)).sum := by
  induction l generalizing a with
  | nil => simp
  | cons x l ih =>
    rw [List.foldl_cons, ih, List.map_cons, List.sum_cons]
    by_cases h : idx x = n
    · subst h
      simp
      ring
    · rw [Function.update_noteq (Ne.symm h), if_neg h]
      ring

/-- The components of the destination after the body of `addSpraySrc` at one cell,
for any layout of the components: each component has gained every term that the
body sends to it. -/
theorem addSpraySrc_cell_apply (D : Nat) (SPI : SprayComps) (SPRAY_FUEL_NUM : Nat)
    (dep_indx : Fin SPRAY_FUEL_NUM → Int) (tmp act : Int → ℚ) (n : Int) :
    addSpraySrc_cell D SPI SPRAY_FUEL_NUM dep_indx tmp act n =
      act n +
        (∑ dir : Fin D, if SPI.momIndx + ((dir : Nat) : Int) = n
          then tmp (SPI.momSrcIndx + ((dir : Nat) : Int)) else 0) +
        (if SPI.rhoIndx = n then tmp SPI.rhoSrcIndx else 0) +
        (if SPI.engIndx = n then tmp SPI.engSrcIndx else 0) +
        (∑ sp : Fin SPRAY_FUEL_NUM, if SPI.specIndx + dep_indx sp = n
          then tmp (SPI.specSrcIndx + ((sp : Nat) : Int)) else 0) := by
  unfold addSpraySrc_cell
  simp only
  rw [foldl_update_add (fun sp : Fin SPRAY_FUEL_NUM => SPI.specIndx + dep_indx sp)
    (fun sp : Fin SPRAY_FUEL_NUM => tmp (SPI.specSrcIndx + ((sp : Nat) : Int)))]
  rw [Fin.sum_univ_def, Fin.sum_univ_def]
  have hmom : ∀ m : Int,
      ((List.finRange D).foldl
        (fun (a : Int → ℚ) (dir : Fin D) =>
          Function.update a (SPI.momIndx + ((dir : Nat) : Int))
            (a (SPI.momIndx + ((dir : Nat) : Int)) +
              tmp (SPI.momSrcIndx + ((dir : Nat) : Int)))) act) m =
        act m + ((List.finRange D).map
          (fun dir : Fin D => if SPI.momIndx + ((dir : Nat) : Int) = m
            then tmp (SPI.momSrcIndx + ((dir : Nat) : Int)) else 0)).sum :=
    fun m => foldl_update_add (fun dir : Fin D => SPI.momIndx + ((dir : Nat) : Int))
      (fun dir : Fin D => tmp (SPI.momSrcIndx + ((dir : Nat) : Int))) (List.finRange D) act m
  by_cases he : SPI.engIndx = n
  · subst he
    rw [Function.update_same]
    by_cases hr : SPI.rhoIndx = SPI.engIndx
    · rw [hr, Function.update_same, hmom]
      simp
    · rw [Function.update_noteq (Ne.symm hr), hmom, if_neg hr]
      simp
  · rw [Function.update_noteq (Ne.symm he), if_neg he]
    by_cases hr : SPI.rhoIndx = n
    · subst hr
      rw [Function.update_same, hmom]
      simp
    · rw [Function.update_noteq (Ne.symm hr), hmom, if_neg hr]
      simp

/-- C21: `addSpraySrc` adds by explicit component mapping and touches nothing else.
When the destination components of the momentum, density, energy and species groups
are pairwise distinct between the groups, then at every cell of `vbox` the
component `momIndx + dir` has gained `tmp(momSrcIndx + dir)`, `rhoIndx` has gained
`tmp(rhoSrcIndx)`, `engIndx` has gained `tmp(engSrcIndx)`, the species component
`specIndx + c` has gained the sum of `tmp(specSrcIndx + sp)` over the fuel species
`sp` with `dep_indx[sp] = c`, and every other component is unchanged; a cell outside
`vbox` is unchanged (without any condition on the components).  The array `tmp` is
a read-only argument and not part of the result. -/
theorem C21_addSpraySrc_mapping {D : Nat} (SPI : SprayComps) (SPRAY_FUEL_NUM : Nat)
    (dep_indx : Fin SPRAY_FUEL_NUM → Int) (vbox : Box D) (tmp_array act_array : Array4 D)
    (hmr : ∀ dir : Fin D, SPI.momIndx + ((dir : Nat) : Int) ≠ SPI.rhoIndx)
    (hme : ∀ dir : Fin D, SPI.momIndx + ((dir : Nat) : Int) ≠ SPI.engIndx)
    (hms : ∀ (dir : Fin D) (sp : Fin SPRAY_FUEL_NUM),
      SPI.momIndx + ((dir : Nat) : Int) ≠ SPI.specIndx + dep_indx sp)
    (hre : SPI.rhoIndx ≠ SPI.engIndx)
    (hrs : ∀ sp : Fin SPRAY_FUEL_NUM, SPI.rhoIndx ≠ SPI.specIndx + dep_indx sp)
    (hes : ∀ sp : Fin SPRAY_FUEL_NUM, SPI.engIndx ≠ SPI.specIndx + dep_indx sp) :
    (∀ c, vbox.containsCell c = true →
      (∀ dir : Fin D,
        addSpraySrc SPI SPRAY_FUEL_NUM dep_indx vbox tmp_array act_array c
            (SPI.momIndx + ((dir : Nat) : Int)) =
          act_array c (SPI.momIndx + ((dir : Nat) : Int)) +
            tmp_array c (SPI.momSrcIndx + ((dir : Nat) : Int))) ∧
      addSpraySrc SPI SPRAY_FUEL_NUM dep_indx vbox tmp_array act_array c SPI.rhoIndx =
        act_array c SPI.rhoIndx + tmp_array c SPI.rhoSrcIndx ∧
      addSpraySrc SPI SPRAY_FUEL_NUM dep_indx vbox tmp_array act_array c SPI.engIndx =
        act_array c SPI.engIndx + tmp_array c SPI.engSrcIndx ∧
      (∀ sp0 : Fin SPRAY_FUEL_NUM,
        addSpraySrc SPI SPRAY_FUEL_NUM dep_indx vbox tmp_array act_array c
            (SPI.specIndx + dep_indx sp0) =
          act_array c (SPI.specIndx + dep_indx sp0) +
            ∑ sp : Fin SPRAY_FUEL_NUM, if dep_indx sp = dep_indx sp0
              then tmp_array c (SPI.specSrcIndx + ((sp : Nat) : Int)) else 0) ∧
      (∀ n : Int, (∀ dir : Fin D, SPI.momIndx + ((dir : Nat) : Int) ≠ n) →
        SPI.rhoIndx ≠ n → SPI.engIndx ≠ n →
        (∀ sp : Fin SPRAY_FUEL_NUM, SPI.specIndx + dep_indx sp ≠ n) →
        addSpraySrc SPI SPRAY_FUEL_NUM dep_indx vbox tmp_array act_array c n =
          act_array c n)) ∧
    (∀ c, vbox.containsCell c = false → ∀ n : Int,
      addSpraySrc SPI SPRAY_FUEL_NUM dep_indx vbox tmp_array act_array c n =
        act_array c n) := by
  constructor
  · intro c hc
    have hin : ∀ n : Int,
        addSpraySrc SPI SPRAY_FUEL_NUM dep_indx vbox tmp_array act_array c n =
          act_array c n +
            (∑ dir : Fin D, if SPI.momIndx + ((dir : Nat) : Int) = n
              then tmp_array c (SPI.momSrcIndx + ((dir : Nat) : Int)) else 0) +
            (if SPI.rhoIndx = n then tmp_array c SPI.rhoSrcIndx else 0) +
            (if SPI.engIndx = n then tmp_array c SPI.engSrcIndx else 0) +
            (∑ sp : Fin SPRAY_FUEL_NUM, if SPI.specIndx + dep_indx sp = n
              then tmp_array c (SPI.specSrcIndx + ((sp : Nat) : Int)) else 0) := by
      intro n
      unfold addSpraySrc
      rw [if_pos hc, addSpraySrc_cell_apply]
    refine ⟨fun dir => ?_, ?_, ?_, fun sp0 => ?_, fun n h1 h2 h3 h4 => ?_⟩
    · rw [hin, Finset.sum_eq_single dir, if_pos rfl, if_neg (hmr dir).symm,
        if_neg (hme dir).symm, Finset.sum_eq_zero]
      · ring
      · intro sp _
        rw [if_neg (hms dir sp).symm]
      · intro b _ hb
        rw [if_neg]
        intro h
        apply hb
        exact Fin.ext (by omega)
      · intro h
        exact absurd (Finset.mem_univ dir) h
    · rw [hin, if_pos rfl, if_neg hre.symm, Finset.sum_eq_zero, Finset.sum_eq_zero]
      · ring
      · intro sp _
        rw [if_neg (hrs sp).symm]
      · intro dir _
        rw [if_neg (hmr dir)]
    · rw [hin, if_pos rfl, if_neg hre, Finset.sum_eq_zero, Finset.sum_eq_zero]
      · ring
      · intro sp _
        rw [if_neg (hes sp).symm]
      · intro dir _
        rw [if_neg (hme dir)]
    · rw [hin, if_neg (hrs sp0), if_neg (hes sp0), Finset.sum_eq_zero]
      · have hcongr : (∑ sp : Fin SPRAY_FUEL_NUM,
              if SPI.specIndx + dep_indx sp = SPI.specIndx + dep_indx sp0
                then tmp_array c (SPI.specSrcIndx + ((sp : Nat) : Int)) else 0) =
            ∑ sp : Fin SPRAY_FUEL_NUM, if dep_indx sp = dep_indx sp0
              then tmp_array c (SPI.specSrcIndx + ((sp : Nat) : Int)) else 0 := by
          refine Finset.sum_congr rfl (fun sp _ => ?_)
          by_cases h : dep_indx sp = dep_indx sp0
          · rw [if_pos h, if_pos (by rw [h])]
          · rw [if_neg h, if_neg (by omega)]
        rw [hcongr]
        ring
      · intro dir _
        rw [if_neg (hms dir sp0)]
    · rw [hin, if_neg h2, if_neg h3, Finset.sum_eq_zero, Finset.sum_eq_zero]
      · ring
      · intro sp _
        rw [if_neg (h4 sp)]
      · intro dir _
        rw [if_neg (h1 dir)]
  · intro c hc n
    unfold addSpraySrc
    rw [if_neg (by simp [hc])]

/-- C21 (witness): three directions, momentum components 1 to 3, density 0, energy 4,
two fuel species that both feed the species component 5; the cell (1, 1, 1) of the
box from (0, 0, 0) to (3, 3, 3), all components of `tmp` equal to 1: component 5
gains 2 and component 6 is unchanged. -/
theorem C21_addSpraySrc_mapping_witness :
    addSpraySrc (D := 3) ⟨1, 0, 4, 5, 1, 0, 4, 5⟩ 2 (fun _ => 0)
        ⟨![0, 0, 0], ![3, 3, 3]⟩ (fun _ _ => 1) (fun _ n => (n : ℚ)) ![1, 1, 1]
        ((⟨1, 0, 4, 5, 1, 0, 4, 5⟩ : SprayComps).specIndx + (fun _ : Fin 2 => (0 : Int)) 0) =
      (fun (_ : IntVect 3) (n : Int) => (n : ℚ)) ![1, 1, 1]
          ((⟨1, 0, 4, 5, 1, 0, 4, 5⟩ : SprayComps).specIndx +
            (fun _ : Fin 2 => (0 : Int)) 0) +
        ∑ sp : Fin 2, (if (fun _ : Fin 2 => (0 : Int)) sp = (fun _ : Fin 2 => (0 : Int)) 0
          then (fun (_ : IntVect 3) (_ : Int) => (1 : ℚ)) ![1, 1, 1]
            ((⟨1, 0, 4, 5, 1, 0, 4, 5⟩ : SprayComps).specSrcIndx + ((sp : Nat) : Int))
          else 0) ∧
    addSpraySrc (D := 3) ⟨1, 0, 4, 5, 1, 0, 4, 5⟩ 2 (fun _ => 0)
        ⟨![0, 0, 0], ![3, 3, 3]⟩ (fun _ _ => 1) (fun _ n => (n : ℚ)) ![1, 1, 1] 6 =
      (fun (_ : IntVect 3) (n : Int) => (n : ℚ)) ![1, 1, 1] 6 :=
  have h := (C21_addSpraySrc_mapping (D := 3) ⟨1, 0, 4, 5, 1, 0, 4, 5⟩ 2 (fun _ => 0)
    ⟨![0, 0, 0], ![3, 3, 3]⟩ (fun _ _ => 1) (fun _ n => (n : ℚ))
    (by intro dir; fin_cases dir <;> decide)
    (by intro dir; fin_cases dir <;> decide)
    (by intro dir sp; fin_cases dir <;> simp)
    (by decide)
    (by intro sp; simp)
    (by intro sp; simp)).1 ![1, 1, 1] (by decide)
  ⟨h.2.2.2.1 0, h.2.2.2.2 6 (by intro dir; fin_cases dir <;> decide) (by decide) (by decide)
    (by intro sp; simp)⟩

/-! ### A particle resting in a covered cell -/

/-- The first loop of `check_wall` over directions without a flag -1 or 1 zeroes
their entries of `normal` and `bcentv`. -/
theorem check_wall_bc_fold_no_flag_values {D : Nat} (bflags ijkc : IntVect D)
    (l : List (Fin D)) (h : ∀ d ∈ l, bflags d ≠ -1 ∧ bflags d ≠ 1) (st : WallState D) :
    (l.foldl (check_wall_bc_step bflags ijkc) st).normal =
      (fun e => if e ∈ l then 0 else st.normal e) ∧
    (l.foldl (check_wall_bc_step bflags ijkc) st).bcentv =
      (fun e => if e ∈ l then 0 else st.bcentv e) := by
  induction l generalizing st with
  | nil => simp
  | cons a l ih =>
    rw [List.foldl_cons]
    have ha := h a (List.mem_cons_self a l)
    have hstep : check_wall_bc_step bflags ijkc st a =
        { st with normal := Function.update st.normal a 0
                  bcentv := Function.update st.bcentv a 0 } := by
      unfold check_wall_bc_step
      rw [if_neg (fun hc => hc.1.elim ha.1 ha.2)]
    obtain ⟨h2, h3⟩ := ih (fun e he => h e (List.mem_cons_of_mem a he))
      (check_wall_bc_step bflags ijkc st a)
    constructor
    · rw [h2, hstep]
      funext e
      by_cases hel : e ∈ l
      · simp [hel]
      · by_cases hea : e = a
        · subst hea
          simp [hel]
        · simp [hel, hea, Function.update_noteq hea]
    · rw [h3, hstep]
      funext e
      by_cases hel : e ∈ l
      · simp [hel]
      · by_cases hea : e = a
        · subst hea
          simp [hel]
        · simp [hel, hea, Function.update_noteq hea]

/-- Without a flag -1 or 1 the first loop of `check_wall` leaves `normal` and `bcentv`
zero. -/
theorem check_wall_bc_no_flag_values {D : Nat} (bflags ijkc : IntVect D)
    (normal : RealVect D) (h : ∀ d, bflags d ≠ -1 ∧ bflags d ≠ 1) :
    (check_wall_bc bflags ijkc normal).normal = (fun _ => 0) ∧
    (check_wall_bc bflags ijkc normal).bcentv = (fun _ => 0) := by
  rw [check_wall_bc_eq_fold]
  obtain ⟨h2, h3⟩ := check_wall_bc_fold_no_flag_values bflags ijkc (List.finRange D)
    (fun d _ => h d) { wall_check := false, normal := normal, bcentv := fun _ => 0 }
  constructor
  · rw [h2]
    funext e
    simp
  · rw [h3]
    funext e
    simp

/-- The result of `check_wall` for a particle whose previous and current cell are the
same covered cell, with embedded boundaries in use and no flag -1 or 1. -/
theorem check_wall_resting {D : Nat} [NeZero D] (pos : RealVect D) (bflags : IntVect D)
    (dx : RealVect D) (ijkc : IntVect D) (vel_part : RealVect D)
    (flags : IntVect D → EBCellFlag) (bcent bnorm : IntVect D → Fin D → ℚ)
    (vfrac : IntVect D → ℚ) (min_eb_vfrac : ℚ) (par_dot : ℚ) (normal : RealVect D)
    (hflags : ∀ d, bflags d ≠ -1 ∧ bflags d ≠ 1)
    (hcov : (flags ijkc).isCovered = true) :
    check_wall pos bflags dx ijkc ijkc vel_part true flags bcent bnorm vfrac min_eb_vfrac
      par_dot normal = (true, 0, fun _ => 0) := by
  have hns : (flags ijkc).isSingleValued = false := by
    cases hf : flags ijkc <;> simp_all [EBCellFlag.isCovered, EBCellFlag.isSingleValued]
  obtain ⟨hn0, hb0⟩ := check_wall_bc_no_flag_values bflags ijkc normal hflags
  have hprev : covered_prev pos ijkc flags bcent bnorm (check_wall_bc bflags ijkc normal) =
      (2, fun _ => 0, fun _ => 0) := by
    unfold covered_prev
    rw [if_neg (by simp [hns]), hn0, hb0]
  have hchk := check_wall_covered_search pos bflags dx ijkc ijkc vel_part flags bcent bnorm
    vfrac min_eb_vfrac par_dot normal hflags hcov (by rw [hprev]; norm_num)
  rw [hprev] at hchk
  simp only at hchk
  obtain ⟨-, i2, i3⟩ := search_fold_unchanged pos ijkc ijkc vel_part flags bcent bnorm
    (List.finRange D)
    { max_diff := 0, cur_bcent := fun _ => 0, cur_norm := fun _ => 0
      normal := fun _ => 0, bcentv := fun _ => 0 }
    le_rfl (fun e _ he => absurd rfl he)
  have hn : (covered_search pos ijkc ijkc vel_part flags bcent bnorm (fun _ => 0)
      (fun _ => 0)).normal = (fun _ => 0) := i2
  have hb : (covered_search pos ijkc ijkc vel_part flags bcent bnorm (fun _ => 0)
      (fun _ => 0)).bcentv = (fun _ => 0) := i3
  rw [hchk, hn, hb]
  have ht := tolerance_pos
  simp [ht]

/-- C25: a particle resting in a covered cell is reported as reflected but not moved.
With embedded boundaries in use, no flag -1 or 1 and `ijkc_prev = ijkc` a covered
cell, `check_wall` returns `true` with `par_dot = 0` and `normal` the zero vector, and
`impose_wall` leaves the particle as it is. -/
theorem C25_resting_in_covered_cell {D : Nat} [NeZero D] (bflags : IntVect D)
    (ijkc : IntVect D) (flags : IntVect D → EBCellFlag)
    (bcent bnorm : IntVect D → Fin D → ℚ) (vfrac : IntVect D → ℚ) (min_eb_vfrac : ℚ)
    (hflags : ∀ d, bflags d ≠ -1 ∧ bflags d ≠ 1)
    (hcov : (flags ijkc).isCovered = true) :
    (∀ (pos dx vel_part : RealVect D) (par_dot : ℚ) (normal : RealVect D),
      check_wall pos bflags dx ijkc ijkc vel_part true flags bcent bnorm vfrac min_eb_vfrac
        par_dot normal = (true, 0, fun _ => 0)) ∧
    (∀ (pstateVel : Nat) (p : Particle D) (dx plo phi : RealVect D),
      impose_wall pstateVel p dx plo phi bflags true flags bcent bnorm vfrac min_eb_vfrac
        ijkc ijkc = p) := by
  constructor
  · intro pos dx vel_part par_dot normal
    exact check_wall_resting pos bflags dx ijkc vel_part flags bcent bnorm vfrac
      min_eb_vfrac par_dot normal hflags hcov
  · intro pstateVel p dx plo phi
    have hc : impose_wall_check pstateVel p dx plo bflags true flags bcent bnorm vfrac
        min_eb_vfrac ijkc ijkc = (true, 0, fun _ => 0) := by
      unfold impose_wall_check
      exact check_wall_resting _ bflags dx ijkc _ flags bcent bnorm vfrac min_eb_vfrac 2 _
        hflags hcov
    obtain ⟨h1, h2, h3⟩ := (impose_wall_spec pstateVel p dx plo phi bflags true flags bcent
      bnorm vfrac min_eb_vfrac ijkc ijkc).1 (by rw [hc])
    rw [hc] at h1 h2
    have hpos : (impose_wall pstateVel p dx plo phi bflags true flags bcent bnorm vfrac
        min_eb_vfrac ijkc ijkc).pos = p.pos := by
      funext d
      rw [h1 d]
      simp
    have hrd : (impose_wall pstateVel p dx plo phi bflags true flags bcent bnorm vfrac
        min_eb_vfrac ijkc ijkc).rdata = p.rdata := by
      funext n
      by_cases hn : ∃ e : Fin D, n = pstateVel + e
      · obtain ⟨e, rfl⟩ := hn
        rw [h2 e]
        simp
      · exact h3 n (fun e he => hn ⟨e, he⟩)
    calc impose_wall pstateVel p dx plo phi bflags true flags bcent bnorm vfrac
          min_eb_vfrac ijkc ijkc
        = ⟨(impose_wall pstateVel p dx plo phi bflags true flags bcent bnorm vfrac
            min_eb_vfrac ijkc ijkc).pos,
          (impose_wall pstateVel p dx plo phi bflags true flags bcent bnorm vfrac
            min_eb_vfrac ijkc ijkc).rdata⟩ := rfl
      _ = ⟨p.pos, p.rdata⟩ := by rw [hpos, hrd]

/-- C25 (witness): the covered cell (0, 2, 2), the particle at (0.3, 2.5, 2.5) with
velocity (-2, 0, 0). -/
theorem C25_resting_in_covered_cell_witness :
    check_wall (D := 3) ![3 / 10, 5 / 2, 5 / 2] ![0, 0, 0] ![1, 1, 1] ![0, 2, 2] ![0, 2, 2]
      ![-2, 0, 0] true
      (fun c => if c 0 = 0 then EBCellFlag.covered else EBCellFlag.regular)
      (fun _ _ => 0) (fun _ _ => 0) (fun _ => 1) (1 / 10) 2 ![0, 0, 0] =
      (true, 0, fun _ => 0) ∧
    impose_wall (D := 3) 0 ⟨![3 / 10, 5 / 2, 5 / 2], fun n => if n = 0 then -2 else 0⟩
      ![1, 1, 1] ![0, 0, 0] ![8, 8, 8] ![0, 0, 0] true
      (fun c => if c 0 = 0 then EBCellFlag.covered else EBCellFlag.regular)
      (fun _ _ => 0) (fun _ _ => 0) (fun _ => 1) (1 / 10) ![0, 2, 2] ![0, 2, 2] =
      ⟨![3 / 10, 5 / 2, 5 / 2], fun n => if n = 0 then -2 else 0⟩ :=
  have h := C25_resting_in_covered_cell (D := 3) ![0, 0, 0] ![0, 2, 2]
    (fun c => if c 0 = 0 then EBCellFlag.covered else EBCellFlag.regular)
    (fun _ _ => 0) (fun _ _ => 0) (fun _ => 1) (1 / 10)
    (by intro d; fin_cases d <;> simp) (by simp [EBCellFlag.isCovered])
  ⟨h.1 _ _ _ _ _, h.2 _ _ _ _ _⟩

/-! ### The wall distance after a reflection -/

/-- The result of the call of `check_wall` made by `impose_wall`, in terms of the
plane it has selected. -/
theorem impose_wall_check_eq {D : Nat} [NeZero D] (pstateVel : Nat) (p : Particle D)
    (dx plo : RealVect D) (bflags : IntVect D) (use_EB : Bool)
    (flags : IntVect D → EBCellFlag) (bcent bnorm : IntVect D → Fin D → ℚ)
    (vfrac : IntVect D → ℚ) (min_eb_vfrac : ℚ) (ijkc_prev ijkc : IntVect D) :
    impose_wall_check pstateVel p dx plo bflags use_EB flags bcent bnorm vfrac
        min_eb_vfrac ijkc_prev ijkc =
      if (impose_wall_plane pstateVel p dx plo bflags use_EB flags bcent bnorm vfrac
          min_eb_vfrac ijkc_prev ijkc).wall_check = true then
        (decide (wall_distance (impose_wall_plane pstateVel p dx plo bflags use_EB flags
            bcent bnorm vfrac min_eb_vfrac ijkc_prev ijkc) dx plo p.pos < tolerance),
          wall_distance (impose_wall_plane pstateVel p dx plo bflags use_EB flags
            bcent bnorm vfrac min_eb_vfrac ijkc_prev ijkc) dx plo p.pos,
          (impose_wall_plane pstateVel p dx plo bflags use_EB flags bcent bnorm vfrac
            min_eb_vfrac ijkc_prev ijkc).normal)
      else
        (false, 2, (impose_wall_plane pstateVel p dx plo bflags use_EB flags bcent bnorm
          vfrac min_eb_vfrac ijkc_prev ijkc).normal) := rfl

/-- After a reflection with a unit normal on a mesh with positive spacing, the signed
distance of the new position to the same plane is the opposite of `par_dot`. -/
theorem wall_distance_reflected {D : Nat} [NeZero D] (pstateVel : Nat) (p : Particle D)
    (dx plo phi : RealVect D) (bflags : IntVect D) (use_EB : Bool)
    (flags : IntVect D → EBCellFlag) (bcent bnorm : IntVect D → Fin D → ℚ)
    (vfrac : IntVect D → ℚ) (min_eb_vfrac : ℚ) (ijkc_prev ijkc : IntVect D)
    (hdx : ∀ d, 0 < dx d)
    (hrefl : (impose_wall_check pstateVel p dx plo bflags use_EB flags bcent bnorm vfrac
      min_eb_vfrac ijkc_prev ijkc).1 = true)
    (hunit : ∑ d, ((impose_wall_plane pstateVel p dx plo bflags use_EB flags bcent bnorm
      vfrac min_eb_vfrac ijkc_prev ijkc).normal d) ^ 2 = 1) :
    (impose_wall_check pstateVel p dx plo bflags use_EB flags bcent bnorm vfrac
        min_eb_vfrac ijkc_prev ijkc).2.1 =
      wall_distance (impose_wall_plane pstateVel p dx plo bflags use_EB flags bcent bnorm
        vfrac min_eb_vfrac ijkc_prev ijkc) dx plo p.pos ∧
    (impose_wall_check pstateVel p dx plo bflags use_EB flags bcent bnorm vfrac
        min_eb_vfrac ijkc_prev ijkc).2.1 < tolerance ∧
    wall_distance (impose_wall_plane pstateVel p dx plo bflags use_EB flags bcent bnorm
        vfrac min_eb_vfrac ijkc_prev ijkc) dx plo
        (impose_wall pstateVel p dx plo phi bflags use_EB flags bcent bnorm vfrac
          min_eb_vfrac ijkc_prev ijkc).pos =
      -(impose_wall_check pstateVel p dx plo bflags use_EB flags bcent bnorm vfrac
        min_eb_vfrac ijkc_prev ijkc).2.1 := by
  obtain ⟨h1, -, -⟩ := (impose_wall_spec pstateVel p dx plo phi bflags use_EB flags bcent
    bnorm vfrac min_eb_vfrac ijkc_prev ijkc).1 hrefl
  have heq := impose_wall_check_eq pstateVel p dx plo bflags use_EB flags bcent bnorm vfrac
    min_eb_vfrac ijkc_prev ijkc
  by_cases hw : (impose_wall_plane pstateVel p dx plo bflags use_EB flags bcent bnorm vfrac
      min_eb_vfrac ijkc_prev ijkc).wall_check = true
  · rw [if_pos hw] at heq
    rw [heq] at hrefl h1 ⊢
    simp only at hrefl h1 ⊢
    refine ⟨trivial, of_decide_eq_true hrefl, ?_⟩
    generalize (impose_wall_plane pstateVel p dx plo bflags use_EB flags bcent bnorm vfrac
      min_eb_vfrac ijkc_prev ijkc) = st at hunit h1 ⊢
    generalize (impose_wall pstateVel p dx plo phi bflags use_EB flags bcent bnorm vfrac
      min_eb_vfrac ijkc_prev ijkc).pos = q at h1 ⊢
    have hterm : ∀ d, ((q d - plo d) / dx d - st.bcentv d) * dx d * st.normal d =
        ((p.pos d - plo d) / dx d - st.bcentv d) * dx d * st.normal d -
          2 * wall_distance st dx plo p.pos * (st.normal d) ^ 2 := by
      intro d
      have hne : dx d ≠ 0 := ne_of_gt (hdx d)
      rw [h1 d]
      field_simp
      ring
    have hsum : wall_distance st dx plo q =
        wall_distance st dx plo p.pos -
          2 * wall_distance st dx plo p.pos * ∑ d, (st.normal d) ^ 2 := by
      rw [Finset.mul_sum]
      unfold wall_distance
      rw [← Finset.sum_sub_distrib]
      exact Finset.sum_congr rfl (fun d _ => hterm d)
    rw [hsum, hunit]
    ring
  · rw [if_neg hw] at heq
    rw [heq] at hrefl
    simp at hrefl

/-- C23 (counterexample): a cut cell (0, 2, 2) with the EB plane at 0.5 on direction 0
and unit normal (1, 0, 0), unit grid spacing, and a particle at the distance 2^-53
on the inner side of the plane, which is below the tolerance 2^-52: `impose_wall`
reflects it, and the distance of the new position to the plane is negative, so the
particle ends on the outer side. -/
theorem C23_counterexample :
    (∀ d : Fin 3, 0 < (![1, 1, 1] : RealVect 3) d) ∧
    (impose_wall_check (D := 3) 0
      ⟨![1 / 2 + 1 / 2 ^ 53, 5 / 2, 5 / 2], fun n => if n = 0 then -2 else 0⟩
      ![1, 1, 1] ![0, 0, 0] ![0, 0, 0] true (fun _ => EBCellFlag.singleValued)
      (fun _ _ => 0) (fun _ => ![-1, 0, 0]) (fun _ => 1 / 2) (1 / 10)
      ![1, 2, 2] ![0, 2, 2]).1 = true ∧
    ∑ d : Fin 3, ((impose_wall_plane (D := 3) 0
      ⟨![1 / 2 + 1 / 2 ^ 53, 5 / 2, 5 / 2], fun n => if n = 0 then -2 else 0⟩
      ![1, 1, 1] ![0, 0, 0] ![0, 0, 0] true (fun _ => EBCellFlag.singleValued)
      (fun _ _ => 0) (fun _ => ![-1, 0, 0]) (fun _ => 1 / 2) (1 / 10)
      ![1, 2, 2] ![0, 2, 2]).normal d) ^ 2 = 1 ∧
    wall_distance (impose_wall_plane (D := 3) 0
        ⟨![1 / 2 + 1 / 2 ^ 53, 5 / 2, 5 / 2], fun n => if n = 0 then -2 else 0⟩
        ![1, 1, 1] ![0, 0, 0] ![0, 0, 0] true (fun _ => EBCellFlag.singleValued)
        (fun _ _ => 0) (fun _ => ![-1, 0, 0]) (fun _ => 1 / 2) (1 / 10)
        ![1, 2, 2] ![0, 2, 2]) ![1, 1, 1] ![0, 0, 0]
      (impose_wall (D := 3) 0
        ⟨![1 / 2 + 1 / 2 ^ 53, 5 / 2, 5 / 2], fun n => if n = 0 then -2 else 0⟩
        ![1, 1, 1] ![0, 0, 0] ![8, 8, 8] ![0, 0, 0] true (fun _ => EBCellFlag.singleValued)
        (fun _ _ => 0) (fun _ => ![-1, 0, 0]) (fun _ => 1 / 2) (1 / 10)
        ![1, 2, 2] ![0, 2, 2]).pos < 0 := by
  have hplane : impose_wall_plane (D := 3) 0
      ⟨![1 / 2 + 1 / 2 ^ 53, 5 / 2, 5 / 2], fun n => if n = 0 then -2 else 0⟩
      ![1, 1, 1] ![0, 0, 0] ![0, 0, 0] true (fun _ => EBCellFlag.singleValued)
      (fun _ _ => 0) (fun _ => ![-1, 0, 0]) (fun _ => 1 / 2) (1 / 10)
      ![1, 2, 2] ![0, 2, 2] =
      { wall_check := true
        normal := fun dir => -(![-1, 0, 0] : RealVect 3) dir
        bcentv := fun dir => (((![0, 2, 2] : IntVect 3) dir : Int) : ℚ) + 1 / 2 + 0 } := by
    have hbc := check_wall_bc_no_flag (D := 3) ![0, 0, 0] ![0, 2, 2] (fun _ => 0)
      (by intro d; fin_cases d <;> simp)
    unfold impose_wall_plane check_wall_eb
    rw [if_pos ⟨rfl, hbc⟩]
    simp only [EBCellFlag.isSingleValued, if_true]
    rw [if_neg (by norm_num)]
  have hdist : wall_distance (D := 3)
      { wall_check := true
        normal := fun dir => -(![-1, 0, 0] : RealVect 3) dir
        bcentv := fun dir => (((![0, 2, 2] : IntVect 3) dir : Int) : ℚ) + 1 / 2 + 0 }
      ![1, 1, 1] ![0, 0, 0] ![1 / 2 + 1 / 2 ^ 53, 5 / 2, 5 / 2] = 1 / 2 ^ 53 := by
    norm_num [wall_distance, Fin.sum_univ_three]
  have hchk := impose_wall_check_eq (D := 3) 0
    ⟨![1 / 2 + 1 / 2 ^ 53, 5 / 2, 5 / 2], fun n => if n = 0 then -2 else 0⟩
    ![1, 1, 1] ![0, 0, 0] ![0, 0, 0] true (fun _ => EBCellFlag.singleValued)
    (fun _ _ => 0) (fun _ => ![-1, 0, 0]) (fun _ => 1 / 2) (1 / 10)
    ![1, 2, 2] ![0, 2, 2]
  rw [hplane] at hchk
  simp only [if_true] at hchk
  rw [hdist] at hchk
  have hrefl : (impose_wall_check (D := 3) 0
      ⟨![1 / 2 + 1 / 2 ^ 53, 5 / 2, 5 / 2], fun n => if n = 0 then -2 else 0⟩
      ![1, 1, 1] ![0, 0, 0] ![0, 0, 0] true (fun _ => EBCellFlag.singleValued)
      (fun _ _ => 0) (fun _ => ![-1, 0, 0]) (fun _ => 1 / 2) (1 / 10)
      ![1, 2, 2] ![0, 2, 2]).1 = true := by
    rw [hchk]
    norm_num [tolerance]
  have hpos := ((impose_wall_spec (D := 3) 0
    ⟨![1 / 2 + 1 / 2 ^ 53, 5 / 2, 5 / 2], fun n => if n = 0 then -2 else 0⟩
    ![1, 1, 1] ![0, 0, 0] ![8, 8, 8] ![0, 0, 0] true (fun _ => EBCellFlag.singleValued)
    (fun _ _ => 0) (fun _ => ![-1, 0, 0]) (fun _ => 1 / 2) (1 / 10)
    ![1, 2, 2] ![0, 2, 2]).1 hrefl).1
  rw [hchk] at hpos
  refine ⟨?_, hrefl, ?_, ?_⟩
  · intro d
    fin_cases d <;> norm_num
  · rw [hplane]
    norm_num [Fin.sum_univ_three]
  · rw [hplane]
    unfold wall_distance
    rw [Fin.sum_univ_three, hpos 0, hpos 1, hpos 2]
    norm_num

/-- C23 (amended): a reflection negates the signed wall distance.  Whenever
`impose_wall` reflects with a unit normal on a mesh with positive (also non-uniform)
grid spacing, `par_dot` is the signed distance of the old position to the selected
plane, and the signed distance of the new position to the same plane is exactly
`-par_dot`: the particle ends at the same distance on the other side of the plane,
on the inner side when `par_dot <= 0`, and in every case less than the tolerance
outside. -/
theorem C23_reflection_negates_distance {D : Nat} [NeZero D] (pstateVel : Nat)
    (p : Particle D) (dx plo phi : RealVect D) (bflags : IntVect D) (use_EB : Bool)
    (flags : IntVect D → EBCellFlag) (bcent bnorm : IntVect D → Fin D → ℚ)
    (vfrac : IntVect D → ℚ) (min_eb_vfrac : ℚ) (ijkc_prev ijkc : IntVect D)
    (hdx : ∀ d, 0 < dx d)
    (hrefl : (impose_wall_check pstateVel p dx plo bflags use_EB flags bcent bnorm vfrac
      min_eb_vfrac ijkc_prev ijkc).1 = true)
    (hunit : ∑ d, ((impose_wall_plane pstateVel p dx plo bflags use_EB flags bcent bnorm
      vfrac min_eb_vfrac ijkc_prev ijkc).normal d) ^ 2 = 1) :
    (impose_wall_check pstateVel p dx plo bflags use_EB flags bcent bnorm vfrac
        min_eb_vfrac ijkc_prev ijkc).2.1 =
      wall_distance (impose_wall_plane pstateVel p dx plo bflags use_EB flags bcent bnorm
        vfrac min_eb_vfrac ijkc_prev ijkc) dx plo p.pos ∧
    wall_distance (impose_wall_plane pstateVel p dx plo bflags use_EB flags bcent bnorm
        vfrac min_eb_vfrac ijkc_prev ijkc) dx plo
        (impose_wall pstateVel p dx plo phi bflags use_EB flags bcent bnorm vfrac
          min_eb_vfrac ijkc_prev ijkc).pos =
      -(impose_wall_check pstateVel p dx plo bflags use_EB flags bcent bnorm vfrac
        min_eb_vfrac ijkc_prev ijkc).2.1 ∧
    -tolerance < wall_distance (impose_wall_plane pstateVel p dx plo bflags use_EB flags
        bcent bnorm vfrac min_eb_vfrac ijkc_prev ijkc) dx plo
        (impose_wall pstateVel p dx plo phi bflags use_EB flags bcent bnorm vfrac
          min_eb_vfrac ijkc_prev ijkc).pos ∧
    ((impose_wall_check pstateVel p dx plo bflags use_EB flags bcent bnorm vfrac
        min_eb_vfrac ijkc_prev ijkc).2.1 ≤ 0 →
      0 ≤ wall_distance (impose_wall_plane pstateVel p dx plo bflags use_EB flags
        bcent bnorm vfrac min_eb_vfrac ijkc_prev ijkc) dx plo
        (impose_wall pstateVel p dx plo phi bflags use_EB flags bcent bnorm vfrac
          min_eb_vfrac ijkc_prev ijkc).pos) := by
  obtain ⟨h1, h2, h3⟩ := wall_distance_reflected pstateVel p dx plo phi bflags use_EB flags
    bcent bnorm vfrac min_eb_vfrac ijkc_prev ijkc hdx hrefl hunit
  refine ⟨h1, h3, ?_, fun hle => ?_⟩
  · rw [h3]
    linarith
  · rw [h3]
    linarith

/-- C23 (witness): the lower-boundary scenario on a mesh with the grid spacing
(1/2, 1, 2): the particle is 0.15 outside the lower face of direction 0 and ends 0.15
inside. -/
theorem C23_reflection_negates_distance_witness :
    wall_distance (impose_wall_plane (D := 3) 0
        ⟨![-3 / 20, 5 / 2, 5], fun n => if n = 0 then -2 else 0⟩
        ![1 / 2, 1, 2] ![0, 0, 0] ![-1, 0, 0] false (fun _ => EBCellFlag.regular)
        (fun _ _ => 0) (fun _ _ => 0) (fun _ => 1) 0 ![0, 2, 2] ![-1, 2, 2])
        ![1 / 2, 1, 2] ![0, 0, 0]
      (impose_wall (D := 3) 0
        ⟨![-3 / 20, 5 / 2, 5], fun n => if n = 0 then -2 else 0⟩
        ![1 / 2, 1, 2] ![0, 0, 0] ![8, 8, 8] ![-1, 0, 0] false (fun _ => EBCellFlag.regular)
        (fun _ _ => 0) (fun _ _ => 0) (fun _ => 1) 0 ![0, 2, 2] ![-1, 2, 2]).pos =
      -(impose_wall_check (D := 3) 0
        ⟨![-3 / 20, 5 / 2, 5], fun n => if n = 0 then -2 else 0⟩
        ![1 / 2, 1, 2] ![0, 0, 0] ![-1, 0, 0] false (fun _ => EBCellFlag.regular)
        (fun _ _ => 0) (fun _ _ => 0) (fun _ => 1) 0 ![0, 2, 2] ![-1, 2, 2]).2.1 :=
  (C23_reflection_negates_distance (D := 3) 0
    ⟨![-3 / 20, 5 / 2, 5], fun n => if n = 0 then -2 else 0⟩
    ![1 / 2, 1, 2] ![0, 0, 0] ![8, 8, 8] ![-1, 0, 0] false (fun _ => EBCellFlag.regular)
    (fun _ _ => 0) (fun _ _ => 0) (fun _ => 1) 0 ![0, 2, 2] ![-1, 2, 2]
    (by intro d; fin_cases d <;> norm_num)
    (by
      norm_num [impose_wall_check, check_wall, check_wall_eb, check_wall_bc, List.finRange,
        tolerance, Fin.sum_univ_three, Function.update_apply]
      simp +decide
      norm_num)
    (by
      norm_num [impose_wall_plane, check_wall_eb, check_wall_bc, List.finRange,
        Fin.sum_univ_three, Function.update_apply]
      simp +decide)).2.1

/-! ### The diameter solve of `amrex_probinit` -/

/-- A comparison `x > y` of two doubles that is false, with no NaN operand, means
`x <= y`. -/
theorem amrex_Real_le_of_not_gt (x y : amrex_Real) (hgt : x.gt y = false)
    (hx : x.isNan = false) (hy : y.isNan = false) : x.le y = true := by
  unfold amrex_Real.le
  rw [hx, hy, hgt]
  rfl

/-- With a NaN operand both comparisons `x > y` and `x <= y` are false. -/
theorem amrex_Real_nan_compare (y : amrex_Real) :
    amrex_Real.nan.gt y = false ∧ amrex_Real.nan.le y = false := by
  constructor
  · simp [amrex_Real.gt, amrex_Real.isNan]
  · simp [amrex_Real.le, amrex_Real.isNan]

/-- The starting value 1000 of `error` is above the tolerance: the loop is entered. -/
theorem probinit_error0_gt_tol : (amrex_Real.fin 1000).gt probinit_tol = true := by
  simp [amrex_Real.gt, amrex_Real.isNan, amrex_Real.isInf, amrex_Real.val, probinit_tol]
  norm_num

/-- The `while` loop from the state after `j <= 500` passes, all entered because the
error was above the tolerance, with more fuel than the `501 - j` passes that are
left: either some pass `n` with `j <= n <= 500` is the first whose error is not above
the tolerance, and the loop is left there with the values of that pass and `k = n`;
or the errors of the passes up to 500 are all above the tolerance and the loop aborts
in pass 501 with `k = 501`. -/
theorem probinit_loop_iterate (P : ProbinitParm) (dia0 : amrex_Real) (d : Nat) :
    ∀ (j fuel : Nat), j + d = 501 → 1 ≤ d → d < fuel →
      (∀ m, m < j → (probinit_iterate P dia0 m).2.gt probinit_tol = true) →
      (∃ n : Nat, j ≤ n ∧ n ≤ 500 ∧
        (∀ m, m < n → (probinit_iterate P dia0 m).2.gt probinit_tol = true) ∧
        (probinit_iterate P dia0 n).2.gt probinit_tol = false ∧
        probinit_loop P fuel (probinit_iterate P dia0 j).1 (probinit_iterate P dia0 j).2
            (j : Int) =
          DiaSolve.exited (probinit_iterate P dia0 n).1 (probinit_iterate P dia0 n).2
            (n : Int)) ∨
      ((∀ m, m ≤ 500 → (probinit_iterate P dia0 m).2.gt probinit_tol = true) ∧
        probinit_loop P fuel (probinit_iterate P dia0 j).1 (probinit_iterate P dia0 j).2
            (j : Int) = DiaSolve.aborted 501) := by
  induction d with
  | zero =>
    intro j fuel _ hd
    omega
  | succ d ih =>
    intro j fuel hj _ hfuel hprev
    obtain ⟨f, rfl⟩ := Nat.exists_eq_succ_of_ne_zero (by omega : fuel ≠ 0)
    rw [probinit_loop]
    by_cases herr : (probinit_iterate P dia0 j).2.gt probinit_tol = true
    · rw [if_pos herr]
      simp only
      have hall : ∀ m, m < j + 1 → (probinit_iterate P dia0 m).2.gt probinit_tol = true := by
        intro m hm
        rcases Nat.lt_succ_iff_lt_or_eq.mp hm with h | h
        · exact hprev m h
        · rw [h]
          exact herr
      by_cases hab : (j : Int) + 1 > probinit_maxIter
      · rw [if_pos hab]
        right
        unfold probinit_maxIter at hab
        have hj500 : j = 500 := by omega
        refine ⟨fun m hm => hall m (by omega), ?_⟩
        rw [hj500]
        rfl
      · rw [if_neg hab]
        unfold probinit_maxIter at hab
        have hstep := ih (j + 1) f (by omega) (by omega) (by omega) hall
        have hcast : ((j + 1 : Nat) : Int) = (j : Int) + 1 := by push_cast; rfl
        rw [hcast] at hstep
        rcases hstep with ⟨n, h1, h2, h3, h4, h5⟩ | ⟨h1, h2⟩
        · left
          exact ⟨n, by omega, h2, h3, h4, h5⟩
        · right
          exact ⟨h1, h2⟩
    · rw [if_neg herr]
      left
      exact ⟨j, le_rfl, by omega, hprev, by simpa using herr, rfl⟩

/-- The diameter solve of `amrex_probinit` with enough fuel (502 passes or more) ends,
for every parameter set, first guess and `std::pow`.  Either the body runs `n` times
with `1 <= n <= 500`: the errors before pass `n` are above the tolerance, the error
of pass `n` is not, the loop is left with the values of pass `n` and the counter
`k = n`, and that error is a NaN or at most the tolerance.  Or the body runs 501
times: the errors of the passes up to 500 are above the tolerance and the run is
aborted at `k = 501`. -/
theorem amrex_probinit_solve_spec (P : ProbinitParm) (fuel : Nat) (dia0 : amrex_Real)
    (hfuel : 502 ≤ fuel) :
    (∃ n : Nat, 1 ≤ n ∧ n ≤ 500 ∧
      (∀ m, m < n → (probinit_iterate P dia0 m).2.gt probinit_tol = true) ∧
      (probinit_iterate P dia0 n).2.gt probinit_tol = false ∧
      ((probinit_iterate P dia0 n).2.isNan = true ∨
        (probinit_iterate P dia0 n).2.le probinit_tol = true) ∧
      amrex_probinit_solve P fuel dia0 =
        DiaSolve.exited (probinit_iterate P dia0 n).1 (probinit_iterate P dia0 n).2
          (n : Int)) ∨
    ((∀ m, m ≤ 500 → (probinit_iterate P dia0 m).2.gt probinit_tol = true) ∧
      amrex_probinit_solve P fuel dia0 = DiaSolve.aborted 501) := by
  have h := probinit_loop_iterate P dia0 501 0 fuel rfl (by omega) (by omega)
    (fun m hm => absurd hm (Nat.not_lt_zero m))
  rcases h with ⟨n, -, h2, h3, h4, h5⟩ | ⟨h1, h2⟩
  · left
    have hn : 1 ≤ n := by
      rcases Nat.eq_zero_or_pos n with h0 | h0
      · rw [h0] at h4
        have := probinit_error0_gt_tol
        simp only [probinit_iterate] at h4
        rw [this] at h4
        exact absurd h4 (by simp)
      · exact h0
    refine ⟨n, hn, h2, h3, h4, ?_, h5⟩
    by_cases hnan : (probinit_iterate P dia0 n).2.isNan = true
    · exact Or.inl hnan
    · exact Or.inr (amrex_Real_le_of_not_gt _ _ h4 (by simpa using hnan) rfl)
  · right
    exact ⟨h1, h2⟩

/-- One pass of the body from the diameter 0 with `tau_d = 0`: the Reynolds number is
0, `C_D = 24 / 0` is an infinity, the new diameter holds the product of that infinity
and the zero `tau_d`, a NaN, and the error is a NaN. -/
theorem probinit_body_stmod_zero :
    probinit_body probinit_stmod_zero (.fin 0) = (.nan, .nan) := by
  have h1 : (amrex_Real.fin 0).mul (.fin 1) = .fin 0 := by
    simp [amrex_Real.mul, amrex_Real.isNan, amrex_Real.isInf, amrex_Real.val, amrex_Real.zero,
      amrex_Real.signbit]
  have h2 : (amrex_Real.fin 0).div (.fin 1) = .fin 0 := by
    simp [amrex_Real.div, amrex_Real.isNan, amrex_Real.isInf, amrex_Real.isZero,
      amrex_Real.val, amrex_Real.zero, amrex_Real.signbit]
  have h3 : (amrex_Real.fin 24).div (.fin 0) = .inf false := by
    simp [amrex_Real.div, amrex_Real.isNan, amrex_Real.isInf, amrex_Real.isZero,
      amrex_Real.val, amrex_Real.zero, amrex_Real.signbit]
  have h4 : (amrex_Real.fin 0).gt (.fin 1) = false := by
    simp [amrex_Real.gt, amrex_Real.isNan, amrex_Real.isInf, amrex_Real.val]
  have h5 : (amrex_Real.fin (3 / 4)).mul (.fin 1) = .fin (3 / 4) := by
    simp [amrex_Real.mul, amrex_Real.isNan, amrex_Real.isInf, amrex_Real.val, amrex_Real.zero,
      amrex_Real.signbit]
  have h6 : (amrex_Real.fin (3 / 4)).mul (.inf false) = .inf false := by
    simp [amrex_Real.mul, amrex_Real.isNan, amrex_Real.isInf, amrex_Real.isZero,
      amrex_Real.signbit]
    norm_num
  have h7 : (amrex_Real.inf false).mul (.fin 1) = .inf false := by
    simp [amrex_Real.mul, amrex_Real.isNan, amrex_Real.isInf, amrex_Real.isZero,
      amrex_Real.signbit]
  have h8 : (amrex_Real.inf false).mul (.fin 0) = .nan := by
    simp [amrex_Real.mul, amrex_Real.isNan, amrex_Real.isInf, amrex_Real.isZero]
  have h9 : amrex_Real.nan.div (.fin 1000) = .nan := by
    simp [amrex_Real.div, amrex_Real.isNan]
  have h10 : (amrex_Real.fin 0).sub .nan = .nan := by
    simp [amrex_Real.sub, amrex_Real.add, amrex_Real.neg, amrex_Real.isNan]
  have h11 : amrex_Real.nan.abs = .nan := rfl
  have h12 : amrex_Real.nan.div .nan = .nan := by
    simp [amrex_Real.div, amrex_Real.isNan]
  simp only [probinit_body, probinit_stmod_zero, h1, h2, h3, h4, h5, h6, h7, h8, h9, h10, h11,
    h12, Bool.false_eq_true, if_false]

/-- The diameter solve with `tau_d = 0` from the first guess 0, with fuel for two
tests of the loop condition or more: the loop is entered, the first pass gives a NaN
diameter and a NaN error, the counter 1 is not above `maxIter`, and the loop is left
because `NaN > tol` is false. -/
theorem amrex_probinit_solve_stmod_zero (fuel : Nat) :
    amrex_probinit_solve probinit_stmod_zero (fuel + 2) (.fin 0) =
      DiaSolve.exited .nan .nan 1 := by
  unfold amrex_probinit_solve
  rw [probinit_loop, if_pos probinit_error0_gt_tol]
  simp only [probinit_body_stmod_zero]
  rw [if_neg (by unfold probinit_maxIter; decide)]
  rw [probinit_loop, if_neg (by rw [(amrex_Real_nan_compare probinit_tol).1]; simp)]
  rfl

/-- One pass of the body from a NaN diameter gives a NaN diameter and a NaN error,
whatever the parameters are: every product and quotient of the pass has a NaN
operand. -/
theorem probinit_body_nan (P : ProbinitParm) :
    probinit_body P .nan = (.nan, .nan) := by
  have hmul : ∀ y : amrex_Real, amrex_Real.nan.mul y = .nan := by
    intro y
    simp [amrex_Real.mul, amrex_Real.isNan]
  have hmulr : ∀ x : amrex_Real, x.mul .nan = .nan := by
    intro x
    simp [amrex_Real.mul, amrex_Real.isNan]
  have hdiv : ∀ y : amrex_Real, amrex_Real.nan.div y = .nan := by
    intro y
    simp [amrex_Real.div, amrex_Real.isNan]
  have hdivr : ∀ x : amrex_Real, x.div .nan = .nan := by
    intro x
    simp [amrex_Real.div, amrex_Real.isNan]
  have hgt : ∀ y : amrex_Real, amrex_Real.nan.gt y = false := by
    intro y
    simp [amrex_Real.gt, amrex_Real.isNan]
  have hsub : amrex_Real.nan.sub .nan = .nan := by
    simp [amrex_Real.sub, amrex_Real.add, amrex_Real.isNan]
  have habs : amrex_Real.nan.abs = .nan := rfl
  simp only [probinit_body, hmul, hmulr, hdiv, hdivr, hgt, hsub, habs, Bool.false_eq_true,
    if_false]

/-- The diameter solve from a NaN first guess, which `prob.mach = 0` gives
(`refU = 0`, `mu = 0`, `tau_g = refL / 0`), ends after one pass without abort, for
every parameter set. -/
theorem amrex_probinit_solve_nan_guess (P : ProbinitParm) (fuel : Nat) :
    amrex_probinit_solve P (fuel + 2) .nan = DiaSolve.exited .nan .nan 1 := by
  unfold amrex_probinit_solve
  rw [probinit_loop, if_pos probinit_error0_gt_tol]
  simp only [probinit_body_nan]
  rw [if_neg (by unfold probinit_maxIter; decide)]
  rw [probinit_loop, if_neg (by rw [(amrex_Real_nan_compare probinit_tol).1]; simp)]
  rfl

/-- C22 (failing input): with `prob.st_mod = 0` the quantities before the loop are
`tau_d = 0` and the first guess `dia = sqrt(0) = 0`.  The diameter solve then makes
one pass, whose diameter and error are NaN, and ends without `amrex::Abort` at the
counter `k = 1 <= maxIter`: the loop condition `error > tol` is false for a NaN.
The value it ends with is not converged: `error <= tol` is false too. -/
theorem C22_stmod_zero_ends_unconverged :
    amrex_probinit_solve probinit_stmod_zero 502 (.fin 0) = DiaSolve.exited .nan .nan 1 ∧
    amrex_Real.nan.gt probinit_tol = false ∧
    amrex_Real.nan.le probinit_tol = false ∧
    (1 : Int) ≤ probinit_maxIter :=
  ⟨amrex_probinit_solve_stmod_zero 500, (amrex_Real_nan_compare probinit_tol).1,
    (amrex_Real_nan_compare probinit_tol).2, by unfold probinit_maxIter; decide⟩

/-! ### Divisions in `check_wall` -/

/-- Without the precondition a division by zero does occur: the particle went from
the regular cell (1, 2, 2) into the covered cell (0, 2, 2) with the velocity
(0, 1, 0), and the search divides by the velocity component of direction 0. -/
theorem check_wall_safe_zero_velocity :
    check_wall_safe (D := 3) ![3 / 10, 5 / 2, 5 / 2] ![0, 0, 0] ![1, 1, 1] ![0, 2, 2]
      ![1, 2, 2] ![0, 1, 0] true
      (fun c => if c 0 = 0 then EBCellFlag.covered else EBCellFlag.regular)
      (fun _ _ => 0) (fun _ _ => 0) (fun _ => 1) (1 / 10) 2 ![0, 0, 0] = none := by
  have hbc := check_wall_bc_no_flag (D := 3) ![0, 0, 0] ![0, 2, 2] ![0, 0, 0]
    (by intro d; fin_cases d <;> simp)
  unfold check_wall_safe check_wall_eb_safe
  rw [if_pos ⟨rfl, hbc⟩]
  simp +decide [check_wall_search_body_safe, checked_div, List.finRange,
    EBCellFlag.isSingleValued, EBCellFlag.isCovered, Function.update_apply]

/-- C24: `check_wall` performs no division by zero under the precondition that
`vel_part[dir] != 0` on every direction `dir` where `ijkc_prev[dir] != ijkc[dir]`,
whatever the other arguments are: the call with every division checked returns the
result of `check_wall`.  The division for a cut neighbour is guarded by
`vel_part . n != 0` and needs no precondition; the only other division, for a
covered neighbour, divides by `vel_part[dir]` on a direction that changes cell. -/
theorem C24_no_division_by_zero {D : Nat} [NeZero D] (pos : RealVect D)
    (bflags : IntVect D) (dx : RealVect D) (ijkc ijkc_prev : IntVect D)
    (vel_part : RealVect D) (use_EB : Bool) (flags : IntVect D → EBCellFlag)
    (bcent bnorm : IntVect D → Fin D → ℚ) (vfrac : IntVect D → ℚ) (min_eb_vfrac : ℚ)
    (par_dot : ℚ) (normal : RealVect D)
    (hvel : ∀ dir, ijkc_prev dir ≠ ijkc dir → vel_part dir ≠ 0) :
    check_wall_safe pos bflags dx ijkc ijkc_prev vel_part use_EB flags bcent bnorm vfrac
        min_eb_vfrac par_dot normal =
      some (check_wall pos bflags dx ijkc ijkc_prev vel_part use_EB flags bcent bnorm vfrac
        min_eb_vfrac par_dot normal) ∧
    (∀ (vel_part' : RealVect D) (dir : Fin D) (st : SearchState D),
      (flags (Function.update ijkc_prev dir (ijkc dir))).isSingleValued = true →
      check_wall_search_body_safe pos ijkc ijkc_prev vel_part' flags bcent bnorm dir st =
        some (check_wall_search_body pos ijkc ijkc_prev vel_part' flags bcent bnorm dir
          st)) ∧
    (∀ (vel_part' : RealVect D) (dir : Fin D) (st : SearchState D),
      ijkc_prev dir = ijkc dir →
      check_wall_search_body_safe pos ijkc ijkc_prev vel_part' flags bcent bnorm dir st =
        some st) := by
  refine ⟨?_, fun vel_part' dir st hs => ?_, fun vel_part' dir st heq => ?_⟩
  · exact check_wall_safe_eq pos bflags dx ijkc ijkc_prev vel_part use_EB flags bcent bnorm
      vfrac min_eb_vfrac par_dot normal (fun dir hne _ _ => hvel dir hne)
  · exact check_wall_search_body_safe_eq pos ijkc ijkc_prev vel_part' flags bcent bnorm dir
      st (fun _ hns _ => by rw [hs] at hns; exact absurd hns (by simp))
  · unfold check_wall_search_body_safe
    rw [if_neg (by simp [heq])]

/-- C24 (witness): the particle went from the cell (1, 3, 2) into the covered cell
(0, 2, 2) with the velocity (-2, -1, 0), not zero on the two directions that change
cell; both neighbours are covered. -/
theorem C24_no_division_by_zero_witness :
    check_wall_safe (D := 3) ![3 / 10, 5 / 2, 5 / 2] ![0, 0, 0] ![1, 1, 1] ![0, 2, 2]
      ![1, 3, 2] ![-2, -1, 0] true
      (fun c => if c 0 = 0 ∨ c 1 = 2 then EBCellFlag.covered else EBCellFlag.regular)
      (fun _ _ => 0) (fun _ _ => 0) (fun _ => 1) (1 / 10) 2 ![0, 0, 0] =
    some (check_wall (D := 3) ![3 / 10, 5 / 2, 5 / 2] ![0, 0, 0] ![1, 1, 1] ![0, 2, 2]
      ![1, 3, 2] ![-2, -1, 0] true
      (fun c => if c 0 = 0 ∨ c 1 = 2 then EBCellFlag.covered else EBCellFlag.regular)
      (fun _ _ => 0) (fun _ _ => 0) (fun _ => 1) (1 / 10) 2 ![0, 0, 0]) :=
  (C24_no_division_by_zero (D := 3) ![3 / 10, 5 / 2, 5 / 2] ![0, 0, 0] ![1, 1, 1]
    ![0, 2, 2] ![1, 3, 2] ![-2, -1, 0] true
    (fun c => if c 0 = 0 ∨ c 1 = 2 then EBCellFlag.covered else EBCellFlag.regular)
    (fun _ _ => 0) (fun _ _ => 0) (fun _ => 1) (1 / 10) 2 ![0, 0, 0]
    (by intro dir h; fin_cases dir <;> simp at h ⊢)).1

end PeleMP
